import Mathlib

/-!
fbv: the multi-frame GIF frame store and decoder.

A shallow embedding of `gif.c`, and the properties of its frame store
(`fh_gif_load`, `fh_gif_next`, `fh_gif_unload`) proved or refuted on it.

Conventions of the embedding.
* C `int`s that the code only ever sets to non-negative values (counts, sizes,
  offsets) are natural numbers.  `transparency`, which the code initialises to
  `-1`, is an integer.
* The dimensions of a frame come from the file, 16 bits each, and their
  product `px * py` can leave the range of `int`: it is reduced to 32 bits
  (`int32`) where the code compares it (gif.c 128) and where it hands it to
  `malloc` (gif.c 153).  ISO C leaves a signed overflow undefined; the
  compilers in use wrap.  The sizes that depend on the bounding box alone,
  `x * y` and `x * y * 3`, are exact in the blocks of the model: the
  development is about calls with `x * y * 3 < 2^31`.
* A memory cell is `Option Byte`: `none` is an indeterminate byte (memory that
  `malloc` returned and nobody wrote, or a byte read past the end of a block).
* `malloc` is an oracle: a list of outcomes, consumed one per call, the empty
  list meaning that every further call succeeds.
* giflib is an external library.  The record stream is what its pull interface
  answers, grouped by record: one element per `DGifGetRecordType` call,
  carrying the answers to the calls the code makes while it handles that
  record.  Answers the code never asks for are not seen: what the library does
  with the scanlines of an image the code skips shows only in the records that
  follow in the list.
* An execution that dereferences a null pointer, or that writes a scanline
  outside the block it is copied to, ends with the outcome
  `undefinedBehaviour`.
-/

namespace Fbv

/-- An octet. -/
abbrev Byte := Fin 256

/-- One byte of memory; `none` is an indeterminate value. -/
abbrev Cell := Option Byte

/-- A heap block. -/
abbrev Buffer := List Cell

/-- Return codes of `fbv.h`, and one more outcome for an execution that
dereferences a null pointer or writes outside a block (no return code exists
for it). -/
inductive FhError where
  | FH_ERROR_OK
  | FH_ERROR_FILE
  | FH_ERROR_FORMAT
  | FH_ERROR_MEM
  | undefinedBehaviour
  deriving DecidableEq, Repr

/-- The value of an `int` expression whose exact value is `v`: `v` reduced to
32 bits in two's complement, which is `v` itself when `-2^31 ≤ v < 2^31`. -/
def int32 (v : Int) : Int :=
  (v + 2147483648) % 4294967296 - 2147483648

/-- The capacity of the frame arrays: `#define MAX_IMAGES 64`. -/
def MAX_IMAGES : Nat := 64

/-- The static variables of `gif.c`: the frame store. -/
structure GifStore where
  imagecount : Nat
  imageix : Nat
  images : List (Option Buffer)
  alphas : List (Option Buffer)
  userinputs : List Nat
  disposalmethods : List Nat
  delays : List Nat
  deriving DecidableEq, Repr

/-- The store at program start: static storage is zero-initialised. -/
def GifStore.initial : GifStore :=
  { imagecount := 0, imageix := 0,
    images := List.replicate MAX_IMAGES none,
    alphas := List.replicate MAX_IMAGES none,
    userinputs := List.replicate MAX_IMAGES 0,
    disposalmethods := List.replicate MAX_IMAGES 0,
    delays := List.replicate MAX_IMAGES 0 }

/-- The five arrays have their declared length. -/
def GifStore.Sized (s : GifStore) : Prop :=
  s.images.length = MAX_IMAGES ∧ s.alphas.length = MAX_IMAGES ∧
  s.userinputs.length = MAX_IMAGES ∧ s.disposalmethods.length = MAX_IMAGES ∧
  s.delays.length = MAX_IMAGES

/-- The call `memcpy(dst, src, n)` into a fresh block of `n` bytes: the first
`n` cells of `src`; cells past the end of `src` are indeterminate. -/
def memcpy (src : Buffer) (n : Nat) : Buffer :=
  src.take n ++ List.replicate (n - src.length) none

/-- The call `memcpy(buf + off, src, src.length)`: cells `off ..` of `buf`
are replaced by `src`; the block keeps its size. -/
def writeAt (buf : Buffer) (off : Nat) (src : Buffer) : Buffer :=
  (List.range buf.length).map fun k =>
    if off ≤ k ∧ k < off + src.length then src.getD (k - off) none else buf.getD k none

/-- One `malloc` call against the oracle: its outcome and the rest of the oracle. -/
def malloc (heap : List Bool) : Bool × List Bool :=
  (heap.headD true, heap.tail)

/-- What one `fh_gif_next` call leaves behind: the return code, the values
stored through `buffer` and `alpha` (`none` when the call did not write the
pointer), and the frame store. -/
structure NextResult where
  ret : FhError
  buffer : Option Buffer
  alpha : Option (Option Buffer)
  store : GifStore
  deriving DecidableEq, Repr

/-- The function `fh_gif_next` (gif.c 272-307). `wantAlpha` says that the
caller passed a non-null `alpha`; `m1` and `m2` are the outcomes of the two
`malloc` calls (pixel copy, alpha copy). -/
def fh_gif_next (s : GifStore) (wantAlpha : Bool) (x y : Nat) (m1 m2 : Bool) : NextResult :=
  if s.imagecount = 0 then
    { ret := .FH_ERROR_FORMAT, buffer := none, alpha := none, store := s }
  else if m1 = false then
    { ret := .FH_ERROR_MEM, buffer := none, alpha := none, store := s }
  else
    let ix := if s.imageix + 1 ≥ s.imagecount then 0 else s.imageix + 1
    let s1 := { s with imageix := ix }
    match s.images.getD ix none with
    | none => { ret := .undefinedBehaviour, buffer := none, alpha := none, store := s1 }
    | some img =>
      let wr_buffer := memcpy img (x * y * 3)
      if wantAlpha then
        match s.alphas.getD ix none with
        | some a =>
          if m2 then
            { ret := .FH_ERROR_OK, buffer := some wr_buffer,
              alpha := some (some (memcpy a (x * y))), store := s1 }
          else
            { ret := .FH_ERROR_MEM, buffer := none, alpha := none, store := s1 }
        | none =>
          { ret := .FH_ERROR_OK, buffer := some wr_buffer, alpha := some none, store := s1 }
      else
        { ret := .FH_ERROR_OK, buffer := some wr_buffer, alpha := none, store := s1 }

/-- The function `fh_gif_unload` (gif.c 309-322): slots `0 .. imagecount-1` of
`images` and `alphas` are freed and nulled, then the count is reset. -/
def fh_gif_unload (s : GifStore) : GifStore :=
  { s with
    images := (List.range s.imagecount).foldl (fun a i => a.set i none) s.images,
    alphas := (List.range s.imagecount).foldl (fun a i => a.set i none) s.alphas,
    imagecount := 0 }

/-- The function `fh_gif_get_delay` (gif.c 49-52). -/
def fh_gif_get_delay (s : GifStore) : Nat :=
  s.delays.getD s.imageix 0 * 10

/-- The function `fh_gif_get_disposal_method` (gif.c 54-57). -/
def fh_gif_get_disposal_method (s : GifStore) : Nat :=
  s.disposalmethods.getD s.imageix 0

/-- The function `fh_gif_get_userinput` (gif.c 59-62). -/
def fh_gif_get_userinput (s : GifStore) : Nat :=
  s.userinputs.getD s.imageix 0

/-- A colour table entry: `GifColorType`. -/
structure GifColorType where
  Red : Byte
  Green : Byte
  Blue : Byte
  deriving DecidableEq, Repr

/-- A colour table: `ColorMapObject`. -/
structure ColorMapObject where
  ColorCount : Nat
  Colors : List GifColorType
  deriving DecidableEq, Repr

/-- The fields of `gft->Image` that `fh_gif_load` reads after a successful
`DGifGetImageDesc`; `ColorMap` is the local colour table, `none` when null. -/
structure GifImageDesc where
  Width : Nat
  Height : Nat
  Interlace : Bool
  ColorMap : Option ColorMapObject
  deriving DecidableEq, Repr

/-- One record of the stream, as giflib answers it.
* `imageDesc desc lines`: record type `IMAGE_DESC_RECORD_TYPE`; `desc` is the
  answer of `DGifGetImageDesc` (`none` is `GIF_ERROR`), and the `n`-th
  `DGifGetLine` call of this record answers `lines[n]` (`none`, or no such
  element, is `GIF_ERROR`).
* `extension first more`: record type `EXTENSION_RECORD_TYPE`; `first` is the
  answer of `DGifGetExtension` (`none` is `GIF_ERROR`, else the code and the
  block, `none` for a null block); `more` are the answers of the
  `DGifGetExtensionNext` calls that follow (`none` is `GIF_ERROR`), after
  which the library answers a null block.
* `terminate`: record type `TERMINATE_RECORD_TYPE`.
* `other`: any other record type (the `default` branch).
* `readError`: `DGifGetRecordType` answers `GIF_ERROR`. -/
inductive GifRecord where
  | imageDesc (desc : Option GifImageDesc) (lines : List (Option (List Byte)))
  | extension (first : Option (Nat × Option (List Byte))) (more : List (Option (List Byte)))
  | terminate
  | other
  | readError
  deriving DecidableEq, Repr

/-- An opened GIF file: the global colour table `gft->SColorMap` and the records. -/
structure GifFile where
  SColorMap : Option ColorMapObject
  records : List GifRecord
  deriving DecidableEq, Repr

/-- The `n`-th `DGifGetLine` call of an image record. -/
def DGifGetLine (lines : List (Option (List Byte))) (n : Nat) : Option (List Byte) :=
  lines.getD n none

/-- The line buffer `slb` after a successful `DGifGetLine(gft, slb, px)`. -/
def scanline (pixels : List Byte) (px : Nat) : Buffer :=
  (List.range px).map fun j => pixels[j]?

/-- The function `m_rend_gif_decodecolormap` (gif.c 75-86): the block `rgbb`
after the call, `3 * l` cells; cell `3*i + c` is channel `c` of
`cm->Colors[cmb[i]]`, indeterminate when the index is, or lies outside the table. -/
def m_rend_gif_decodecolormap (cmb : Buffer) (cm : ColorMapObject) (l : Nat) : Buffer :=
  (List.range (3 * l)).map fun k =>
    match cmb.getD (k / 3) none with
    | none => none
    | some v =>
      match cm.Colors[v.val]? with
      | none => none
      | some cmentry =>
        if k % 3 = 0 then some cmentry.Red
        else if k % 3 = 1 then some cmentry.Green
        else some cmentry.Blue

/-- The alpha byte of one pixel:
`(slb[j] == transparency) ? 0x00 : 0xff` (gif.c 169, 190). -/
def alphaOf (transparency : Int) (c : Cell) : Cell :=
  c.map fun v => if (v.val : Int) = transparency then (0x00 : Byte) else (0xff : Byte)

/-- The rows `i` visited by `for (i = begin; i < py; i += step)`; `fuel` bounds
the number of iterations (`py` is enough for a positive `step`). -/
def passRows (step py : Nat) : Nat → Nat → List Nat
  | 0, _ => []
  | fuel + 1, i => if i < py then i :: passRows step py fuel (i + step) else []

/-- The table `in_nextrow` (gif.c 93). -/
def in_nextrow : List Nat := [8, 8, 4, 2]

/-- The table `in_beginrow` (gif.c 94). -/
def in_beginrow : List Nat := [0, 4, 2, 1]

/-- The rows in the order the interlaced branch fills them (gif.c 176-192):
pass `j = 0..3` visits `in_beginrow[j], in_beginrow[j] + in_nextrow[j], ...`. -/
def interlaceRows (py : Nat) : List Nat :=
  (List.range 4).flatMap fun j => passRows (in_nextrow.getD j 0) py py (in_beginrow.getD j 0)

/-- The rows in the order the sequential branch fills them (gif.c 162-170). -/
def sequentialRows (py : Nat) : List Nat :=
  List.range py

/-- The scanline loops of `fh_gif_load` (gif.c 162-170 and 184-191), which
share their body: for each row `i` of `rows`, in order, read the next line
(call number `n`), expand it through the colour table, copy it to
`image + i*px*3`, and, when there is an alpha block, write the `px` alpha
bytes at `alphabuffer + i*px`.  The result is `false` when a read failed
(`mgrflush`), with the blocks as written so far. -/
def decodeRows (lines : List (Option (List Byte))) (cmap : ColorMapObject) (px : Nat)
    (transparency : Int) : List Nat → Nat → Buffer → Option Buffer → Bool × Buffer × Option Buffer
  | [], _, image, alphabuffer => (true, image, alphabuffer)
  | i :: rows, n, image, alphabuffer =>
    match DGifGetLine lines n with
    | none => (false, image, alphabuffer)
    | some pixels =>
      let slb := scanline pixels px
      let lb := m_rend_gif_decodecolormap slb cmap px
      decodeRows lines cmap px transparency rows (n + 1)
        (writeAt image (i * px * 3) lb)
        (alphabuffer.map fun a => writeAt a (i * px) (slb.map (alphaOf transparency)))

/-- The arguments of one `fh_gif_load` call that stay fixed while it runs:
the global colour table of the opened file, whether `alpha` is non-null, and
the bounding box `x`, `y`. -/
structure LoadCall where
  SColorMap : Option ColorMapObject
  wantAlpha : Bool
  x : Nat
  y : Nat
  deriving DecidableEq, Repr

/-- The variables of a running `fh_gif_load`: the frame store, the locals that
live across records, the values stored through `buffer` and `alpha` so far
(`none`: not written), and the `malloc` oracle. -/
structure LoadState where
  store : GifStore
  transparency : Int
  userinput : Nat
  disposalmethod : Nat
  delay : Nat
  loadedfirstimage : Bool
  buffer : Option Buffer
  alpha : Option (Option Buffer)
  heap : List Bool
  deriving DecidableEq, Repr

/-- How the body of the record loop ends: go on with the next record, leave
the loop (terminator seen), or return from the function. -/
inductive Flow where
  | next
  | done
  | ret (e : FhError)
  deriving DecidableEq, Repr

/-- The first-frame copy-out of `fh_gif_load` (gif.c 194-222). -/
def copyFirst (c : LoadCall) (st : LoadState) (image : Buffer) (alphabuffer : Option Buffer) :
    Flow × LoadState :=
  if st.loadedfirstimage then (.next, st)
  else
    let m := malloc st.heap
    if m.1 = false then (.ret .FH_ERROR_MEM, { st with heap := m.2 })
    else
      let wr_buffer := memcpy image (c.x * c.y * 3)
      if c.wantAlpha then
        match alphabuffer with
        | some a =>
          let m2 := malloc m.2
          if m2.1 then
            (.next, { st with heap := m2.2, alpha := some (some (memcpy a (c.x * c.y))),
                              buffer := some wr_buffer, loadedfirstimage := true })
          else (.ret .FH_ERROR_MEM, { st with heap := m2.2 })
        | none =>
          (.next, { st with heap := m.2, alpha := some none,
                            buffer := some wr_buffer, loadedfirstimage := true })
      else
        (.next, { st with heap := m.2, buffer := some wr_buffer, loadedfirstimage := true })

/-- The stores into slot `imagecount` of the five arrays, and `imagecount++`
(gif.c 141-144, 155-156). -/
def storeFrame (s : GifStore) (image : Buffer) (alphabuffer : Option Buffer)
    (userinput disposalmethod delay : Nat) : GifStore :=
  { s with
    images := s.images.set s.imagecount (some image),
    userinputs := s.userinputs.set s.imagecount userinput,
    disposalmethods := s.disposalmethods.set s.imagecount disposalmethod,
    delays := s.delays.set s.imagecount delay,
    alphas := s.alphas.set s.imagecount alphabuffer,
    imagecount := s.imagecount + 1 }

/-- The allocation of the frame's alpha block, `malloc(px * py)` (gif.c
151-154): attempted only when a transparency index is set; the outcome and the
rest of the oracle.  `size` is the `int` value of `px * py`: a negative one is
converted to a `size_t` beyond any block that can exist, and the call fails
whatever the oracle answers. -/
def allocAlpha (transparency : Int) (size : Int) (heap : List Bool) : Bool × List Bool :=
  if transparency ≠ -1 then ((malloc heap).1 && decide (0 ≤ size), (malloc heap).2)
  else (false, heap)

/-- The rows that the scanline loops visit for a frame of height `py`
(gif.c 162 and 176-184). -/
def frameRows (d : GifImageDesc) : List Nat :=
  if d.Interlace then interlaceRows d.Height else sequentialRows d.Height

/-- The decoding of one frame (gif.c 151-193): the alpha block is allocated
(`px * py` bytes, the product taken as an `int`) when a transparency index is
set, then the rows are filled sequentially or in interlace order into the
fresh `x * y * 3` pixel block. -/
def decodeFrame (c : LoadCall) (transparency : Int) (d : GifImageDesc)
    (lines : List (Option (List Byte))) (cmap : ColorMapObject) (heap : List Bool) :
    Bool × Buffer × Option Buffer :=
  let px := d.Width
  let py := d.Height
  let alphabuffer : Option Buffer :=
    if (allocAlpha transparency (int32 (px * py)) heap).1 then
      some (List.replicate (int32 (px * py)).toNat none)
    else none
  decodeRows lines cmap px transparency (frameRows d) 0
    (List.replicate (c.x * c.y * 3) none) alphabuffer

/-- Whether the scanline loops write outside a block: for the rows of `rows`,
in order, as long as the line (call number `n`) is read, row `i` takes the
`px * 3` bytes from `image + i*px*3`, which must lie in the `imageSize` bytes
of the pixel block, and, when there is an alpha block, the `px` bytes from
`alphabuffer + i*px`, which must lie in its `alphaSize` bytes. -/
def overrun (lines : List (Option (List Byte))) (px imageSize : Nat) (alphaSize : Option Nat) :
    List Nat → Nat → Bool
  | [], _ => false
  | i :: rows, n =>
    match DGifGetLine lines n with
    | none => false
    | some _ =>
      decide (imageSize < i * px * 3 + px * 3) ||
        (match alphaSize with
         | some a => decide (a < i * px + px)
         | none => false) ||
        overrun lines px imageSize alphaSize rows (n + 1)

/-- Whether the decoding of a frame writes outside its pixel block of
`x * y * 3` bytes or its alpha block. -/
def frameOverrun (c : LoadCall) (transparency : Int) (d : GifImageDesc)
    (lines : List (Option (List Byte))) (heap : List Bool) : Bool :=
  overrun lines d.Width (c.x * c.y * 3)
    (if (allocAlpha transparency (int32 (d.Width * d.Height)) heap).1 then
      some (int32 (d.Width * d.Height)).toNat
     else none)
    (frameRows d) 0

/-- The body of the `IMAGE_DESC_RECORD_TYPE` branch once the three blocks
`lb`, `slb`, `image` are allocated and the colour table `cmap` is chosen
(gif.c 147-222); `heap` is the oracle after these three calls.  The dead
statement `ibxs=ibxs*3` is left out.  The frame blocks are entered in the
store as the scanline loops leave them, also when a read fails.  A frame that
passed the size test with a wrapped product can be larger than its blocks:
the execution in which a row is then written outside one has no result. -/
def loadFrame (c : LoadCall) (st : LoadState) (d : GifImageDesc)
    (lines : List (Option (List Byte))) (cmap : ColorMapObject) (heap : List Bool) :
    Flow × LoadState :=
  let r := decodeFrame c st.transparency d lines cmap heap
  let store := storeFrame st.store r.2.1 r.2.2 st.userinput st.disposalmethod st.delay
  let st1 :=
    { st with store := store,
              heap := (allocAlpha st.transparency (int32 (d.Width * d.Height)) heap).2 }
  if frameOverrun c st.transparency d lines heap then (.ret .undefinedBehaviour, st1)
  else if r.1 = false then (.ret .FH_ERROR_FORMAT, st1)
  else copyFirst c st1 r.2.1 r.2.2

/-- The colour table in force for a frame:
`gft->Image.ColorMap ? gft->Image.ColorMap : gft->SColorMap` (gif.c 146). -/
def activeColorMap (c : LoadCall) (d : GifImageDesc) : Option ColorMapObject :=
  if d.ColorMap.isSome then d.ColorMap else c.SColorMap

/-- The `IMAGE_DESC_RECORD_TYPE` branch of `fh_gif_load` (gif.c 122-228).  The
size test `px*py > x*y` (gif.c 128) compares two `int` products. -/
def loadImage (c : LoadCall) (st : LoadState) (desc : Option GifImageDesc)
    (lines : List (Option (List Byte))) : Flow × LoadState :=
  match desc with
  | none => (.ret .FH_ERROR_FORMAT, st)
  | some d =>
    if st.store.imagecount ≥ MAX_IMAGES then (.next, st)
    else if int32 (d.Width * d.Height) > int32 (c.x * c.y) then (.next, st)
    else
      let lb := malloc st.heap
      let slb := malloc lb.2
      let image := malloc slb.2
      if lb.1 && slb.1 && image.1 then
        match activeColorMap c d with
        | none => (.ret .undefinedBehaviour, { st with heap := image.2 })
        | some cmap => loadFrame c st d lines cmap image.2
      else (.next, { st with heap := image.2 })

/-- The byte `extension[i]` of an extension block; giflib hands out a pointer
into its own block buffer, and a byte past the block reads as 0 here. -/
def extByte (extension : List Byte) (i : Nat) : Nat :=
  (extension.getD i 0).val

/-- The `EXTENSION_RECORD_TYPE` branch of `fh_gif_load` (gif.c 230-262). -/
def loadExtension (st : LoadState) (first : Option (Nat × Option (List Byte)))
    (more : List (Option (List Byte))) : Flow × LoadState :=
  match first with
  | none => (.ret .FH_ERROR_FORMAT, st)
  | some (extcode, none) =>
    if extcode = 0xf9 then (.ret .undefinedBehaviour, st) else (.next, st)
  | some (extcode, some extension) =>
    let st1 :=
      if extcode = 0xf9 then
        { st with
          transparency :=
            if extByte extension 1 &&& 1 ≠ 0 then (extByte extension 4 : Int) else st.transparency,
          userinput := if extByte extension 1 &&& 2 ≠ 0 then 1 else st.userinput,
          disposalmethod := (extByte extension 1 >>> 2) &&& 0x7,
          delay := extByte extension 2 ||| (extByte extension 3 <<< 8) }
      else st
    if more.any Option.isNone then (.ret .FH_ERROR_FORMAT, st1) else (.next, st1)

/-- The body of the record loop of `fh_gif_load` for one record (gif.c 118-265). -/
def loadRecord (c : LoadCall) (st : LoadState) : GifRecord → Flow × LoadState
  | .readError => (.ret .FH_ERROR_FORMAT, st)
  | .imageDesc desc lines => loadImage c st desc lines
  | .extension first more => loadExtension st first more
  | .terminate => (.done, st)
  | .other => (.next, st)

/-- The record loop of `fh_gif_load` (gif.c 116-269): the return code and the
final variables.  A stream that ends without a terminator makes the next
`DGifGetRecordType` fail. -/
def loadRecords (c : LoadCall) : LoadState → List GifRecord → FhError × LoadState
  | st, [] => (.FH_ERROR_FORMAT, st)
  | st, r :: rs =>
    match loadRecord c st r with
    | (.next, st1) => loadRecords c st1 rs
    | (.done, st1) => (.FH_ERROR_OK, st1)
    | (.ret e, st1) => (e, st1)

/-- What one `fh_gif_load` call leaves behind: the return code, the values
stored through `buffer` and `alpha` (`none`: not written), and the frame store. -/
structure LoadResult where
  ret : FhError
  buffer : Option Buffer
  alpha : Option (Option Buffer)
  store : GifStore
  deriving DecidableEq, Repr

/-- The variables of `fh_gif_load` when the record loop starts (gif.c 95-113). -/
def loadStart (s : GifStore) (heap : List Bool) : LoadState :=
  { store := { s with imagecount := 0, imageix := 0 },
    transparency := -1, userinput := 0, disposalmethod := 0, delay := 0,
    loadedfirstimage := false, buffer := none, alpha := none, heap := heap }

/-- The function `fh_gif_load` (gif.c 91-270). `file` is the answer of
`DGifOpenFileName` (`none`: null), `s` the frame store at the call,
`wantAlpha` whether `alpha` is non-null, `heap` the `malloc` oracle. -/
def fh_gif_load (file : Option GifFile) (s : GifStore) (wantAlpha : Bool) (x y : Nat)
    (heap : List Bool) : LoadResult :=
  match file with
  | none =>
    { ret := .FH_ERROR_FILE, buffer := none, alpha := none,
      store := { s with imagecount := 0, imageix := 0 } }
  | some f =>
    let r := loadRecords { SColorMap := f.SColorMap, wantAlpha := wantAlpha, x := x, y := y }
      (loadStart s heap) f.records
    { ret := r.1, buffer := r.2.buffer, alpha := r.2.alpha, store := r.2.store }

/-- The frame-store invariant of the specification: at most `MAX_IMAGES`
frames, and a cursor inside the stored frames once there is one. -/
def GifStore.Inv (s : GifStore) : Prop :=
  s.imagecount ≤ MAX_IMAGES ∧ (0 < s.imagecount → s.imageix < s.imagecount)

/-- What a piece of the load may do to the store: it is untouched, or grown
by frames whose pixel block has the size of the bounding box. -/
structure Grows (x y : Nat) (s t : GifStore) : Prop where
  ix : t.imageix = s.imageix
  mono : s.imagecount ≤ t.imagecount
  cap : s.imagecount ≤ MAX_IMAGES → t.imagecount ≤ MAX_IMAGES
  sized : s.Sized → t.Sized
  old_images : ∀ i, i < s.imagecount → t.images.getD i none = s.images.getD i none
  old_alphas : ∀ i, i < s.imagecount → t.alphas.getD i none = s.alphas.getD i none
  old_userinputs : ∀ i, i < s.imagecount → t.userinputs.getD i 0 = s.userinputs.getD i 0
  old_disposalmethods : ∀ i, i < s.imagecount →
    t.disposalmethods.getD i 0 = s.disposalmethods.getD i 0
  old_delays : ∀ i, i < s.imagecount → t.delays.getD i 0 = s.delays.getD i 0
  fresh : s.Sized → ∀ i, s.imagecount ≤ i → i < t.imagecount →
    ∃ img, t.images.getD i none = some img ∧ img.length = x * y * 3

/-- The caller-side circumstances of one `fh_gif_next` call: whether `alpha`
is non-null, and the outcomes of its two `malloc` calls. -/
structure NextCall where
  wantAlpha : Bool
  m1 : Bool
  m2 : Bool
  deriving DecidableEq, Repr

/-- A run of `fh_gif_next` calls with the same bounding box, each on the
store the previous one left: the results in call order. -/
def nextRun (x y : Nat) : GifStore → List NextCall → List NextResult
  | _, [] => []
  | s, c :: cs =>
    (fh_gif_next s c.wantAlpha x y c.m1 c.m2) ::
      nextRun x y (fh_gif_next s c.wantAlpha x y c.m1 c.m2).store cs

/-- The number of calls of a run that returned `FH_ERROR_OK`. -/
def okCount (rs : List NextResult) : Nat :=
  rs.countP fun r => r.ret = .FH_ERROR_OK

/-- The body of the scanline loops for one row whose line was read
(gif.c 166-169, 187-190): the pixel block and the alpha block after row
`row.1` has been filled from the pixel indices `row.2`. -/
def putRow (cmap : ColorMapObject) (px : Nat) (transparency : Int)
    (blocks : Buffer × Option Buffer) (row : Nat × List Byte) : Buffer × Option Buffer :=
  (writeAt blocks.1 (row.1 * px * 3) (m_rend_gif_decodecolormap (scanline row.2 px) cmap px),
   blocks.2.map fun a => writeAt a (row.1 * px) ((scanline row.2 px).map (alphaOf transparency)))

/-- The line answers for a logical image (its scanlines, top to bottom) sent
sequentially: line `r` is the scanline of row `r`. -/
def sequentialStream (img : List (List Byte)) : List (Option (List Byte)) :=
  img.map some

/-- Following the claim: the four interlace passes, each as
`(startRow, rowStride)`. -/
def interlacePasses : List (Nat × Nat) :=
  [(0, 8), (4, 8), (2, 4), (1, 2)]

/-- Following the claim: the order in which an interlaced image of `py` rows
sends its rows.  The passes follow one another, and a pass sends, from top to
bottom, the rows `startRow, startRow + rowStride, ...` that lie below `py`. -/
def transmissionOrder (py : Nat) : List Nat :=
  interlacePasses.flatMap fun p =>
    (List.range py).filter fun r => decide (p.1 ≤ r ∧ (r - p.1) % p.2 = 0)

/-- The line answers for a logical image sent interlaced: the `k`-th line
sent is the scanline of the `k`-th row of the transmission order. -/
def interlacedStream (img : List (List Byte)) : List (Option (List Byte)) :=
  (transmissionOrder img.length).map fun r => img[r]?

/-- The variables of the record loop after the records `rs`, when the loop
goes on after each of them (no return, no terminator). -/
def runRecords (c : LoadCall) : LoadState → List GifRecord → Option LoadState
  | st, [] => some st
  | st, r :: rs =>
    match loadRecord c st r with
    | (.next, st1) => runRecords c st1 rs
    | _ => none

/-- Every `malloc` call answered by the oracle succeeds. -/
def AllSucceed (heap : List Bool) : Prop :=
  ∀ b ∈ heap, b = true

/-- The line answers of the image record of a logical image: interlaced or
sequential, as its descriptor says. -/
def frameStream (d : GifImageDesc) (img : List (List Byte)) : List (Option (List Byte)) :=
  if d.Interlace then interlacedStream img else sequentialStream img

/-- The row that each line of an image record belongs to, in the order the
lines are sent: the transmission order of an interlaced image, top to bottom
for a sequential one. -/
def rowOrder (d : GifImageDesc) : List Nat :=
  if d.Interlace then transmissionOrder d.Height else List.range d.Height

/-- The transparent index a record switches on: the record is a
graphics-control extension (code 0xF9) whose flag byte has bit 0 set, and
the index is its byte 4. -/
def enablesTransparency : GifRecord → Option Nat
  | .extension (some (extcode, some extension)) _ =>
    if extcode = 0xf9 ∧ extByte extension 1 &&& 1 ≠ 0 then some (extByte extension 4) else none
  | _ => none

/-- The transparent index in force after the records `pre`: the one switched
on by the most recent record that switches one on, if any. -/
def activeTransparency (pre : List GifRecord) : Option Nat :=
  (pre.filterMap enablesTransparency).getLast?

/-- The block of a graphics-control extension record (code 0xF9). -/
def controlBytes : GifRecord → Option (List Byte)
  | .extension (some (extcode, some extension)) _ =>
    if extcode = 0xf9 then some extension else none
  | _ => none

/-- The block of the most recent graphics-control record among `pre`. -/
def lastControl (pre : List GifRecord) : Option (List Byte) :=
  (pre.filterMap controlBytes).getLast?

/-- A record that the load reads without failure and, when it is an image
record, can decode: the descriptor is read, the frame lies inside the
bounding box, a colour table is in force and the `Height` scanlines the code
asks for are all read; for an extension record, the reads succeed and a
graphics-control record has a block. -/
def decodable (c : LoadCall) : GifRecord → Bool
  | .imageDesc (some d) lines =>
    decide (d.Width * d.Height ≤ c.x * c.y) && (activeColorMap c d).isSome &&
      (List.range d.Height).all fun k => (DGifGetLine lines k).isSome
  | .extension (some (extcode, none)) _ => decide (extcode ≠ 0xf9)
  | .extension (some (_, some _)) more => more.all Option.isSome
  | .other => true
  | _ => false

/-- The record is an image descriptor record. -/
def isImage : GifRecord → Bool
  | .imageDesc _ _ => true
  | _ => false

/-- The number of image descriptor records of a stream. -/
def numFrames (rs : List GifRecord) : Nat :=
  rs.countP isImage

/-- The stream cut after its `k`-th image descriptor record: the records up
to and including that one (the whole stream when it has fewer). -/
def takeFrames : List GifRecord → Nat → List GifRecord
  | [], _ => []
  | _ :: _, 0 => []
  | r :: rs, k + 1 => r :: takeFrames rs (if isImage r then k else k + 1)

/-- The state of the first-frame copy-out between two records: with an empty
store nothing was written through `buffer` and `alpha`; with a stored frame,
`buffer` holds the pixel block of frame 0 and `alpha`, when requested, the
`x * y`-byte copy of its alpha block. -/
def FirstCopied (c : LoadCall) (st : LoadState) : Prop :=
  (st.store.imagecount = 0 →
    st.loadedfirstimage = false ∧ st.buffer = none ∧ st.alpha = none) ∧
  (1 ≤ st.store.imagecount →
    st.loadedfirstimage = true ∧
    (∃ img, st.buffer = some img ∧ st.store.images.getD 0 none = some img ∧
      img.length = c.x * c.y * 3) ∧
    st.alpha = (if c.wantAlpha then
      some ((st.store.alphas.getD 0 none).map fun a => memcpy a (c.x * c.y)) else none))

/-- What one `fh_gif_getsize` call leaves behind: the return code, the values
stored through `x` and `y` (`none`: not written), and the frame store. -/
structure SizeResult where
  ret : FhError
  size : Option (Nat × Nat)
  store : GifStore
  deriving DecidableEq, Repr

/-- The record loop of `fh_gif_getsize` (gif.c 335-360): the return code and
the values stored through `x` and `y`.  A stream that ends without a
terminator makes the next `DGifGetRecordType` fail. -/
def sizeRecords : List GifRecord → FhError × Option (Nat × Nat)
  | [] => (.FH_ERROR_FORMAT, none)
  | .readError :: _ => (.FH_ERROR_FORMAT, none)
  | .imageDesc none _ :: _ => (.FH_ERROR_FORMAT, none)
  | .imageDesc (some d) _ :: _ => (.FH_ERROR_OK, some (d.Width, d.Height))
  | .extension none _ :: _ => (.FH_ERROR_FORMAT, none)
  | .extension (some (_, none)) _ :: rs => sizeRecords rs
  | .extension (some (_, some _)) more :: rs =>
    if more.any Option.isNone then (.FH_ERROR_FORMAT, none) else sizeRecords rs
  | .terminate :: _ => (.FH_ERROR_FORMAT, none)
  | .other :: rs => sizeRecords rs

/-- The function `fh_gif_getsize` (gif.c 324-361). `file` is the answer of
`DGifOpenFileName` (`none`: null), `s` the frame store at the call; the
function does not touch the static variables. -/
def fh_gif_getsize (file : Option GifFile) (s : GifStore) : SizeResult :=
  match file with
  | none => { ret := .FH_ERROR_FILE, size := none, store := s }
  | some f => { ret := (sizeRecords f.records).1, size := (sizeRecords f.records).2, store := s }

/-- A record that a size query reads completely and passes over: an
extension record whose reads all succeed, or a record of another type that is
neither an image descriptor nor the terminator. -/
def sizeSkips : GifRecord → Bool
  | .extension (some (_, none)) _ => true
  | .extension (some (_, some _)) more => more.all Option.isSome
  | .other => true
  | _ => false

/-- A record on which a read of the size query fails: the record type, the
image descriptor, the extension block or one of its sub-blocks. -/
def sizeReadFails : GifRecord → Bool
  | .readError => true
  | .imageDesc none _ => true
  | .extension none _ => true
  | .extension (some (_, some _)) more => more.any Option.isNone
  | _ => false

/-! ### main.c: the transforms and the presentation loop

Conventions, besides those of `gif.c`.
* `int`s are integers; `a / b` is C division (truncation toward zero), and a
  division by zero ends the execution with no result.  The sizes and offsets
  of the transforms and of the pan are computed exactly; the two values of the
  timeout branch that can leave the range of `int`, the product `delay * 100`
  and the elapsed time `delta_ms`, are 32-bit values (`int32`, `doubleToInt`).
* Flags that the code only tests for zero (`refresh`, `retransform`, the
  transform toggles, `opt_alpha`) are booleans.
* The resize and rotate kernels and the display routine are collaborators
  outside `main.c`: they are parameters (`Collaborators`).
* The loop reads its inputs (the key or the timeout of `select`, the clock,
  the outcomes of `malloc`) from a list of ticks, one per iteration.
-/

/-- Modelled from the spec: `struct image`, which `fbv.h` declares and `main.c`
uses through the fields `width`, `height`, `rgb`, `alpha`, `nextrgb`,
`nextalpha` and `saved` (the ImageState of the specification); a pointer is
`none` when null. -/
structure Image where
  width : Int
  height : Int
  rgb : Option Buffer
  alpha : Option Buffer
  nextrgb : Option Buffer
  nextalpha : Option Buffer
  saved : Option Buffer
  deriving DecidableEq, Repr

/-- The arguments of one `fb_display` call. -/
structure DisplayCall where
  image : Option Buffer
  alpha : Option Buffer
  width : Int
  height : Int
  x_pan : Int
  y_pan : Int
  x_offs : Int
  y_offs : Int
  newimage : Bool
  deriving DecidableEq, Repr

/-- The collaborators of `main.c`: the transform kernels, which return a new
block (`none`: null) for a block and its old and new geometry, and the display
routine, of which the model keeps the backing store it leaves in `*saved`. -/
structure Collaborators where
  rotate : Option Buffer → Int → Int → Int → Option Buffer
  alpha_rotate : Buffer → Int → Int → Int → Option Buffer
  simple_resize : Option Buffer → Int → Int → Int → Int → Option Buffer
  color_average_resize : Option Buffer → Int → Int → Int → Int → Option Buffer
  alpha_resize : Buffer → Int → Int → Int → Int → Option Buffer
  fb_display : DisplayCall → Option Buffer → Option Buffer

/-- C division `a / b` of two `int`s: truncated toward zero, `none` when the
divisor is 0. -/
def cdiv (a b : Int) : Option Int :=
  if b = 0 then none else some (Int.tdiv a b)

/-- The constant `PAN_STEPPING` (main.c 35). -/
def PAN_STEPPING : Int := 20

/-- The block a transform works on: the pending one when there is one, else
the committed one (main.c 79-86, 144-151, 198-205). -/
def pending (next committed : Option Buffer) : Option Buffer :=
  if next.isSome then next else committed

/-- The function `do_rotate` (main.c 71-106). -/
def do_rotate (k : Collaborators) (i : Image) (rot : Int) : Image :=
  if rot ≠ 0 then
    let previmage := pending i.nextrgb i.rgb
    let prevalpha := pending i.nextalpha i.alpha
    let nextimage := k.rotate previmage i.width i.height rot
    let nextalpha :=
      match prevalpha with
      | some a => k.alpha_rotate a i.width i.height rot
      | none => none
    if Int.land rot 1 ≠ 0 then
      { i with nextrgb := nextimage, nextalpha := nextalpha, width := i.height, height := i.width }
    else
      { i with nextrgb := nextimage, nextalpha := nextalpha }
  else i

/-- What the size computation of a resize decides: leave the image alone,
resize it to the given size, or no result (division by zero). -/
inductive Target where
  | keep
  | resize (xsize ysize : Int)
  | undefined
  deriving DecidableEq, Repr

/-- The size computation of `do_enlarge` (main.c 111-142): `keep` for the two
early returns and for the return before `have_sizes`, else the sizes at
`have_sizes`. -/
def enlargeTarget (width height screen_width screen_height : Int) (ignoreaspect : Bool) :
    Target :=
  if (width > screen_width ∨ height > screen_height) ∧ ignoreaspect = false then .keep
  else if width < screen_width ∨ height < screen_height then
    if ignoreaspect then
      .resize (if width < screen_width then screen_width else width)
        (if height < screen_height then screen_height else height)
    else
      match cdiv (height * screen_width) width with
      | none => .undefined
      | some q1 =>
        if q1 ≤ screen_height then .resize screen_width q1
        else
          match cdiv (width * screen_height) height with
          | none => .undefined
          | some q2 => if q2 ≤ screen_width then .resize q2 screen_height else .keep
  else .keep

/-- The function `do_enlarge` (main.c 109-166); `none` when it divides by zero. -/
def do_enlarge (k : Collaborators) (i : Image) (screen_width screen_height : Int)
    (ignoreaspect : Bool) : Option Image :=
  match enlargeTarget i.width i.height screen_width screen_height ignoreaspect with
  | .keep => some i
  | .undefined => none
  | .resize xsize ysize =>
    let previmage := pending i.nextrgb i.rgb
    let prevalpha := pending i.nextalpha i.alpha
    let nextimage := k.simple_resize previmage i.width i.height xsize ysize
    let nextalpha :=
      match prevalpha with
      | some a => k.alpha_resize a i.width i.height xsize ysize
      | none => none
    some { i with width := xsize, height := ysize, nextrgb := nextimage, nextalpha := nextalpha }

/-- The size computation of `do_fit_to_screen` (main.c 171-196). -/
def fitTarget (width height screen_width screen_height : Int) (ignoreaspect : Bool) : Target :=
  if width > screen_width ∨ height > screen_height then
    if ignoreaspect then
      .resize (if width > screen_width then screen_width else width)
        (if height > screen_height then screen_height else height)
    else
      match cdiv (height * screen_width) width with
      | none => .undefined
      | some q1 =>
        if q1 ≤ screen_height then .resize screen_width q1
        else
          match cdiv (width * screen_height) height with
          | none => .undefined
          | some q2 => .resize q2 screen_height
  else .keep

/-- The function `do_fit_to_screen` (main.c 169-223); `none` when it divides
by zero. -/
def do_fit_to_screen (k : Collaborators) (i : Image) (screen_width screen_height : Int)
    (ignoreaspect cal : Bool) : Option Image :=
  match fitTarget i.width i.height screen_width screen_height ignoreaspect with
  | .keep => some i
  | .undefined => none
  | .resize nx_size ny_size =>
    let previmage := pending i.nextrgb i.rgb
    let prevalpha := pending i.nextalpha i.alpha
    let nextimage :=
      if cal then k.color_average_resize previmage i.width i.height nx_size ny_size
      else k.simple_resize previmage i.width i.height nx_size ny_size
    let nextalpha :=
      match prevalpha with
      | some a => k.alpha_resize a i.width i.height nx_size ny_size
      | none => none
    some { i with width := nx_size, height := ny_size, nextrgb := nextimage,
                  nextalpha := nextalpha }

/-- The function `do_display` (main.c 225-263): the image state it leaves and
the `fb_display` call it makes.  `fb_display` receives `&i->saved` only when
there is an alpha block.  After the call a pending pixel block is moved to
`rgb` and a pending alpha block to `alpha`, each under its own test. -/
def do_display (k : Collaborators) (i : Image) (x_pan y_pan x_offs y_offs : Int)
    (newimage : Bool) : Image × DisplayCall :=
  let image := if i.nextrgb.isSome then i.nextrgb else i.rgb
  let alpha := if i.nextalpha.isSome then i.nextalpha else i.alpha
  let saved := if newimage then none else i.saved
  let call : DisplayCall :=
    { image := image, alpha := alpha, width := i.width, height := i.height,
      x_pan := x_pan, y_pan := y_pan, x_offs := x_offs, y_offs := y_offs, newimage := newimage }
  let i1 : Image := { i with saved := if alpha.isSome then k.fb_display call saved else saved }
  let i2 : Image :=
    if i1.nextrgb.isSome then { i1 with rgb := i1.nextrgb, nextrgb := none } else i1
  let i3 : Image :=
    if i2.nextalpha.isSome then { i2 with alpha := i2.nextalpha, nextalpha := none } else i2
  (i3, call)

/-- A `struct timespec` value. -/
structure Timespec where
  tv_sec : Int
  tv_nsec : Int
  deriving DecidableEq, Repr

/-- The `int` that a `double` whose value truncates to `v` is converted to:
`v` when it lies in the range of `int`.  Outside the range ISO C leaves the
conversion undefined; the conversion instruction of x86-64 yields `INT_MIN`,
which is what the model takes. -/
def doubleToInt (v : Int) : Int :=
  if -2147483648 ≤ v ∧ v ≤ 2147483647 then v else -2147483648

/-- The elapsed time `delta_ms` from `start` to `now` as the timeout branch
computes it (main.c 482-489, 498-505), an `int` (main.c 286): the difference
is normalised to a non-negative nanosecond part, and the `double`
`tv_nsec / 1E6 + tv_sec * 1E3` is converted to `int`.  The `double` is within
`2^-22` of the exact number of milliseconds as long as that is below `2^31` in
size, and the exact number is a multiple of `10^-6`: the `double` truncates to
the same integer as the exact value. -/
def elapsedMs (start now : Timespec) : Int :=
  let delta_ts : Timespec :=
    if now.tv_nsec - start.tv_nsec < 0 then
      { tv_sec := now.tv_sec - start.tv_sec - 1,
        tv_nsec := now.tv_nsec - start.tv_nsec + 1000000000 }
    else
      { tv_sec := now.tv_sec - start.tv_sec, tv_nsec := now.tv_nsec - start.tv_nsec }
  doubleToInt (Int.tdiv (delta_ts.tv_nsec + delta_ts.tv_sec * 1000000000) 1000000)

/-- The variables of `show_image` while its loop runs (main.c 265-288), with
the frame store of `gif.c`.  `multi` says that `loadnext` and `refreshdelay`
are set, which is the case for a GIF file (`fh_gif_next`, `fh_gif_get_delay`).
`x_size`, `y_size` are the dimensions `fh_gif_getsize` reported. -/
structure LoopState where
  i : Image
  x_size : Nat
  y_size : Nat
  screen_width : Int
  screen_height : Int
  x_pan : Int
  y_pan : Int
  x_offs : Int
  y_offs : Int
  refresh : Bool
  retransform : Bool
  ret : Int
  delay : Int
  transform_stretch : Bool
  transform_enlarge : Bool
  transform_cal : Bool
  transform_iaspect : Bool
  transform_rotation : Int
  image_ptr : Option Buffer
  alpha_ptr : Option Buffer
  refresh_ts : Timespec
  starttime_ts : Timespec
  opt_alpha : Bool
  multi : Bool
  store : GifStore
  deriving DecidableEq, Repr

/-- The three gated transforms in their fixed order (main.c 355-362 and
524-529): rotate, fit to screen, enlarge; `none` when one divides by zero. -/
def applyTransforms (k : Collaborators) (st : LoopState) (i : Image) : Option Image :=
  let i1 := if st.transform_rotation ≠ 0 then do_rotate k i st.transform_rotation else i
  let i2 :=
    if st.transform_stretch then
      do_fit_to_screen k i1 st.screen_width st.screen_height st.transform_iaspect st.transform_cal
    else some i1
  match i2 with
  | none => none
  | some i3 =>
    if st.transform_enlarge then
      do_enlarge k i3 st.screen_width st.screen_height st.transform_iaspect
    else some i3

/-- The retransform phase of one iteration (main.c 353-373). -/
def retransformPhase (k : Collaborators) (st : LoopState) : Option LoopState :=
  if st.retransform then
    match applyTransforms k st st.i with
    | none => none
    | some i1 => some { st with i := i1, x_pan := 0, y_pan := 0, refresh := true }
  else some st

/-- The letterbox offset of one axis (main.c 376-384). -/
def letterbox (dim screen : Int) : Int :=
  if dim < screen then Int.tdiv (screen - dim) 2 else 0

/-- The redisplay phase of one iteration (main.c 374-391); `clock` is the time
read into `refresh_ts`. -/
def redrawPhase (k : Collaborators) (st : LoopState) (clock : Timespec) : LoopState :=
  if st.refresh then
    let x_offs := letterbox st.i.width st.screen_width
    let y_offs := letterbox st.i.height st.screen_height
    { st with
      x_offs := x_offs, y_offs := y_offs,
      i := (do_display k st.i st.x_pan st.y_pan x_offs y_offs st.retransform).1,
      retransform := false, refresh := false, refresh_ts := clock }
  else st

/-- How one iteration of the loop ends: the loop goes on, `show_image` leaves
through `done` or through the slideshow `break` (both reach `done`), it leaves
through `error_mem` after a failed `loadnext`, or the iteration has no result
(division by zero). -/
inductive Step where
  | go (st : LoopState)
  | done (st : LoopState)
  | slideshow (st : LoopState)
  | error_mem (st : LoopState)
  | undefined
  deriving DecidableEq, Repr

/-- The code of a character constant, as `getchar` returns it. -/
def ch (c : Char) : Int :=
  c.toNat

/-- The value `EOF` of `getchar`. -/
def EOF : Int := -1

/-- The key switch (main.c 397-475) for the character `c` that `getchar`
returned. -/
def handleKey (st : LoopState) (c : Int) : Step :=
  if c = EOF ∨ c = ch 'q' then .done { st with ret := 0 }
  else if c = ch ' ' ∨ c = 10 ∨ c = 13 then .done st
  else if c = ch '>' ∨ c = ch '.' then .done st
  else if c = ch '<' ∨ c = ch ',' then .done { st with ret := -1 }
  else if c = ch 'r' then .go { st with refresh := true }
  else if c = ch 'a' ∨ c = ch 'D' then
    if st.x_pan = 0 then .go st
    else
      let x_pan := st.x_pan - Int.tdiv st.i.width PAN_STEPPING
      .go { st with x_pan := if x_pan < 0 then 0 else x_pan, refresh := true }
  else if c = ch 'd' ∨ c = ch 'C' then
    if st.x_offs ≠ 0 then .go st
    else if st.x_pan ≥ st.i.width - st.screen_width then .go st
    else
      let x_pan := st.x_pan + Int.tdiv st.i.width PAN_STEPPING
      .go { st with
            x_pan := if x_pan > st.i.width - st.screen_width then st.i.width - st.screen_width
                     else x_pan,
            refresh := true }
  else if c = ch 'w' ∨ c = ch 'A' then
    if st.y_pan = 0 then .go st
    else
      let y_pan := st.y_pan - Int.tdiv st.i.height PAN_STEPPING
      .go { st with y_pan := if y_pan < 0 then 0 else y_pan, refresh := true }
  else if c = ch 'x' ∨ c = ch 'B' then
    if st.y_offs ≠ 0 then .go st
    else if st.y_pan ≥ st.i.height - st.screen_height then .go st
    else
      let y_pan := st.y_pan + Int.tdiv st.i.height PAN_STEPPING
      .go { st with
            y_pan := if y_pan > st.i.height - st.screen_height then st.i.height - st.screen_height
                     else y_pan,
            refresh := true }
  else if c = ch 'f' then
    .go { st with transform_stretch := !st.transform_stretch, retransform := true }
  else if c = ch 'e' then
    .go { st with transform_enlarge := !st.transform_enlarge, retransform := true }
  else if c = ch 'k' then
    .go { st with transform_cal := !st.transform_cal, retransform := true }
  else if c = ch 'i' then
    .go { st with transform_iaspect := !st.transform_iaspect, retransform := true }
  else if c = ch 'p' then
    .go { st with transform_cal := false, transform_iaspect := false,
                  transform_enlarge := false, transform_stretch := false, retransform := true }
  else if c = ch 'n' then
    let r := st.transform_rotation - 1
    .go { st with transform_rotation := if r < 0 then r + 4 else r, retransform := true }
  else if c = ch 'm' then
    let r := st.transform_rotation + 1
    .go { st with transform_rotation := if r > 3 then r - 4 else r, retransform := true }
  else .go st

/-- The slideshow test of the timeout branch (main.c 480-494):
`delay && delta_ms > delay * 100`, the product being an `int`. -/
def slideshowDue (st : LoopState) (now : Timespec) : Bool :=
  decide (st.delay ≠ 0 ∧ elapsedMs st.starttime_ts now > int32 (st.delay * 100))

/-- The frame-advance test of the timeout branch (main.c 495-507), with
`refreshdelay_ms = fh_gif_get_delay()` and the `int` `delta_ms`. -/
def frameDue (st : LoopState) (now : Timespec) : Bool :=
  decide (st.retransform = false ∧ st.multi = true ∧
    (fh_gif_get_delay st.store : Int) > 0 ∧
    elapsedMs st.refresh_ts now > (fh_gif_get_delay st.store : Int))

/-- The frame advance of the timeout branch (main.c 509-530): `fh_gif_next`
with the file's dimensions, then the fetched frame becomes the pending one at
the original size and the gated transforms are applied to it. -/
def advanceFrame (k : Collaborators) (st : LoopState) (m1 m2 : Bool) : Step :=
  let r := fh_gif_next st.store st.opt_alpha st.x_size st.y_size m1 m2
  if r.ret ≠ .FH_ERROR_OK then .error_mem { st with store := r.store }
  else
    let image_ptr := if r.buffer.isSome then r.buffer else st.image_ptr
    let alpha_ptr :=
      match r.alpha with
      | some a => a
      | none => st.alpha_ptr
    let i1 : Image :=
      { st.i with width := st.x_size, height := st.y_size,
                  nextrgb := image_ptr, nextalpha := alpha_ptr }
    let st1 := { st with store := r.store, image_ptr := image_ptr, alpha_ptr := alpha_ptr }
    match applyTransforms k st1 i1 with
    | none => .undefined
    | some i2 => .go { st1 with i := i2, refresh := true }

/-- The timeout branch of one iteration (main.c 477-533); `now` is the time
read at its start, `m1` and `m2` the outcomes of the `malloc` calls of
`fh_gif_next`. -/
def onTimeout (k : Collaborators) (st : LoopState) (now : Timespec) (m1 m2 : Bool) : Step :=
  if slideshowDue st now then .slideshow st
  else if frameDue st now then advanceFrame k st m1 m2
  else .go st

/-- The inputs of one iteration: the clock at the redisplay, the character
read when `select` reports input (`none`: timeout), the clock of the timeout
branch, and the outcomes of the `malloc` calls of `fh_gif_next`. -/
structure Tick where
  drawClock : Timespec
  key : Option Int
  now : Timespec
  m1 : Bool
  m2 : Bool
  deriving DecidableEq, Repr

/-- One iteration of the loop of `show_image` (main.c 351-534). -/
def loopBody (k : Collaborators) (st : LoopState) (t : Tick) : Step :=
  match retransformPhase k st with
  | none => .undefined
  | some st1 =>
    let st2 := redrawPhase k st1 t.drawClock
    match t.key with
    | some c => handleKey st2 c
    | none => onTimeout k st2 t.now t.m1 t.m2

/-- The loop of `show_image` over the given ticks: how it ended, or the state
it is in when the ticks are used up. -/
def runLoop (k : Collaborators) : LoopState → List Tick → Step
  | st, [] => .go st
  | st, t :: ts =>
    match loopBody k st t with
    | .go st1 => runLoop k st1 ts
    | other => other

/-- The key is one of the pan keys: `a`, `d`, `w`, `x` or an arrow code `D`,
`C`, `A`, `B`. -/
def isPanKey (c : Int) : Bool :=
  decide (c = ch 'a' ∨ c = ch 'D' ∨ c = ch 'd' ∨ c = ch 'C' ∨
    c = ch 'w' ∨ c = ch 'A' ∨ c = ch 'x' ∨ c = ch 'B')

/-- The pan bound of one axis: inside `[0, dim - screen]` when the content is
larger than the screen, 0 when it is fully visible. -/
def PanBound (pan dim screen : Int) : Prop :=
  (screen < dim → 0 ≤ pan ∧ pan ≤ dim - screen) ∧ (dim ≤ screen → pan = 0)

/-- The variables of `show_image` when its loop starts (main.c 278-349), for a
GIF file: `x_size`, `y_size` are the answer of `fh_gif_getsize`, `r` is what
the `fh_gif_load` call left when it returned `FH_ERROR_OK`, `starttime` the
clock read after it, `screen_width`, `screen_height` the answer of
`getCurrentRes`.  `alpha_ptr` stays null when the load did not write it.  The
variables the code does not initialise (`x_pan`, `y_pan`, `x_offs`, `y_offs`,
`refresh_ts`) are written in the first iteration before they are read; they
start at 0 here. -/
def showStart (r : LoadResult) (x_size y_size : Nat) (screen_width screen_height : Int)
    (starttime : Timespec) (opt_alpha : Bool) (opt_delay opt_stretch : Int)
    (opt_enlarge opt_ignore_aspect : Bool) : LoopState :=
  let image_ptr := r.buffer
  let alpha_ptr :=
    match r.alpha with
    | some a => a
    | none => none
  { i := { width := x_size, height := y_size, rgb := none, nextrgb := image_ptr,
           alpha := none, nextalpha := alpha_ptr, saved := none },
    x_size := x_size, y_size := y_size,
    screen_width := screen_width, screen_height := screen_height,
    x_pan := 0, y_pan := 0, x_offs := 0, y_offs := 0,
    refresh := true, retransform := true, ret := 1, delay := opt_delay,
    transform_stretch := decide (opt_stretch ≠ 0), transform_enlarge := opt_enlarge,
    transform_cal := decide (opt_stretch = 2), transform_iaspect := opt_ignore_aspect,
    transform_rotation := 0,
    image_ptr := image_ptr, alpha_ptr := alpha_ptr,
    refresh_ts := ⟨0, 0⟩, starttime_ts := starttime,
    opt_alpha := opt_alpha, multi := true, store := r.store }

/-- The `fb_display` call of the iteration that starts in `st` (main.c
353-386): `none` when the iteration does not redraw, or has no result. -/
def loopCall (k : Collaborators) (st : LoopState) : Option DisplayCall :=
  match retransformPhase k st with
  | none => none
  | some st1 =>
    if st1.refresh then
      some (do_display k st1.i st1.x_pan st1.y_pan (letterbox st1.i.width st1.screen_width)
        (letterbox st1.i.height st1.screen_height) st1.retransform).2
    else none

/-- The `fb_display` calls of the loop over the given ticks, one entry for
each iteration that is run. -/
def loopCalls (k : Collaborators) : LoopState → List Tick → List (Option DisplayCall)
  | _, [] => []
  | st, t :: ts =>
    loopCall k st ::
      (match loopBody k st t with
       | .go st1 => loopCalls k st1 ts
       | _ => [])

/-- The state in which the loop goes on, when it does. -/
def Step.state? : Step → Option LoopState
  | .go st => some st
  | _ => none

/-- The image of the file's original size with the blocks of `st.i`: what the
timed frame advance hands to the transforms (main.c 518-521). -/
def originalSize (st : LoopState) : Image :=
  { st.i with width := st.x_size, height := st.y_size }

/-! ### Sample inputs -/

/-- A graphics-control extension record (code 0xF9): the block holds the
length byte 4, the flag byte, the two delay bytes and the transparent index;
the library then answers the null block that ends the record. -/
def gce (flags delayLo delayHi index : Byte) : GifRecord :=
  .extension (some (0xf9, some [4, flags, delayLo, delayHi, index])) []

/-- A two-entry global colour table: black and white. -/
def sampleColors : ColorMapObject :=
  { ColorCount := 2, Colors := [⟨0, 0, 0⟩, ⟨255, 255, 255⟩] }

/-- A sequential 2x1 frame with the pixel indices `a`, `b` and no local table. -/
def frame2x1 (a b : Byte) : GifRecord :=
  .imageDesc (some { Width := 2, Height := 1, Interlace := false, ColorMap := none })
    [some [a, b]]

/-- The scenario of the specification: three frames with the delays 10, 20
and 30 hundredths of a second, no transparency. -/
def threeFrames : GifFile :=
  { SColorMap := some sampleColors,
    records := [gce 0 10 0 0, frame2x1 0 0, gce 0 20 0 0, frame2x1 0 1,
                gce 0 30 0 0, frame2x1 1 1, .terminate] }

/-- Stand-in collaborators for the sample runs: the kernels hand back the block
they are given, the display leaves the backing store as it is. -/
def sampleCollaborators : Collaborators :=
  { rotate := fun b _ _ _ => b,
    alpha_rotate := fun b _ _ _ => some b,
    simple_resize := fun b _ _ _ _ => b,
    color_average_resize := fun b _ _ _ _ => b,
    alpha_resize := fun b _ _ _ _ => some b,
    fb_display := fun _ saved => saved }

/-- An image state with a pending pixel block and the given size. -/
def sampleImage (width height : Int) : Image :=
  { width := width, height := height, rgb := none, alpha := none,
    nextrgb := some [], nextalpha := none, saved := none }

/-- A loop state just after a redraw, on a 100x100 screen: an image of the
given size, no pan, no transform, the slideshow delay `delay`, load and redraw
at time 0, and the given frame store (`multi` set: a GIF file of size 2x1). -/
def sampleLoop (width height delay : Int) (store : GifStore) : LoopState :=
  { i := { sampleImage width height with rgb := some [], nextrgb := none },
    x_size := 2, y_size := 1, screen_width := 100, screen_height := 100,
    x_pan := 0, y_pan := 0, x_offs := 0, y_offs := 0,
    refresh := false, retransform := false, ret := 1, delay := delay,
    transform_stretch := false, transform_enlarge := false, transform_cal := false,
    transform_iaspect := false, transform_rotation := 0,
    image_ptr := none, alpha_ptr := none,
    refresh_ts := ⟨0, 0⟩, starttime_ts := ⟨0, 0⟩,
    opt_alpha := false, multi := true, store := store }

/-- A tick on which the key `c` is read. -/
def keyTick (c : Int) : Tick :=
  { drawClock := ⟨0, 0⟩, key := some c, now := ⟨0, 0⟩, m1 := true, m2 := true }

/-- A timeout tick at `ms` milliseconds after time 0, all allocations succeeding. -/
def timeoutTick (ms : Int) : Tick :=
  { drawClock := ⟨0, 0⟩, key := none, now := ⟨0, ms * 1000000⟩, m1 := true, m2 := true }

/-- Two 2x1 frames of delay 1: the first is read while no transparent index
is set, the second after a graphics-control record that sets the index 1. -/
def mixedAlpha : GifFile :=
  { SColorMap := some sampleColors,
    records := [gce 0 1 0 0, frame2x1 0 1, gce 1 1 0 1, frame2x1 1 0, .terminate] }

/-- The loop start for the three-frame file of size 2x1 on a 100x100 screen:
no alpha requested, no slideshow, no transform option, load at time 0. -/
def threeFramesShow : LoopState :=
  showStart (fh_gif_load (some threeFrames) GifStore.initial false 2 1 []) 2 1 100 100 ⟨0, 0⟩
    false 0 0 false false

/-- The loop start for the three-frame file with the slideshow delay 1 (one
tenth of a second): load at time 0, the first iteration is still to come. -/
def slideshowShow : LoopState :=
  showStart (fh_gif_load (some threeFrames) GifStore.initial false 2 1 []) 2 1 100 100 ⟨0, 0⟩
    false 1 0 false false

/-- The loop start for the file `mixedAlpha` of size 2x1 on a 100x100 screen,
alpha requested. -/
def mixedAlphaShow : LoopState :=
  showStart (fh_gif_load (some mixedAlpha) GifStore.initial true 2 1 []) 2 1 100 100 ⟨0, 0⟩
    true 0 0 false false

/-- The seven binary digits of `n`, lowest first, as pixel indices. -/
def binaryDigits (n : Nat) : List Byte :=
  (List.range 7).map fun i => if n.testBit i then 1 else 0

/-- A sequential 7x1 frame, without a local table, whose pixel indices are the
binary digits of `n`. -/
def numberedFrame (n : Nat) : GifRecord :=
  .imageDesc (some { Width := 7, Height := 1, Interlace := false, ColorMap := none })
    [some (binaryDigits n)]

/-- The frames numbered `0 .. count-1`. -/
def numberedFrames (count : Nat) : List GifRecord :=
  (List.range count).map numberedFrame

/-! ## Theorems -/

theorem writeAt_length (buf : Buffer) (off : Nat) (src : Buffer) :
    (writeAt buf off src).length = buf.length := by
  simp [writeAt]

theorem memcpy_length (src : Buffer) (n : Nat) : (memcpy src n).length = n := by
  simp [memcpy, List.length_take]
  omega

theorem memcpy_of_length (src : Buffer) (n : Nat) (h : src.length = n) : memcpy src n = src := by
  simp [memcpy, ← h]

theorem decodeRows_image_length (lines : List (Option (List Byte))) (cmap : ColorMapObject)
    (px : Nat) (t : Int) (rows : List Nat) (n : Nat) (image : Buffer) (al : Option Buffer) :
    (decodeRows lines cmap px t rows n image al).2.1.length = image.length := by
  induction rows generalizing n image al with
  | nil => simp [decodeRows]
  | cons i rows ih =>
    simp only [decodeRows]
    split
    · rfl
    · simp [ih, writeAt_length]

theorem copyFirst_store (c : LoadCall) (st : LoadState) (image : Buffer) (al : Option Buffer) :
    (copyFirst c st image al).2.store = st.store := by
  unfold copyFirst
  split
  · rfl
  · simp only
    split
    · rfl
    · split
      · split
        · split <;> rfl
        · rfl
      · rfl

theorem Grows.refl (x y : Nat) (s : GifStore) : Grows x y s s :=
  { ix := rfl, mono := le_refl _, cap := id, sized := id,
    old_images := fun _ _ => rfl, old_alphas := fun _ _ => rfl,
    old_userinputs := fun _ _ => rfl, old_disposalmethods := fun _ _ => rfl,
    old_delays := fun _ _ => rfl,
    fresh := fun _ _ h1 h2 => absurd (lt_of_le_of_lt h1 h2) (lt_irrefl _) }

theorem Grows.trans {x y : Nat} {s t u : GifStore} (h1 : Grows x y s t) (h2 : Grows x y t u) :
    Grows x y s u :=
  { ix := h2.ix.trans h1.ix
    mono := le_trans h1.mono h2.mono
    cap := fun h => h2.cap (h1.cap h)
    sized := fun h => h2.sized (h1.sized h)
    old_images := fun i hi =>
      (h2.old_images i (lt_of_lt_of_le hi h1.mono)).trans (h1.old_images i hi)
    old_alphas := fun i hi =>
      (h2.old_alphas i (lt_of_lt_of_le hi h1.mono)).trans (h1.old_alphas i hi)
    old_userinputs := fun i hi =>
      (h2.old_userinputs i (lt_of_lt_of_le hi h1.mono)).trans (h1.old_userinputs i hi)
    old_disposalmethods := fun i hi =>
      (h2.old_disposalmethods i (lt_of_lt_of_le hi h1.mono)).trans (h1.old_disposalmethods i hi)
    old_delays := fun i hi =>
      (h2.old_delays i (lt_of_lt_of_le hi h1.mono)).trans (h1.old_delays i hi)
    fresh := fun hs i hlo hhi => by
      by_cases hi : i < t.imagecount
      · obtain ⟨img, himg, hlen⟩ := h1.fresh hs i hlo hi
        exact ⟨img, (h2.old_images i hi).trans himg, hlen⟩
      · exact h2.fresh (h1.sized hs) i (Nat.le_of_not_lt hi) hhi }

theorem getD_set_ne {α : Type} (l : List α) (n i : Nat) (v d : α) (h : i ≠ n) :
    (l.set n v).getD i d = l.getD i d := by
  simp [List.getD_eq_getElem?_getD, List.getElem?_set_ne (Ne.symm h)]

theorem getD_set_self {α : Type} (l : List α) (n : Nat) (v d : α) (h : n < l.length) :
    (l.set n v).getD n d = v := by
  simp [List.getD_eq_getElem?_getD, List.getElem?_set_self, h]

theorem storeFrame_grows (x y : Nat) (s : GifStore) (image : Buffer) (al : Option Buffer)
    (u d dl : Nat) (hn : s.imagecount < MAX_IMAGES) (hlen : image.length = x * y * 3) :
    Grows x y s (storeFrame s image al u d dl) :=
  { ix := rfl
    mono := Nat.le_succ _
    cap := fun _ => hn
    sized := fun h => by
      simpa [GifStore.Sized, storeFrame] using h
    old_images := fun i hi => getD_set_ne _ _ _ _ _ (Nat.ne_of_lt hi)
    old_alphas := fun i hi => getD_set_ne _ _ _ _ _ (Nat.ne_of_lt hi)
    old_userinputs := fun i hi => getD_set_ne _ _ _ _ _ (Nat.ne_of_lt hi)
    old_disposalmethods := fun i hi => getD_set_ne _ _ _ _ _ (Nat.ne_of_lt hi)
    old_delays := fun i hi => getD_set_ne _ _ _ _ _ (Nat.ne_of_lt hi)
    fresh := fun hs i hlo hhi => by
      have hi : i = s.imagecount := by
        have : i < s.imagecount + 1 := hhi
        omega
      subst hi
      refine ⟨image, ?_, hlen⟩
      exact getD_set_self _ _ _ _ (by rw [hs.1]; exact hn) }


theorem decodeFrame_image_length (c : LoadCall) (t : Int) (d : GifImageDesc)
    (lines : List (Option (List Byte))) (cmap : ColorMapObject) (heap : List Bool) :
    (decodeFrame c t d lines cmap heap).2.1.length = c.x * c.y * 3 := by
  simp [decodeFrame, decodeRows_image_length]

theorem loadFrame_store (c : LoadCall) (st : LoadState) (d : GifImageDesc)
    (lines : List (Option (List Byte))) (cmap : ColorMapObject) (heap : List Bool) :
    (loadFrame c st d lines cmap heap).2.store =
      storeFrame st.store (decodeFrame c st.transparency d lines cmap heap).2.1
        (decodeFrame c st.transparency d lines cmap heap).2.2
        st.userinput st.disposalmethod st.delay := by
  unfold loadFrame
  simp only
  split
  · rfl
  · split
    · rfl
    · rw [copyFirst_store]

theorem loadImage_grows (c : LoadCall) (st : LoadState) (desc : Option GifImageDesc)
    (lines : List (Option (List Byte))) :
    Grows c.x c.y st.store (loadImage c st desc lines).2.store := by
  cases desc with
  | none => exact Grows.refl _ _ _
  | some d =>
    simp only [loadImage]
    by_cases hcap : st.store.imagecount ≥ MAX_IMAGES
    · rw [if_pos hcap]; exact Grows.refl _ _ _
    · rw [if_neg hcap]
      by_cases hfit : int32 (d.Width * d.Height) > int32 (c.x * c.y)
      · rw [if_pos hfit]; exact Grows.refl _ _ _
      · rw [if_neg hfit]
        split
        · split
          · exact Grows.refl _ _ _
          · rw [loadFrame_store]
            exact storeFrame_grows _ _ _ _ _ _ _ _ (by omega)
              (decodeFrame_image_length _ _ _ _ _ _)
        · exact Grows.refl _ _ _

theorem loadExtension_store (st : LoadState) (first : Option (Nat × Option (List Byte)))
    (more : List (Option (List Byte))) : (loadExtension st first more).2.store = st.store := by
  unfold loadExtension
  split
  · rfl
  · split <;> rfl
  · simp only
    split <;> split <;> rfl

theorem loadRecord_grows (c : LoadCall) (st : LoadState) (r : GifRecord) :
    Grows c.x c.y st.store (loadRecord c st r).2.store := by
  cases r with
  | imageDesc desc lines => exact loadImage_grows c st desc lines
  | extension first more =>
    simp only [loadRecord, loadExtension_store]
    exact Grows.refl _ _ _
  | terminate => exact Grows.refl _ _ _
  | other => exact Grows.refl _ _ _
  | readError => exact Grows.refl _ _ _

theorem loadRecords_grows (c : LoadCall) (st : LoadState) (rs : List GifRecord) :
    Grows c.x c.y st.store (loadRecords c st rs).2.store := by
  induction rs generalizing st with
  | nil => exact Grows.refl _ _ _
  | cons r rs ih =>
    have h := loadRecord_grows c st r
    simp only [loadRecords]
    split
    · rename_i st1 heq
      rw [heq] at h
      exact h.trans (ih st1)
    · rename_i st1 heq
      rw [heq] at h
      exact h
    · rename_i e st1 heq
      rw [heq] at h
      exact h


theorem fh_gif_load_grows (file : Option GifFile) (s : GifStore) (wantAlpha : Bool) (x y : Nat)
    (heap : List Bool) :
    Grows x y { s with imagecount := 0, imageix := 0 }
      (fh_gif_load file s wantAlpha x y heap).store := by
  cases file with
  | none => exact Grows.refl _ _ _
  | some f =>
    exact loadRecords_grows { SColorMap := f.SColorMap, wantAlpha := wantAlpha, x := x, y := y }
      (loadStart s heap) f.records

theorem fh_gif_next_inv (s : GifStore) (wantAlpha : Bool) (x y : Nat) (m1 m2 : Bool)
    (h : s.Inv) : (fh_gif_next s wantAlpha x y m1 m2).store.Inv := by
  have key : GifStore.Inv
      { s with imageix := if s.imageix + 1 ≥ s.imagecount then 0 else s.imageix + 1 } := by
    refine ⟨h.1, fun hpos => ?_⟩
    show (if s.imageix + 1 ≥ s.imagecount then 0 else s.imageix + 1) < s.imagecount
    split
    · exact hpos
    · omega
  unfold fh_gif_next
  split
  · exact h
  · split
    · exact h
    · simp only
      split
      · exact key
      · split
        · split
          · split
            · exact key
            · exact key
          · exact key
        · exact key

/-- C8: the frame-store invariant `imagecount ≤ 64 ∧ (0 < imagecount → imageix <
imagecount)` holds in the initial store, holds after every `fh_gif_load` call
whatever its arguments and result, is preserved by every `fh_gif_next` call
whatever its result, and holds after `fh_gif_unload`, which leaves
`imagecount = 0`. -/
theorem frame_store_invariant (s : GifStore) (h : s.Inv) (file : Option GifFile)
    (wantAlpha : Bool) (x y : Nat) (heap : List Bool) (m1 m2 : Bool) :
    GifStore.initial.Inv ∧
    (fh_gif_load file s wantAlpha x y heap).store.Inv ∧
    (fh_gif_next s wantAlpha x y m1 m2).store.Inv ∧
    (fh_gif_unload s).Inv ∧ (fh_gif_unload s).imagecount = 0 := by
  refine ⟨⟨by decide, fun h0 => absurd h0 (by decide)⟩, ?_,
    fh_gif_next_inv s wantAlpha x y m1 m2 h, ⟨Nat.zero_le _, fun h0 => absurd h0 (lt_irrefl 0)⟩, rfl⟩
  have g := fh_gif_load_grows file s wantAlpha x y heap
  refine ⟨g.cap (Nat.zero_le _), fun hpos => ?_⟩
  rw [g.ix]
  exact hpos

/-- C8, at the store the three-frame scenario leaves, for a `fh_gif_next` call. -/
theorem frame_store_invariant_witness :
    (fh_gif_load (some threeFrames) GifStore.initial true 2 1 []).store.Inv ∧
    (fh_gif_next (fh_gif_load (some threeFrames) GifStore.initial true 2 1 []).store
      true 2 1 true true).store.Inv :=
  ⟨⟨by decide, fun _ => by decide⟩,
   (frame_store_invariant (fh_gif_load (some threeFrames) GifStore.initial true 2 1 []).store
      ⟨by decide, fun _ => by decide⟩ none true 2 1 [] true true).2.2.1⟩

theorem fh_gif_next_step (s : GifStore) (wantAlpha : Bool) (x y : Nat) (m1 m2 : Bool)
    (hm : m1 = true → m2 = true) (hN : 1 ≤ s.imagecount) (hix : s.imageix < s.imagecount)
    (himg : ∀ i, i < s.imagecount → ∃ img, s.images.getD i none = some img ∧
      img.length = x * y * 3) :
    ((fh_gif_next s wantAlpha x y m1 m2).ret ≠ .FH_ERROR_OK ∧
      (fh_gif_next s wantAlpha x y m1 m2).store = s) ∨
    ((fh_gif_next s wantAlpha x y m1 m2).ret = .FH_ERROR_OK ∧
      (fh_gif_next s wantAlpha x y m1 m2).store =
        { s with imageix := (s.imageix + 1) % s.imagecount } ∧
      (fh_gif_next s wantAlpha x y m1 m2).buffer =
        s.images.getD ((s.imageix + 1) % s.imagecount) none ∧
      (fh_gif_next s wantAlpha x y m1 m2).alpha =
        if wantAlpha then
          some ((s.alphas.getD ((s.imageix + 1) % s.imagecount) none).map
            fun a => memcpy a (x * y))
        else none) := by
  have hmod : (if s.imageix + 1 ≥ s.imagecount then 0 else s.imageix + 1) =
      (s.imageix + 1) % s.imagecount := by
    split
    · have : s.imageix + 1 = s.imagecount := by omega
      rw [this, Nat.mod_self]
    · rw [Nat.mod_eq_of_lt (by omega)]
  have hlt : (s.imageix + 1) % s.imagecount < s.imagecount := Nat.mod_lt _ (by omega)
  obtain ⟨img, himg1, hlen⟩ := himg _ hlt
  unfold fh_gif_next
  rw [if_neg (by omega)]
  cases m1 with
  | false => left; simp
  | true =>
    have h2 : m2 = true := hm rfl
    subst h2
    right
    simp only [hmod, himg1, memcpy_of_length img _ hlen]
    cases wantAlpha with
    | false => simp
    | true =>
      cases ha : s.alphas.getD ((s.imageix + 1) % s.imagecount) none with
      | none => simp
      | some a => simp

theorem nextRun_cyclic (x y N : Nat) (hN : 1 ≤ N) (calls : List NextCall)
    (hc : ∀ c ∈ calls, c.m1 = true → c.m2 = true) (s : GifStore) (k0 : Nat)
    (hcount : s.imagecount = N) (hix : s.imageix = k0 % N)
    (himg : ∀ i, i < N → ∃ img, s.images.getD i none = some img ∧ img.length = x * y * 3)
    (j : Nat) (r : NextResult) (hr : (nextRun x y s calls)[j]? = some r)
    (hok : r.ret = .FH_ERROR_OK) :
    r.store.imageix = (k0 + okCount ((nextRun x y s calls).take (j + 1))) % N ∧
    r.store.imagecount = N ∧
    r.buffer = s.images.getD ((k0 + okCount ((nextRun x y s calls).take (j + 1))) % N) none ∧
    r.alpha = (if (calls.getD j ⟨false, false, false⟩).wantAlpha then
      some ((s.alphas.getD ((k0 + okCount ((nextRun x y s calls).take (j + 1))) % N) none).map
        fun a => memcpy a (x * y))
      else none) := by
  induction calls generalizing s k0 j with
  | nil => simp [nextRun] at hr
  | cons c cs ih =>
    have hstep := fh_gif_next_step s c.wantAlpha x y c.m1 c.m2 (hc c (List.mem_cons_self _ _))
      (by omega) (by rw [hix, hcount]; exact Nat.mod_lt _ (by omega)) (by rw [hcount]; exact himg)
    have hsucc : (s.imageix + 1) % s.imagecount = (k0 + 1) % N := by
      rw [hix, hcount, Nat.add_mod, Nat.mod_mod, ← Nat.add_mod]
    cases j with
    | zero =>
      simp only [nextRun, List.getElem?_cons_zero, Option.some.injEq] at hr
      subst hr
      rcases hstep with ⟨hne, _⟩ | ⟨_, hst, hbuf, hal⟩
      · exact absurd hok hne
      · simp only [nextRun, List.take_succ_cons, List.take_zero, okCount, List.countP_cons,
          List.countP_nil, hok, decide_True, if_true, Nat.zero_add, List.getD_cons_zero]
        rw [hst, hbuf, hal, hsucc]
        exact ⟨rfl, hcount, rfl, rfl⟩
    | succ j =>
      simp only [nextRun, List.getElem?_cons_succ] at hr
      have hcs : ∀ c ∈ cs, c.m1 = true → c.m2 = true :=
        fun c hc1 => hc c (List.mem_cons_of_mem _ hc1)
      rcases hstep with ⟨hne, hst⟩ | ⟨hok1, hst, _, _⟩
      · rw [hst] at hr
        have := ih hcs s k0 hcount hix himg j hr
        simp only [nextRun, List.take_succ_cons, okCount, List.countP_cons, hne, decide_False,
          hst, List.getD_cons_succ] at this ⊢
        simpa using this
      · rw [hst] at hr
        have := ih hcs { s with imageix := (s.imageix + 1) % s.imagecount } (k0 + 1) hcount
          hsucc himg j hr
        simp only [nextRun, List.take_succ_cons, okCount, List.countP_cons, hok1, decide_True,
          hst, List.getD_cons_succ, if_true] at this ⊢
        simp only [Nat.add_right_comm k0 1] at this
        simp only [← Nat.add_assoc]
        exact this


theorem sized_initial : GifStore.initial.Sized :=
  ⟨rfl, rfl, rfl, rfl, rfl⟩

/-- The cyclic order of `fh_gif_next` where it holds: after a `fh_gif_load`
that left `N ≥ 1` frames, in every run of `fh_gif_next` calls with the same
bounding box in which no call fails at the alpha allocation, the `k`-th
successful call leaves the cursor at `k mod N` and returns the stored pixel
block of frame `k mod N` unchanged (and, when alpha is requested, the copy of
that frame's alpha block); in particular the `N`-th successful call returns the
pixel block of frame 0 and leaves the cursor at 0. -/
theorem fh_gif_next_cyclic (file : Option GifFile) (s : GifStore) (hs : s.Sized)
    (wantAlpha : Bool) (x y : Nat) (heap : List Bool) (calls : List NextCall)
    (hc : ∀ c ∈ calls, c.m1 = true → c.m2 = true)
    (hN : 1 ≤ (fh_gif_load file s wantAlpha x y heap).store.imagecount)
    (j : Nat) (r : NextResult)
    (hr : (nextRun x y (fh_gif_load file s wantAlpha x y heap).store calls)[j]? = some r)
    (hok : r.ret = .FH_ERROR_OK) :
    (fh_gif_load file s wantAlpha x y heap).store.imagecount ≤ MAX_IMAGES ∧
    r.store.imageix =
      okCount ((nextRun x y (fh_gif_load file s wantAlpha x y heap).store calls).take (j + 1)) %
        (fh_gif_load file s wantAlpha x y heap).store.imagecount ∧
    (∃ img, r.buffer = some img ∧ img.length = x * y * 3 ∧
      (fh_gif_load file s wantAlpha x y heap).store.images.getD
        (okCount ((nextRun x y (fh_gif_load file s wantAlpha x y heap).store calls).take (j + 1)) %
          (fh_gif_load file s wantAlpha x y heap).store.imagecount) none = some img) ∧
    r.alpha = (if (calls.getD j ⟨false, false, false⟩).wantAlpha then
      some (((fh_gif_load file s wantAlpha x y heap).store.alphas.getD
        (okCount ((nextRun x y (fh_gif_load file s wantAlpha x y heap).store calls).take (j + 1)) %
          (fh_gif_load file s wantAlpha x y heap).store.imagecount) none).map
        fun a => memcpy a (x * y))
      else none) ∧
    (okCount ((nextRun x y (fh_gif_load file s wantAlpha x y heap).store calls).take (j + 1)) =
        (fh_gif_load file s wantAlpha x y heap).store.imagecount →
      r.store.imageix = 0 ∧
      r.buffer = (fh_gif_load file s wantAlpha x y heap).store.images.getD 0 none) := by
  have g := fh_gif_load_grows file s wantAlpha x y heap
  have hs0 : GifStore.Sized { s with imagecount := 0, imageix := 0 } := hs
  have himg : ∀ i, i < (fh_gif_load file s wantAlpha x y heap).store.imagecount →
      ∃ img, (fh_gif_load file s wantAlpha x y heap).store.images.getD i none = some img ∧
        img.length = x * y * 3 :=
    fun i hi => g.fresh hs0 i (Nat.zero_le _) hi
  have hix : (fh_gif_load file s wantAlpha x y heap).store.imageix =
      0 % (fh_gif_load file s wantAlpha x y heap).store.imagecount := by
    rw [g.ix, Nat.zero_mod]
  have h := nextRun_cyclic x y _ hN calls hc _ 0 rfl hix himg j r hr hok
  simp only [Nat.zero_add] at h
  obtain ⟨h1, _, h3, h4⟩ := h
  refine ⟨g.cap (Nat.zero_le _), h1, ?_, h4, ?_⟩
  · obtain ⟨img, himg1, hlen⟩ := himg _ (Nat.mod_lt _ hN)
    exact ⟨img, h3.trans himg1, hlen, himg1⟩
  · intro hk
    rw [hk, Nat.mod_self] at h1 h3
    exact ⟨h1, h3⟩

/-- The cyclic order on the three-frame scenario: three successive calls,
alpha requested, all allocations succeeding; the third call is back on frame 0. -/
theorem fh_gif_next_cyclic_witness :
    (fh_gif_load (some threeFrames) GifStore.initial true 2 1 []).store.imagecount = 3 ∧
    (fh_gif_next (fh_gif_next (fh_gif_next
        (fh_gif_load (some threeFrames) GifStore.initial true 2 1 []).store
        true 2 1 true true).store true 2 1 true true).store true 2 1 true true).buffer =
      (fh_gif_load (some threeFrames) GifStore.initial true 2 1 []).store.images.getD 0 none :=
  ⟨by decide,
   ((fh_gif_next_cyclic (some threeFrames) GifStore.initial sized_initial true 2 1 []
      [⟨true, true, true⟩, ⟨true, true, true⟩, ⟨true, true, true⟩] (by decide) (by decide) 2
      (fh_gif_next (fh_gif_next (fh_gif_next
        (fh_gif_load (some threeFrames) GifStore.initial true 2 1 []).store
        true 2 1 true true).store true 2 1 true true).store true 2 1 true true)
      rfl (by decide)).2.2.2.2 (by decide)).2⟩


theorem passRows_mem (step py : Nat) (hstep : 1 ≤ step) (fuel i r : Nat) (hfuel : py ≤ i + fuel) :
    r ∈ passRows step py fuel i ↔ i ≤ r ∧ r < py ∧ step ∣ (r - i) := by
  induction fuel generalizing i with
  | zero =>
    simp only [passRows, List.not_mem_nil, false_iff]
    omega
  | succ fuel ih =>
    simp only [passRows]
    split
    · rename_i hlt
      rw [List.mem_cons, ih (i + step) (by omega)]
      constructor
      · rintro (rfl | ⟨h1, h2, h3⟩)
        · exact ⟨le_refl _, hlt, by simp⟩
        · refine ⟨by omega, h2, ?_⟩
          have : r - i = (r - (i + step)) + step := by omega
          rw [this]
          exact Dvd.dvd.add h3 (dvd_refl _)
      · rintro ⟨h1, h2, q, hq⟩
        cases q with
        | zero => left; omega
        | succ q =>
          right
          rw [Nat.mul_succ] at hq
          refine ⟨by omega, h2, q, by omega⟩
    · simp only [List.not_mem_nil, false_iff]
      omega

theorem passRows_nodup (step py : Nat) (hstep : 1 ≤ step) (fuel i : Nat) (hfuel : py ≤ i + fuel) :
    (passRows step py fuel i).Nodup := by
  induction fuel generalizing i with
  | zero => simp [passRows]
  | succ fuel ih =>
    simp only [passRows]
    split
    · rw [List.nodup_cons]
      refine ⟨?_, ih (i + step) (by omega)⟩
      rw [passRows_mem step py hstep fuel (i + step) i (by omega)]
      omega
    · exact List.nodup_nil

theorem interlaceRows_eq (py : Nat) :
    interlaceRows py =
      passRows 8 py py 0 ++ (passRows 8 py py 4 ++ (passRows 4 py py 2 ++ passRows 2 py py 1)) := by
  simp [interlaceRows, List.range_succ, in_nextrow, in_beginrow, List.flatMap]

theorem passRows_sorted (step py : Nat) (hstep : 1 ≤ step) (fuel i : Nat)
    (hfuel : py ≤ i + fuel) : (passRows step py fuel i).Pairwise (· < ·) := by
  induction fuel generalizing i with
  | zero => exact List.Pairwise.nil
  | succ fuel ih =>
    simp only [passRows]
    split
    · refine List.Pairwise.cons (fun r hr => ?_) (ih (i + step) (by omega))
      rw [passRows_mem step py hstep fuel (i + step) r (by omega)] at hr
      omega
    · exact List.Pairwise.nil

theorem passRows_eq_filter (step py : Nat) (hstep : 1 ≤ step) (i : Nat) :
    passRows step py py i =
      (List.range py).filter fun r => decide (i ≤ r ∧ (r - i) % step = 0) := by
  have hs1 := passRows_sorted step py hstep py i (by omega)
  have hs2 : ((List.range py).filter fun r => decide (i ≤ r ∧ (r - i) % step = 0)).Pairwise
      (· < ·) := (List.pairwise_lt_range py).filter _
  refine List.eq_of_perm_of_sorted ?_ hs1 hs2
  rw [List.perm_ext_iff_of_nodup (passRows_nodup step py hstep py i (by omega))
    ((List.nodup_range py).filter _)]
  intro r
  rw [passRows_mem step py hstep py i r (by omega), List.mem_filter, List.mem_range,
    decide_eq_true_eq, Nat.dvd_iff_mod_eq_zero]
  constructor
  · rintro ⟨h1, h2, h3⟩
    exact ⟨h2, h1, h3⟩
  · rintro ⟨h2, h1, h3⟩
    exact ⟨h1, h2, h3⟩

theorem interlaceRows_transmissionOrder (py : Nat) : interlaceRows py = transmissionOrder py := by
  rw [interlaceRows_eq, passRows_eq_filter 8 py (by omega) 0, passRows_eq_filter 8 py (by omega) 4,
    passRows_eq_filter 4 py (by omega) 2, passRows_eq_filter 2 py (by omega) 1]
  simp [transmissionOrder, interlacePasses, List.flatMap]

theorem interlaceRows_mem (py r : Nat) : r ∈ interlaceRows py ↔ r < py := by
  rw [interlaceRows_eq]
  simp only [List.mem_append, passRows_mem 8 py (by omega) py 0 r (by omega),
    passRows_mem 8 py (by omega) py 4 r (by omega), passRows_mem 4 py (by omega) py 2 r (by omega),
    passRows_mem 2 py (by omega) py 1 r (by omega)]
  omega

theorem interlaceRows_nodup (py : Nat) : (interlaceRows py).Nodup := by
  rw [interlaceRows_eq]
  simp only [List.nodup_append, passRows_nodup 8 py (by omega) py 0 (by omega),
    passRows_nodup 8 py (by omega) py 4 (by omega), passRows_nodup 4 py (by omega) py 2 (by omega),
    passRows_nodup 2 py (by omega) py 1 (by omega), List.Disjoint, List.mem_append,
    passRows_mem 8 py (by omega) py 0 _ (by omega),
    passRows_mem 8 py (by omega) py 4 _ (by omega), passRows_mem 4 py (by omega) py 2 _ (by omega),
    passRows_mem 2 py (by omega) py 1 _ (by omega), true_and]
  refine ⟨⟨fun a => ?_, fun a => ?_⟩, fun a => ?_⟩ <;> omega

theorem interlaceRows_perm (py : Nat) : (interlaceRows py).Perm (List.range py) := by
  rw [List.perm_ext_iff_of_nodup (interlaceRows_nodup py) (List.nodup_range py)]
  intro a
  rw [interlaceRows_mem, List.mem_range]


theorem writeAt_getD (buf : Buffer) (off : Nat) (src : Buffer) (k : Nat) :
    (writeAt buf off src).getD k none =
      if off ≤ k ∧ k < off + src.length ∧ k < buf.length then src.getD (k - off) none
      else buf.getD k none := by
  unfold writeAt
  by_cases hk : k < buf.length
  · rw [List.getD_eq_getElem _ _ (by simpa using hk)]
    simp only [List.getElem_map, List.getElem_range, hk, and_true]
  · have h1 : buf.getD k none = none := List.getD_eq_default _ _ (by omega)
    rw [List.getD_eq_default _ _ (by simpa using hk), h1, if_neg (by tauto)]

theorem foldl_writeAt_length {α : Type} (off : α → Nat) (src : α → Buffer) (ps : List α)
    (buf : Buffer) : (ps.foldl (fun b p => writeAt b (off p) (src p)) buf).length = buf.length := by
  induction ps generalizing buf with
  | nil => rfl
  | cons p ps ih => simp [List.foldl_cons, ih, writeAt_length]

theorem foldl_writeAt_miss {α : Type} (off : α → Nat) (src : α → Buffer) (ps : List α)
    (buf : Buffer) (k : Nat) (h : ∀ p ∈ ps, ¬(off p ≤ k ∧ k < off p + (src p).length)) :
    (ps.foldl (fun b p => writeAt b (off p) (src p)) buf).getD k none = buf.getD k none := by
  induction ps generalizing buf with
  | nil => rfl
  | cons p ps ih =>
    rw [List.foldl_cons, ih _ (fun q hq => h q (List.mem_cons_of_mem _ hq)), writeAt_getD]
    have := h p (List.mem_cons_self _ _)
    rw [if_neg (by tauto)]

theorem foldl_writeAt_hit {α : Type} (off : α → Nat) (src : α → Buffer) (ps : List α)
    (buf : Buffer)
    (hd : ps.Pairwise fun p q => off p + (src p).length ≤ off q ∨ off q + (src q).length ≤ off p)
    (p : α) (hp : p ∈ ps) (k : Nat) (h1 : off p ≤ k) (h2 : k < off p + (src p).length)
    (h3 : k < buf.length) :
    (ps.foldl (fun b p => writeAt b (off p) (src p)) buf).getD k none =
      (src p).getD (k - off p) none := by
  induction ps generalizing buf with
  | nil => exact absurd hp (List.not_mem_nil _)
  | cons q ps ih =>
    rw [List.pairwise_cons] at hd
    rw [List.foldl_cons]
    by_cases hps : p ∈ ps
    · exact ih _ hd.2 hps (by rw [writeAt_length]; exact h3)
    · have hpq : p = q := by
        rcases List.mem_cons.1 hp with h | h
        · exact h
        · exact absurd h hps
      subst hpq
      rw [foldl_writeAt_miss, writeAt_getD, if_pos ⟨h1, h2, h3⟩]
      intro q hq
      have := hd.1 q hq
      omega

theorem decodecolormap_length (cmb : Buffer) (cm : ColorMapObject) (l : Nat) :
    (m_rend_gif_decodecolormap cmb cm l).length = 3 * l := by
  simp [m_rend_gif_decodecolormap]

theorem scanline_length (pixels : List Byte) (px : Nat) : (scanline pixels px).length = px := by
  simp [scanline]

theorem decodeRows_of_lines (lines : List (Option (List Byte))) (cmap : ColorMapObject)
    (px : Nat) (t : Int) (img : List (List Byte)) (rows : List Nat) (n : Nat) (image : Buffer)
    (al : Option Buffer)
    (h : ∀ k (hk : k < rows.length), DGifGetLine lines (n + k) = some (img.getD rows[k] [])) :
    decodeRows lines cmap px t rows n image al =
      (true, (rows.map fun r => (r, img.getD r [])).foldl (putRow cmap px t) (image, al)) := by
  induction rows generalizing n image al with
  | nil => rfl
  | cons i rows ih =>
    have h0 := h 0 (Nat.zero_lt_succ _)
    simp only [Nat.add_zero, List.getElem_cons_zero] at h0
    simp only [decodeRows, h0, List.map_cons, List.foldl_cons]
    rw [ih (n + 1)]
    · rfl
    · intro k hk
      have := h (k + 1) (Nat.succ_lt_succ hk)
      simp only [List.getElem_cons_succ] at this
      rw [← this]
      congr 1
      omega

theorem foldl_putRow_fst (cmap : ColorMapObject) (px : Nat) (t : Int)
    (ps : List (Nat × List Byte)) (image : Buffer) (al : Option Buffer) :
    (ps.foldl (putRow cmap px t) (image, al)).1 =
      ps.foldl (fun b p => writeAt b (p.1 * px * 3)
        (m_rend_gif_decodecolormap (scanline p.2 px) cmap px)) image := by
  induction ps generalizing image al with
  | nil => rfl
  | cons p ps ih => simp only [List.foldl_cons, putRow, ih]

theorem foldl_putRow_snd (cmap : ColorMapObject) (px : Nat) (t : Int)
    (ps : List (Nat × List Byte)) (image : Buffer) (al : Option Buffer) :
    (ps.foldl (putRow cmap px t) (image, al)).2 =
      al.map fun a => ps.foldl (fun b p => writeAt b (p.1 * px)
        ((scanline p.2 px).map (alphaOf t))) a := by
  induction ps generalizing image al with
  | nil => cases al <;> rfl
  | cons p ps ih =>
    simp only [List.foldl_cons, putRow, ih]
    cases al <;> rfl

theorem rows_disjoint (w : Nat) (r1 r2 : Nat) (h : r1 ≠ r2) :
    r1 * w + w ≤ r2 * w ∨ r2 * w + w ≤ r1 * w := by
  rcases Nat.lt_or_gt_of_ne h with h1 | h1
  · left
    calc r1 * w + w = (r1 + 1) * w := by ring
      _ ≤ r2 * w := Nat.mul_le_mul_right _ h1
  · right
    calc r2 * w + w = (r2 + 1) * w := by ring
      _ ≤ r1 * w := Nat.mul_le_mul_right _ h1

theorem pixel_rows_pairwise (cmap : ColorMapObject) (px : Nat) (img : List (List Byte))
    (rows : List Nat) (hn : rows.Nodup) :
    (rows.map fun r => (r, img.getD r [])).Pairwise fun p q =>
      p.1 * px * 3 + (m_rend_gif_decodecolormap (scanline p.2 px) cmap px).length ≤ q.1 * px * 3 ∨
      q.1 * px * 3 + (m_rend_gif_decodecolormap (scanline q.2 px) cmap px).length ≤
        p.1 * px * 3 := by
  rw [List.pairwise_map]
  refine List.Pairwise.imp ?_ hn
  intro a b hab
  simp only [decodecolormap_length]
  have := rows_disjoint (3 * px) a b hab
  have e : ∀ r, r * px * 3 = r * (3 * px) := fun r => by ring
  rw [e a, e b]
  exact this

theorem alpha_rows_pairwise (t : Int) (px : Nat) (img : List (List Byte))
    (rows : List Nat) (hn : rows.Nodup) :
    (rows.map fun r => (r, img.getD r [])).Pairwise fun p q =>
      p.1 * px + ((scanline p.2 px).map (alphaOf t)).length ≤ q.1 * px ∨
      q.1 * px + ((scanline q.2 px).map (alphaOf t)).length ≤ p.1 * px := by
  rw [List.pairwise_map]
  refine List.Pairwise.imp ?_ hn
  intro a b hab
  simp only [List.length_map, scanline_length]
  exact rows_disjoint px a b hab

theorem sequentialStream_line (img : List (List Byte)) (k : Nat)
    (hk : k < (sequentialRows img.length).length) :
    DGifGetLine (sequentialStream img) (0 + k) =
      some (img.getD (sequentialRows img.length)[k] []) := by
  have hk1 : k < img.length := by simpa [sequentialRows] using hk
  simp [DGifGetLine, sequentialStream, sequentialRows, List.getD_eq_getElem?_getD, hk1]

theorem interlacedStream_line (img : List (List Byte)) (k : Nat)
    (hk : k < (interlaceRows img.length).length) :
    DGifGetLine (interlacedStream img) (0 + k) =
      some (img.getD (interlaceRows img.length)[k] []) := by
  have hr : (interlaceRows img.length)[k] < img.length :=
    (interlaceRows_mem _ _).1 (List.getElem_mem _)
  simp [DGifGetLine, interlacedStream, ← interlaceRows_transmissionOrder,
    List.getD_eq_getElem?_getD, hk, hr]

theorem foldl_putRow_pixel (cmap : ColorMapObject) (px : Nat) (t : Int) (img : List (List Byte))
    (rows : List Nat) (hn : rows.Nodup) (image : Buffer) (al : Option Buffer) (r : Nat)
    (hr : r ∈ rows) (k : Nat) (hk : k < 3 * px) (hb : r * px * 3 + k < image.length) :
    ((rows.map fun r => (r, img.getD r [])).foldl (putRow cmap px t) (image, al)).1.getD
        (r * px * 3 + k) none =
      (m_rend_gif_decodecolormap (scanline (img.getD r []) px) cmap px).getD k none := by
  rw [foldl_putRow_fst]
  have h := foldl_writeAt_hit (fun p : Nat × List Byte => p.1 * px * 3)
    (fun p => m_rend_gif_decodecolormap (scanline p.2 px) cmap px)
    (rows.map fun r => (r, img.getD r [])) image (pixel_rows_pairwise cmap px img rows hn)
    (r, img.getD r []) (List.mem_map.2 ⟨r, hr, rfl⟩) (r * px * 3 + k) (Nat.le_add_right _ _)
    (by simp only [decodecolormap_length]; omega) hb
  simp only [Nat.add_sub_cancel_left] at h
  exact h

theorem foldl_putRow_alpha (cmap : ColorMapObject) (px : Nat) (t : Int) (img : List (List Byte))
    (rows : List Nat) (hn : rows.Nodup) (image : Buffer) (a : Buffer) (r : Nat)
    (hr : r ∈ rows) (k : Nat) (hk : k < px) (hb : r * px + k < a.length) :
    ∃ a1, ((rows.map fun r => (r, img.getD r [])).foldl (putRow cmap px t) (image, some a)).2 =
        some a1 ∧ a1.length = a.length ∧
      a1.getD (r * px + k) none = alphaOf t ((img.getD r [])[k]?) := by
  rw [foldl_putRow_snd]
  refine ⟨_, rfl, foldl_writeAt_length _ _ _ _, ?_⟩
  have h := foldl_writeAt_hit (fun p : Nat × List Byte => p.1 * px)
    (fun p => (scanline p.2 px).map (alphaOf t))
    (rows.map fun r => (r, img.getD r [])) a (alpha_rows_pairwise t px img rows hn)
    (r, img.getD r []) (List.mem_map.2 ⟨r, hr, rfl⟩) (r * px + k) (Nat.le_add_right _ _)
    (by simp only [List.length_map, scanline_length]; omega) hb
  simp only [Nat.add_sub_cancel_left] at h
  rw [h]
  simp [scanline, List.getD_eq_getElem?_getD, hk]

theorem loadRecords_append (c : LoadCall) (st st1 : LoadState) (pre rest : List GifRecord)
    (h : runRecords c st pre = some st1) :
    loadRecords c st (pre ++ rest) = loadRecords c st1 rest := by
  induction pre generalizing st with
  | nil =>
    simp only [runRecords, Option.some.injEq] at h
    subst h; rfl
  | cons r pre ih =>
    simp only [runRecords] at h
    simp only [List.cons_append, loadRecords]
    split at h
    · rename_i st2 heq
      rw [heq]
      exact ih st2 h
    · exact absurd h (by simp)

theorem runRecords_grows (c : LoadCall) (st st1 : LoadState) (pre : List GifRecord)
    (h : runRecords c st pre = some st1) : Grows c.x c.y st.store st1.store := by
  induction pre generalizing st with
  | nil =>
    simp only [runRecords, Option.some.injEq] at h
    subst h; exact Grows.refl _ _ _
  | cons r pre ih =>
    simp only [runRecords] at h
    split at h
    · rename_i st2 heq
      have := loadRecord_grows c st r
      rw [heq] at this
      exact this.trans (ih st2 h)
    · exact absurd h (by simp)

theorem int32_of_lt (v : Int) (h0 : 0 ≤ v) (h : v < 2147483648) : int32 v = v := by
  unfold int32
  omega

theorem int32_area (a b : Nat) (h : a * b < 2147483648) :
    int32 ((a : Int) * (b : Int)) = ((a * b : Nat) : Int) := by
  rw [← Nat.cast_mul]
  exact int32_of_lt _ (Int.natCast_nonneg _) (by exact_mod_cast h)

theorem size_test_fit (c : LoadCall) (d : GifImageDesc) (hbox : c.x * c.y < 2147483648)
    (hfit : d.Width * d.Height ≤ c.x * c.y) :
    ¬ int32 ((d.Width : Int) * (d.Height : Int)) > int32 ((c.x : Int) * (c.y : Int)) := by
  rw [int32_area _ _ (by omega), int32_area _ _ hbox]
  exact_mod_cast Nat.not_lt.2 hfit

theorem frameRows_mem (d : GifImageDesc) (r : Nat) : r ∈ frameRows d ↔ r < d.Height := by
  unfold frameRows
  split
  · exact interlaceRows_mem _ _
  · simp [sequentialRows]

theorem overrun_false (lines : List (Option (List Byte))) (px imageSize : Nat)
    (alphaSize : Option Nat) (py : Nat) (himg : py * px * 3 ≤ imageSize)
    (hal : ∀ a, alphaSize = some a → py * px ≤ a) (rows : List Nat) (n : Nat)
    (hrows : ∀ i ∈ rows, i < py) :
    overrun lines px imageSize alphaSize rows n = false := by
  induction rows generalizing n with
  | nil => rfl
  | cons i rows ih =>
    have hi : (i + 1) * px ≤ py * px :=
      Nat.mul_le_mul_right _ (hrows i (List.mem_cons_self _ _))
    have hi2 : i * px + px ≤ py * px := by rw [Nat.succ_mul] at hi; exact hi
    simp only [overrun]
    split
    · rfl
    · rw [ih (n + 1) (fun j hj => hrows j (List.mem_cons_of_mem _ hj))]
      have h1 : ¬ imageSize < i * px * 3 + px * 3 := by omega
      cases alphaSize with
      | none => simp [h1]
      | some a =>
        have h2 : ¬ a < i * px + px := by have := hal a rfl; omega
        simp [h1, h2]

theorem frameOverrun_false (c : LoadCall) (t : Int) (d : GifImageDesc)
    (lines : List (Option (List Byte))) (heap : List Bool) (hbox : c.x * c.y < 2147483648)
    (hfit : d.Width * d.Height ≤ c.x * c.y) : frameOverrun c t d lines heap = false := by
  unfold frameOverrun
  refine overrun_false lines d.Width _ _ d.Height ?_ ?_ _ 0 (fun i hi => (frameRows_mem d i).1 hi)
  · rw [Nat.mul_comm d.Height d.Width]
    omega
  · intro a ha
    rw [int32_area _ _ (by omega)] at ha
    split at ha
    · simp only [Int.toNat_ofNat, Option.some.injEq] at ha
      rw [← ha, Nat.mul_comm]
    · exact absurd ha (by simp)

theorem malloc_allSucceed (heap : List Bool) (h : AllSucceed heap) :
    (malloc heap).1 = true ∧ AllSucceed (malloc heap).2 := by
  cases heap with
  | nil => exact ⟨rfl, fun b hb => absurd hb (List.not_mem_nil _)⟩
  | cons a t =>
    exact ⟨h a (List.mem_cons_self _ _), fun b hb => h b (List.mem_cons_of_mem _ hb)⟩

theorem allocAlpha_allSucceed (t size : Int) (heap : List Bool) (h : AllSucceed heap) :
    ((allocAlpha t size heap).1 = true ↔ t ≠ -1 ∧ 0 ≤ size) ∧
    AllSucceed (allocAlpha t size heap).2 := by
  unfold allocAlpha
  split
  · rename_i ht
    refine ⟨?_, (malloc_allSucceed heap h).2⟩
    simp [(malloc_allSucceed heap h).1, ht]
  · rename_i ht
    exact ⟨⟨fun hf => absurd hf (by simp), fun hf => absurd hf.1 ht⟩, h⟩

theorem copyFirst_allSucceed (c : LoadCall) (st : LoadState) (image : Buffer)
    (al : Option Buffer) (h : AllSucceed st.heap) :
    (copyFirst c st image al).1 = .next ∧ AllSucceed (copyFirst c st image al).2.heap := by
  unfold copyFirst
  have m1 := malloc_allSucceed st.heap h
  have m2 := malloc_allSucceed _ m1.2
  split
  · exact ⟨rfl, h⟩
  · simp only [m1.1, Bool.true_eq_false, if_false]
    split
    · split
      · rw [if_pos m2.1]
        exact ⟨rfl, m2.2⟩
      · exact ⟨rfl, m1.2⟩
    · exact ⟨rfl, m1.2⟩

theorem decodeFrame_complete (c : LoadCall) (t : Int) (d : GifImageDesc) (img : List (List Byte))
    (himg : img.length = d.Height) (cmap : ColorMapObject) (heap : List Bool) :
    (decodeFrame c t d (frameStream d img) cmap heap).1 = true := by
  unfold decodeFrame frameStream frameRows
  simp only [← himg]
  cases d.Interlace with
  | true =>
    simp only [if_true]
    rw [decodeRows_of_lines _ cmap _ t img _ 0 _ _ (interlacedStream_line img)]
  | false =>
    simp only [Bool.false_eq_true, if_false]
    rw [decodeRows_of_lines _ cmap _ t img _ 0 _ _ (sequentialStream_line img)]

theorem loadFrame_allSucceed (c : LoadCall) (st : LoadState) (d : GifImageDesc)
    (img : List (List Byte)) (himg : img.length = d.Height) (cmap : ColorMapObject)
    (heap : List Bool) (h : AllSucceed heap) (hbox : c.x * c.y < 2147483648)
    (hfit : d.Width * d.Height ≤ c.x * c.y) :
    (loadFrame c st d (frameStream d img) cmap heap).1 = .next ∧
    AllSucceed (loadFrame c st d (frameStream d img) cmap heap).2.heap := by
  unfold loadFrame
  simp only [frameOverrun_false c st.transparency d _ heap hbox hfit,
    decodeFrame_complete c st.transparency d img himg cmap heap, Bool.true_eq_false,
    if_false, Bool.false_eq_true]
  exact copyFirst_allSucceed c _ _ _ (allocAlpha_allSucceed _ _ heap h).2

theorem loadImage_stored (c : LoadCall) (st : LoadState) (d : GifImageDesc)
    (lines : List (Option (List Byte))) (cmap : ColorMapObject)
    (hcap : st.store.imagecount < MAX_IMAGES) (hbox : c.x * c.y < 2147483648)
    (hfit : d.Width * d.Height ≤ c.x * c.y)
    (hcm : activeColorMap c d = some cmap) (hheap : AllSucceed st.heap) :
    loadImage c st (some d) lines =
      loadFrame c st d lines cmap (malloc (malloc (malloc st.heap).2).2).2 := by
  have m1 := malloc_allSucceed st.heap hheap
  have m2 := malloc_allSucceed _ m1.2
  have m3 := malloc_allSucceed _ m2.2
  simp only [loadImage]
  rw [if_neg (by omega), if_neg (size_test_fit c d hbox hfit)]
  simp only [m1.1, m2.1, m3.1, Bool.and_self, if_true, hcm]

theorem malloc_suffix (heap : List Bool) : (malloc heap).2 <:+ heap :=
  List.tail_suffix heap

theorem allocAlpha_suffix (t size : Int) (heap : List Bool) :
    (allocAlpha t size heap).2 <:+ heap := by
  unfold allocAlpha
  split
  · exact malloc_suffix heap
  · exact List.suffix_refl heap

theorem copyFirst_suffix (c : LoadCall) (st : LoadState) (image : Buffer) (al : Option Buffer) :
    (copyFirst c st image al).2.heap <:+ st.heap := by
  have m1 := malloc_suffix st.heap
  have m2 := (malloc_suffix (malloc st.heap).2).trans m1
  unfold copyFirst
  split
  · exact List.suffix_refl _
  · simp only
    split
    · exact m1
    · split
      · split
        · split
          · exact m2
          · exact m2
        · exact m1
      · exact m1

theorem loadFrame_suffix (c : LoadCall) (st : LoadState) (d : GifImageDesc)
    (lines : List (Option (List Byte))) (cmap : ColorMapObject) (heap : List Bool) :
    (loadFrame c st d lines cmap heap).2.heap <:+ heap := by
  unfold loadFrame
  simp only
  split
  · exact allocAlpha_suffix _ _ _
  · split
    · exact allocAlpha_suffix _ _ _
    · exact (copyFirst_suffix c _ _ _).trans (allocAlpha_suffix _ _ _)

theorem loadImage_suffix (c : LoadCall) (st : LoadState) (desc : Option GifImageDesc)
    (lines : List (Option (List Byte))) : (loadImage c st desc lines).2.heap <:+ st.heap := by
  have m3 : (malloc (malloc (malloc st.heap).2).2).2 <:+ st.heap :=
    ((malloc_suffix _).trans (malloc_suffix _)).trans (malloc_suffix _)
  cases desc with
  | none => exact List.suffix_refl _
  | some d =>
    simp only [loadImage]
    split
    · exact List.suffix_refl _
    · split
      · exact List.suffix_refl _
      · split
        · split
          · exact m3
          · exact (loadFrame_suffix c st d lines _ _).trans m3
        · exact m3

theorem loadExtension_heap (st : LoadState) (first : Option (Nat × Option (List Byte)))
    (more : List (Option (List Byte))) : (loadExtension st first more).2.heap = st.heap := by
  unfold loadExtension
  split
  · rfl
  · split <;> rfl
  · simp only
    split <;> split <;> rfl

theorem loadRecord_suffix (c : LoadCall) (st : LoadState) (r : GifRecord) :
    (loadRecord c st r).2.heap <:+ st.heap := by
  cases r with
  | imageDesc desc lines => exact loadImage_suffix c st desc lines
  | extension first more =>
    simp only [loadRecord, loadExtension_heap]
    exact List.suffix_refl _
  | terminate => exact List.suffix_refl _
  | other => exact List.suffix_refl _
  | readError => exact List.suffix_refl _

theorem runRecords_suffix (c : LoadCall) (st st1 : LoadState) (pre : List GifRecord)
    (h : runRecords c st pre = some st1) : st1.heap <:+ st.heap := by
  induction pre generalizing st with
  | nil =>
    simp only [runRecords, Option.some.injEq] at h
    subst h; exact List.suffix_refl _
  | cons r pre ih =>
    simp only [runRecords] at h
    split at h
    · rename_i st2 heq
      have := loadRecord_suffix c st r
      rw [heq] at this
      exact (ih st2 h).trans this
    · exact absurd h (by simp)

theorem AllSucceed.of_suffix {h1 h2 : List Bool} (h : AllSucceed h2) (hs : h1 <:+ h2) :
    AllSucceed h1 :=
  fun b hb => h b (hs.subset hb)

theorem loadExtension_transparency (st : LoadState) (first : Option (Nat × Option (List Byte)))
    (more : List (Option (List Byte))) :
    (loadExtension st first more).2.transparency =
      ((enablesTransparency (.extension first more)).map Int.ofNat).getD st.transparency := by
  unfold loadExtension enablesTransparency
  split
  · rfl
  · split <;> rfl
  · rename_i extcode extension
    simp only
    by_cases hc : extcode = 0xf9 <;> by_cases hb : extByte extension 1 &&& 1 ≠ 0 <;>
      split <;>
      simp only [hc, hb, ne_eq, not_false_eq_true, not_true_eq_false, if_true, if_false,
        and_true, and_false, true_and, false_and, and_self, Option.map_some', Option.map_none',
        Option.getD_some, Option.getD_none, not_not] <;> rfl

theorem loadImage_transparency (c : LoadCall) (st : LoadState) (desc : Option GifImageDesc)
    (lines : List (Option (List Byte))) :
    (loadImage c st desc lines).2.transparency = st.transparency := by
  cases desc with
  | none => rfl
  | some d =>
    simp only [loadImage]
    split
    · rfl
    · split
      · rfl
      · split
        · split
          · rfl
          · unfold loadFrame
            simp only
            split
            · rfl
            · split
              · rfl
              · unfold copyFirst
                split
                · rfl
                · simp only
                  split
                  · rfl
                  · split
                    · split
                      · split <;> rfl
                      · rfl
                    · rfl
        · rfl

theorem loadRecord_transparency (c : LoadCall) (st : LoadState) (r : GifRecord) :
    (loadRecord c st r).2.transparency =
      ((enablesTransparency r).map Int.ofNat).getD st.transparency := by
  cases r with
  | imageDesc desc lines => exact loadImage_transparency c st desc lines
  | extension first more => exact loadExtension_transparency st first more
  | terminate => rfl
  | other => rfl
  | readError => rfl

theorem runRecords_transparency (c : LoadCall) (st st1 : LoadState) (pre : List GifRecord)
    (h : runRecords c st pre = some st1) :
    st1.transparency = ((activeTransparency pre).map Int.ofNat).getD st.transparency := by
  induction pre generalizing st with
  | nil =>
    simp only [runRecords, Option.some.injEq] at h
    subst h; rfl
  | cons r pre ih =>
    simp only [runRecords] at h
    split at h
    · rename_i st2 heq
      have ht := loadRecord_transparency c st r
      rw [heq] at ht
      rw [ih st2 h, ht]
      unfold activeTransparency
      simp only [List.filterMap_cons]
      cases he : enablesTransparency r with
      | none => rfl
      | some v =>
        simp only [Option.map_some', Option.getD_some]
        cases hl : (List.filterMap enablesTransparency pre).getLast? with
        | none =>
          rw [List.getLast?_eq_none_iff] at hl
          simp [hl]
        | some w =>
          rw [List.getLast?_cons, hl]
          rfl
    · exact absurd h (by simp)

theorem decodeRows_no_alpha (lines : List (Option (List Byte))) (cmap : ColorMapObject)
    (px : Nat) (t : Int) (rows : List Nat) (n : Nat) (image : Buffer) :
    (decodeRows lines cmap px t rows n image none).2.2 = none := by
  induction rows generalizing n image with
  | nil => rfl
  | cons i rows ih =>
    simp only [decodeRows]
    split
    · rfl
    · exact ih _ _

theorem decodeFrame_no_alpha (c : LoadCall) (t : Int) (ht : t = -1) (d : GifImageDesc)
    (lines : List (Option (List Byte))) (cmap : ColorMapObject) (heap : List Bool) :
    (decodeFrame c t d lines cmap heap).2.2 = none := by
  subst ht
  simp [decodeFrame, allocAlpha, decodeRows_no_alpha]

theorem decodeFrame_alpha (c : LoadCall) (t : Int) (d : GifImageDesc) (img : List (List Byte))
    (himg : img.length = d.Height) (cmap : ColorMapObject) (heap : List Bool)
    (harea : d.Width * d.Height < 2147483648)
    (hal : (allocAlpha t (int32 (d.Width * d.Height)) heap).1 = true) :
    ∃ a, (decodeFrame c t d (frameStream d img) cmap heap).2.2 = some a ∧
      a.length = d.Width * d.Height ∧
      ∀ r k, r < d.Height → k < d.Width →
        a.getD (r * d.Width + k) none = alphaOf t ((img.getD r [])[k]?) := by
  have hb : ∀ r k, r < img.length → k < d.Width →
      r * d.Width + k < (List.replicate (d.Width * img.length) (none : Cell)).length := by
    intro r k hr hk
    rw [List.length_replicate]
    calc r * d.Width + k < r * d.Width + d.Width := by omega
      _ = (r + 1) * d.Width := by ring
      _ ≤ img.length * d.Width := Nat.mul_le_mul_right _ hr
      _ = d.Width * img.length := Nat.mul_comm _ _
  have e := int32_area d.Width d.Height harea
  rw [e] at hal
  unfold decodeFrame frameStream frameRows
  simp only [e, hal, if_true, Int.toNat_ofNat]
  simp only [← himg]
  cases d.Interlace with
  | true =>
    simp only [if_true]
    rw [decodeRows_of_lines _ cmap _ t img _ 0 _ _ (interlacedStream_line img)]
    have key := fun r (hr : r < img.length) k (hk : k < d.Width) =>
      foldl_putRow_alpha cmap d.Width t img (interlaceRows img.length)
        (interlaceRows_nodup _) (List.replicate (c.x * c.y * 3) none)
        (List.replicate (d.Width * img.length) none) r ((interlaceRows_mem _ _).2 hr) k hk
        (hb r k hr hk)
    rw [foldl_putRow_snd] at key ⊢
    refine ⟨_, rfl, ?_, fun r k hr hk => ?_⟩
    · rw [foldl_writeAt_length, List.length_replicate]
    · obtain ⟨a1, h1, _, h3⟩ := key r hr k hk
      simp only [Option.map_some', Option.some.injEq] at h1
      subst h1; exact h3
  | false =>
    simp only [Bool.false_eq_true, if_false]
    rw [decodeRows_of_lines _ cmap _ t img _ 0 _ _ (sequentialStream_line img)]
    have key := fun r (hr : r < img.length) k (hk : k < d.Width) =>
      foldl_putRow_alpha cmap d.Width t img (sequentialRows img.length)
        (List.nodup_range _) (List.replicate (c.x * c.y * 3) none)
        (List.replicate (d.Width * img.length) none) r (List.mem_range.2 hr) k hk
        (hb r k hr hk)
    rw [foldl_putRow_snd] at key ⊢
    refine ⟨_, rfl, ?_, fun r k hr hk => ?_⟩
    · rw [foldl_writeAt_length, List.length_replicate]
    · obtain ⟨a1, h1, _, h3⟩ := key r hr k hk
      simp only [Option.map_some', Option.some.injEq] at h1
      subst h1; exact h3

theorem loadRecords_cons_grows (c : LoadCall) (st : LoadState) (r : GifRecord)
    (rs : List GifRecord) :
    Grows c.x c.y (loadRecord c st r).2.store (loadRecords c st (r :: rs)).2.store := by
  simp only [loadRecords]
  split
  · rename_i st1 heq
    rw [heq]
    exact loadRecords_grows c st1 rs
  · rename_i st1 heq
    rw [heq]
    exact Grows.refl _ _ _
  · rename_i e st1 heq
    rw [heq]
    exact Grows.refl _ _ _

theorem sized_loadStart (s : GifStore) (hs : s.Sized) (heap : List Bool) :
    (loadStart s heap).store.Sized :=
  hs

theorem stored_frame_slots (c : LoadCall) (st1 : LoadState) (d : GifImageDesc)
    (lines : List (Option (List Byte))) (cmap : ColorMapObject) (heap3 : List Bool)
    (post : List GifRecord) (hsz : st1.store.Sized) (hcap : st1.store.imagecount < MAX_IMAGES)
    (hE : loadRecord c st1 (.imageDesc (some d) lines) = loadFrame c st1 d lines cmap heap3) :
    st1.store.imagecount <
      (loadRecords c st1 (.imageDesc (some d) lines :: post)).2.store.imagecount ∧
    (loadRecords c st1 (.imageDesc (some d) lines :: post)).2.store.images.getD
      st1.store.imagecount none = some (decodeFrame c st1.transparency d lines cmap heap3).2.1 ∧
    (loadRecords c st1 (.imageDesc (some d) lines :: post)).2.store.alphas.getD
      st1.store.imagecount none = (decodeFrame c st1.transparency d lines cmap heap3).2.2 ∧
    (loadRecords c st1 (.imageDesc (some d) lines :: post)).2.store.userinputs.getD
      st1.store.imagecount 0 = st1.userinput ∧
    (loadRecords c st1 (.imageDesc (some d) lines :: post)).2.store.disposalmethods.getD
      st1.store.imagecount 0 = st1.disposalmethod ∧
    (loadRecords c st1 (.imageDesc (some d) lines :: post)).2.store.delays.getD
      st1.store.imagecount 0 = st1.delay := by
  have g := loadRecords_cons_grows c st1 (.imageDesc (some d) lines) post
  rw [hE, loadFrame_store] at g
  have hn : st1.store.imagecount < (storeFrame st1.store
      (decodeFrame c st1.transparency d lines cmap heap3).2.1
      (decodeFrame c st1.transparency d lines cmap heap3).2.2
      st1.userinput st1.disposalmethod st1.delay).imagecount := Nat.lt_succ_self _
  obtain ⟨h1, h2, h3, h4, h5⟩ := hsz
  refine ⟨lt_of_lt_of_le hn g.mono, ?_, ?_, ?_, ?_, ?_⟩
  · rw [g.old_images _ hn]
    exact getD_set_self _ _ _ _ (by rw [h1]; exact hcap)
  · rw [g.old_alphas _ hn]
    exact getD_set_self _ _ _ _ (by rw [h2]; exact hcap)
  · rw [g.old_userinputs _ hn]
    exact getD_set_self _ _ _ _ (by rw [h3]; exact hcap)
  · rw [g.old_disposalmethods _ hn]
    exact getD_set_self _ _ _ _ (by rw [h4]; exact hcap)
  · rw [g.old_delays _ hn]
    exact getD_set_self _ _ _ _ (by rw [h5]; exact hcap)

/-- The alpha block of a decoded frame when every allocation succeeds: let the
records `pre` be read without leaving the loop, and let the next record be an
image whose frame is decoded (a free slot, a frame inside a bounding box of
area below `2^31`, a colour table, every allocation succeeding, every scanline
of the logical image `img` read, sequentially or interlaced).  Then the frame
is stored, and: if a transparent index `T` is in force, its alpha block exists,
has `Width * Height` bytes and holds 0 at exactly the pixels whose index is `T`
and 255 at every other pixel; if no graphics-control record has switched
transparency on, the frame has no alpha block. -/
theorem alpha_of_decoded_frame (sc : Option ColorMapObject) (wantAlpha : Bool) (x y : Nat)
    (s : GifStore) (hs : s.Sized) (heap : List Bool) (hheap : AllSucceed heap)
    (pre post : List GifRecord) (d : GifImageDesc) (img : List (List Byte)) (st1 : LoadState)
    (hpre : runRecords ⟨sc, wantAlpha, x, y⟩ (loadStart s heap) pre = some st1)
    (hcap : st1.store.imagecount < MAX_IMAGES)
    (hbox : x * y < 2147483648) (hfit : d.Width * d.Height ≤ x * y)
    (hcm : (activeColorMap ⟨sc, wantAlpha, x, y⟩ d).isSome)
    (himg : img.length = d.Height) :
    st1.store.imagecount <
      (fh_gif_load (some ⟨sc, pre ++ .imageDesc (some d) (frameStream d img) :: post⟩)
        s wantAlpha x y heap).store.imagecount ∧
    (∀ T, activeTransparency pre = some T →
      ∃ a, (fh_gif_load (some ⟨sc, pre ++ .imageDesc (some d) (frameStream d img) :: post⟩)
          s wantAlpha x y heap).store.alphas.getD st1.store.imagecount none = some a ∧
        a.length = d.Width * d.Height ∧
        ∀ r k v, r < d.Height → k < d.Width → (img.getD r [])[k]? = some v →
          a.getD (r * d.Width + k) none = some (if v.val = T then 0x00 else 0xff)) ∧
    (activeTransparency pre = none →
      (fh_gif_load (some ⟨sc, pre ++ .imageDesc (some d) (frameStream d img) :: post⟩)
        s wantAlpha x y heap).store.alphas.getD st1.store.imagecount none = none) := by
  have hsz : st1.store.Sized := (runRecords_grows _ _ _ _ hpre).sized hs
  have hheap1 : AllSucceed st1.heap := hheap.of_suffix (runRecords_suffix _ _ _ _ hpre)
  obtain ⟨cmap, hcmap⟩ := Option.isSome_iff_exists.1 hcm
  have hE : loadRecord ⟨sc, wantAlpha, x, y⟩ st1 (.imageDesc (some d) (frameStream d img)) =
      loadFrame ⟨sc, wantAlpha, x, y⟩ st1 d (frameStream d img) cmap
        (malloc (malloc (malloc st1.heap).2).2).2 :=
    loadImage_stored _ st1 d _ cmap hcap hbox hfit hcmap hheap1
  have hslots := stored_frame_slots _ st1 d (frameStream d img) cmap _ post hsz hcap hE
  have ht := runRecords_transparency _ _ _ _ hpre
  have hh3 : AllSucceed (malloc (malloc (malloc st1.heap).2).2).2 :=
    hheap1.of_suffix (((malloc_suffix _).trans (malloc_suffix _)).trans (malloc_suffix _))
  simp only [fh_gif_load]
  rw [loadRecords_append _ _ _ _ _ hpre]
  refine ⟨hslots.1, fun T hT => ?_, fun hT => ?_⟩
  · rw [hT] at ht
    simp only [Option.map_some', Option.getD_some] at ht
    have hne : st1.transparency ≠ -1 := by
      rw [ht]; exact fun h => absurd h (by simp [Int.ofNat_eq_coe])
    have harea : d.Width * d.Height < 2147483648 := by omega
    obtain ⟨a, ha, hlen, hcells⟩ := decodeFrame_alpha ⟨sc, wantAlpha, x, y⟩ st1.transparency d
      img himg cmap _ harea ((allocAlpha_allSucceed _ _ _ hh3).1.2
        ⟨hne, by rw [int32_area _ _ harea]; exact Int.natCast_nonneg _⟩)
    refine ⟨a, hslots.2.2.1.trans ha, hlen, fun r k v hr hk hv => ?_⟩
    rw [hcells r k hr hk, hv, ht]
    simp [alphaOf, Int.ofNat_eq_coe]
  · rw [hT] at ht
    exact hslots.2.2.1.trans (decodeFrame_no_alpha _ _ ht d _ cmap _)

/-- The alpha block on a stream whose graphics-control record switches on the
transparent index 1, followed by a sequential 2x1 frame with the pixel indices
0, 1. -/
theorem alpha_of_decoded_frame_witness :
    ∃ a, (fh_gif_load (some ⟨some sampleColors,
          [gce 1 0 0 1] ++ .imageDesc (some ⟨2, 1, false, none⟩)
            (frameStream ⟨2, 1, false, none⟩ [[0, 1]]) :: [.terminate]⟩)
          GifStore.initial true 2 1 []).store.alphas.getD 0 none = some a ∧
      a.length = 2 * 1 ∧
      ∀ r k (v : Byte), r < 1 → k < 2 → (([[0, 1]] : List (List Byte)).getD r [])[k]? = some v →
        a.getD (r * 2 + k) none = some (if v.val = 1 then 0x00 else 0xff) :=
  (alpha_of_decoded_frame (some sampleColors) true 2 1 GifStore.initial sized_initial []
    (fun b hb => absurd hb (List.not_mem_nil b)) [gce 1 0 0 1] [.terminate] ⟨2, 1, false, none⟩
    [[0, 1]] (loadRecord ⟨some sampleColors, true, 2, 1⟩ (loadStart GifStore.initial [])
      (gce 1 0 0 1)).2 rfl (by decide) (by decide) (by decide) rfl rfl).2.1 1 (by decide)

theorem copyFirst_locals (c : LoadCall) (st : LoadState) (image : Buffer) (al : Option Buffer) :
    (copyFirst c st image al).2.userinput = st.userinput ∧
    (copyFirst c st image al).2.disposalmethod = st.disposalmethod ∧
    (copyFirst c st image al).2.delay = st.delay := by
  unfold copyFirst
  split
  · exact ⟨rfl, rfl, rfl⟩
  · simp only
    split
    · exact ⟨rfl, rfl, rfl⟩
    · split
      · split
        · split <;> exact ⟨rfl, rfl, rfl⟩
        · exact ⟨rfl, rfl, rfl⟩
      · exact ⟨rfl, rfl, rfl⟩

theorem loadFrame_locals (c : LoadCall) (st : LoadState) (d : GifImageDesc)
    (lines : List (Option (List Byte))) (cmap : ColorMapObject) (heap : List Bool) :
    (loadFrame c st d lines cmap heap).2.userinput = st.userinput ∧
    (loadFrame c st d lines cmap heap).2.disposalmethod = st.disposalmethod ∧
    (loadFrame c st d lines cmap heap).2.delay = st.delay := by
  unfold loadFrame
  simp only
  split
  · exact ⟨rfl, rfl, rfl⟩
  · split
    · exact ⟨rfl, rfl, rfl⟩
    · exact copyFirst_locals c _ _ _

theorem loadImage_locals (c : LoadCall) (st : LoadState) (desc : Option GifImageDesc)
    (lines : List (Option (List Byte))) :
    (loadImage c st desc lines).2.userinput = st.userinput ∧
    (loadImage c st desc lines).2.disposalmethod = st.disposalmethod ∧
    (loadImage c st desc lines).2.delay = st.delay := by
  cases desc with
  | none => exact ⟨rfl, rfl, rfl⟩
  | some d =>
    simp only [loadImage]
    split
    · exact ⟨rfl, rfl, rfl⟩
    · split
      · exact ⟨rfl, rfl, rfl⟩
      · split
        · split
          · exact ⟨rfl, rfl, rfl⟩
          · exact loadFrame_locals c st d lines _ _
        · exact ⟨rfl, rfl, rfl⟩

theorem loadImage_store_cases (c : LoadCall) (st : LoadState) (desc : Option GifImageDesc)
    (lines : List (Option (List Byte))) :
    (loadImage c st desc lines).2.store = st.store ∨
    (st.store.imagecount < MAX_IMAGES ∧ ∃ img al, (loadImage c st desc lines).2.store =
      storeFrame st.store img al st.userinput st.disposalmethod st.delay) := by
  cases desc with
  | none => left; rfl
  | some d =>
    simp only [loadImage]
    split
    · left; rfl
    · split
      · left; rfl
      · split
        · split
          · left; rfl
          · right
            exact ⟨by omega, _, _, loadFrame_store c st d lines _ _⟩
        · left; rfl

theorem loadExtension_control (st : LoadState) (first : Option (Nat × Option (List Byte)))
    (more : List (Option (List Byte))) :
    (loadExtension st first more).2.disposalmethod =
      (match controlBytes (.extension first more) with
        | some b => (extByte b 1 >>> 2) &&& 0x7
        | none => st.disposalmethod) ∧
    (loadExtension st first more).2.delay =
      (match controlBytes (.extension first more) with
        | some b => extByte b 2 ||| (extByte b 3 <<< 8)
        | none => st.delay) := by
  unfold loadExtension controlBytes
  split
  · exact ⟨rfl, rfl⟩
  · split <;> exact ⟨rfl, rfl⟩
  · rename_i extcode extension
    simp only
    by_cases hc : extcode = 0xf9 <;> split <;> simp [hc]

theorem loadRecord_control (c : LoadCall) (st : LoadState) (r : GifRecord) :
    (loadRecord c st r).2.disposalmethod =
      (match controlBytes r with
        | some b => (extByte b 1 >>> 2) &&& 0x7
        | none => st.disposalmethod) ∧
    (loadRecord c st r).2.delay =
      (match controlBytes r with
        | some b => extByte b 2 ||| (extByte b 3 <<< 8)
        | none => st.delay) := by
  cases r with
  | imageDesc desc lines =>
    exact ⟨(loadImage_locals c st desc lines).2.1, (loadImage_locals c st desc lines).2.2⟩
  | extension first more => exact loadExtension_control st first more
  | terminate => exact ⟨rfl, rfl⟩
  | other => exact ⟨rfl, rfl⟩
  | readError => exact ⟨rfl, rfl⟩

theorem getLast?_filterMap_cons {α β : Type} (f : α → Option β) (a : α) (l : List α) :
    ((a :: l).filterMap f).getLast? =
      match (l.filterMap f).getLast? with
      | some w => some w
      | none => f a := by
  simp only [List.filterMap_cons]
  cases he : f a with
  | none => cases (List.filterMap f l).getLast? <;> rfl
  | some v =>
    simp only
    cases hl : (List.filterMap f l).getLast? with
    | none =>
      rw [List.getLast?_eq_none_iff] at hl
      simp [hl]
    | some w =>
      rw [List.getLast?_cons, hl]
      rfl

theorem runRecords_control (c : LoadCall) (st st1 : LoadState) (pre : List GifRecord)
    (h : runRecords c st pre = some st1) :
    st1.disposalmethod =
      (match lastControl pre with
        | some b => (extByte b 1 >>> 2) &&& 0x7
        | none => st.disposalmethod) ∧
    st1.delay =
      (match lastControl pre with
        | some b => extByte b 2 ||| (extByte b 3 <<< 8)
        | none => st.delay) := by
  induction pre generalizing st with
  | nil =>
    simp only [runRecords, Option.some.injEq] at h
    subst h; exact ⟨rfl, rfl⟩
  | cons r pre ih =>
    simp only [runRecords] at h
    split at h
    · rename_i st2 heq
      have ht := loadRecord_control c st r
      rw [heq] at ht
      have h2 := ih st2 h
      unfold lastControl at h2 ⊢
      rw [getLast?_filterMap_cons]
      cases hl : (List.filterMap controlBytes pre).getLast? with
      | some w =>
        rw [hl] at h2
        exact h2
      | none =>
        rw [hl] at h2
        simp only at h2 ⊢
        rw [h2.1, h2.2]
        exact ht
    · exact absurd h (by simp)

theorem delay_bytes (a b : Nat) (ha : a < 256) : a ||| b <<< 8 = a + 256 * b := by
  have h := Nat.mul_add_lt_is_or (show a < 2 ^ 8 from ha) b
  rw [Nat.or_comm, Nat.shiftLeft_eq, Nat.mul_comm, ← h]
  omega

theorem stored_slots (c : LoadCall) (st1 : LoadState) (r : GifRecord) (post : List GifRecord)
    (img : Buffer) (al : Option Buffer) (u dm dl : Nat) (hsz : st1.store.Sized)
    (hcap : st1.store.imagecount < MAX_IMAGES)
    (hE : (loadRecord c st1 r).2.store = storeFrame st1.store img al u dm dl) :
    st1.store.imagecount < (loadRecords c st1 (r :: post)).2.store.imagecount ∧
    (loadRecords c st1 (r :: post)).2.store.images.getD st1.store.imagecount none = some img ∧
    (loadRecords c st1 (r :: post)).2.store.alphas.getD st1.store.imagecount none = al ∧
    (loadRecords c st1 (r :: post)).2.store.userinputs.getD st1.store.imagecount 0 = u ∧
    (loadRecords c st1 (r :: post)).2.store.disposalmethods.getD st1.store.imagecount 0 = dm ∧
    (loadRecords c st1 (r :: post)).2.store.delays.getD st1.store.imagecount 0 = dl := by
  have g := loadRecords_cons_grows c st1 r post
  rw [hE] at g
  have hn : st1.store.imagecount < (storeFrame st1.store img al u dm dl).imagecount :=
    Nat.lt_succ_self _
  obtain ⟨h1, h2, h3, h4, h5⟩ := hsz
  refine ⟨lt_of_lt_of_le hn g.mono, ?_, ?_, ?_, ?_, ?_⟩
  · rw [g.old_images _ hn]
    exact getD_set_self _ _ _ _ (by rw [h1]; exact hcap)
  · rw [g.old_alphas _ hn]
    exact getD_set_self _ _ _ _ (by rw [h2]; exact hcap)
  · rw [g.old_userinputs _ hn]
    exact getD_set_self _ _ _ _ (by rw [h3]; exact hcap)
  · rw [g.old_disposalmethods _ hn]
    exact getD_set_self _ _ _ _ (by rw [h4]; exact hcap)
  · rw [g.old_delays _ hn]
    exact getD_set_self _ _ _ _ (by rw [h5]; exact hcap)

theorem stored_image_slots (c : LoadCall) (st1 : LoadState) (desc : Option GifImageDesc)
    (lines : List (Option (List Byte))) (post : List GifRecord) (hsz : st1.store.Sized)
    (hstored : (loadRecord c st1 (.imageDesc desc lines)).2.store.imagecount =
      st1.store.imagecount + 1) :
    (loadRecords c st1 (.imageDesc desc lines :: post)).2.store.userinputs.getD
      st1.store.imagecount 0 = st1.userinput ∧
    (loadRecords c st1 (.imageDesc desc lines :: post)).2.store.disposalmethods.getD
      st1.store.imagecount 0 = st1.disposalmethod ∧
    (loadRecords c st1 (.imageDesc desc lines :: post)).2.store.delays.getD
      st1.store.imagecount 0 = st1.delay := by
  rcases loadImage_store_cases c st1 desc lines with h | ⟨hcap, img, al, h⟩
  · have : (loadRecord c st1 (.imageDesc desc lines)).2.store = st1.store := h
    rw [this] at hstored
    omega
  · have := stored_slots c st1 (.imageDesc desc lines) post img al _ _ _ hsz hcap h
    exact ⟨this.2.2.2.1, this.2.2.2.2.1, this.2.2.2.2.2⟩

theorem extByte_lt (b : List Byte) (i : Nat) : extByte b i < 256 :=
  (b.getD i 0).isLt

/-- C4: let the records `pre` be read without leaving the loop and let the
frame of the image descriptor that follows be stored, in slot `n`.  Then in the
store the load leaves, `disposalmethods[n]` is `(b1 >> 2) & 7` and `delays[n]`
is `b2 + 256 * b3` for the bytes of the most recent graphics-control record
(code 0xF9) among `pre`, with whatever records in between, and both are 0 when
`pre` holds no such record; the disposal method is at most 7 and the delay at
most 65535. -/
theorem control_values_of_stored_frame (sc : Option ColorMapObject) (wantAlpha : Bool)
    (x y : Nat) (s : GifStore) (hs : s.Sized) (heap : List Bool) (pre post : List GifRecord)
    (desc : Option GifImageDesc) (lines : List (Option (List Byte))) (st1 : LoadState)
    (hpre : runRecords ⟨sc, wantAlpha, x, y⟩ (loadStart s heap) pre = some st1)
    (hstored : (loadRecord ⟨sc, wantAlpha, x, y⟩ st1 (.imageDesc desc lines)).2.store.imagecount =
      st1.store.imagecount + 1) :
    (fh_gif_load (some ⟨sc, pre ++ .imageDesc desc lines :: post⟩) s wantAlpha x y
        heap).store.disposalmethods.getD st1.store.imagecount 0 =
      (match lastControl pre with
        | some b => (extByte b 1 >>> 2) &&& 7
        | none => 0) ∧
    (fh_gif_load (some ⟨sc, pre ++ .imageDesc desc lines :: post⟩) s wantAlpha x y
        heap).store.delays.getD st1.store.imagecount 0 =
      (match lastControl pre with
        | some b => extByte b 2 + 256 * extByte b 3
        | none => 0) ∧
    (fh_gif_load (some ⟨sc, pre ++ .imageDesc desc lines :: post⟩) s wantAlpha x y
        heap).store.disposalmethods.getD st1.store.imagecount 0 ≤ 7 ∧
    (fh_gif_load (some ⟨sc, pre ++ .imageDesc desc lines :: post⟩) s wantAlpha x y
        heap).store.delays.getD st1.store.imagecount 0 ≤ 65535 := by
  have hsz : st1.store.Sized := (runRecords_grows _ _ _ _ hpre).sized hs
  have hslots := stored_image_slots _ st1 desc lines post hsz hstored
  have hctl := runRecords_control _ _ _ _ hpre
  simp only [fh_gif_load]
  rw [loadRecords_append _ _ _ _ _ hpre, hslots.2.1, hslots.2.2, hctl.1, hctl.2]
  cases lastControl pre with
  | none => exact ⟨rfl, rfl, Nat.zero_le _, Nat.zero_le _⟩
  | some b =>
    show _ = _ ∧ extByte b 2 ||| extByte b 3 <<< 8 = _ ∧ _ ≤ 7 ∧
      extByte b 2 ||| extByte b 3 <<< 8 ≤ 65535
    rw [delay_bytes _ _ (extByte_lt b 2)]
    refine ⟨rfl, rfl, Nat.and_le_right, ?_⟩
    have h2 := extByte_lt b 2
    have h3 := extByte_lt b 3
    omega

/-- C4 on a graphics-control record with the flag byte 0x08 and the delay
bytes 10, 1, followed by a frame: disposal method 2, delay 266. -/
theorem control_values_of_stored_frame_witness :
    (fh_gif_load (some ⟨some sampleColors, [gce 8 10 1 0] ++ frame2x1 0 1 :: [.terminate]⟩)
        GifStore.initial true 2 1 []).store.disposalmethods.getD 0 0 = 2 ∧
    (fh_gif_load (some ⟨some sampleColors, [gce 8 10 1 0] ++ frame2x1 0 1 :: [.terminate]⟩)
        GifStore.initial true 2 1 []).store.delays.getD 0 0 = 266 :=
  ⟨(control_values_of_stored_frame (some sampleColors) true 2 1 GifStore.initial sized_initial []
      [gce 8 10 1 0] [.terminate]
      (some { Width := 2, Height := 1, Interlace := false, ColorMap := none }) [some [0, 1]]
      (loadRecord ⟨some sampleColors, true, 2, 1⟩ (loadStart GifStore.initial [])
        (gce 8 10 1 0)).2 rfl (by decide)).1,
   (control_values_of_stored_frame (some sampleColors) true 2 1 GifStore.initial sized_initial []
      [gce 8 10 1 0] [.terminate]
      (some { Width := 2, Height := 1, Interlace := false, ColorMap := none }) [some [0, 1]]
      (loadRecord ⟨some sampleColors, true, 2, 1⟩ (loadStart GifStore.initial [])
        (gce 8 10 1 0)).2 rfl (by decide)).2.1⟩

/-- C5, evaluated: a graphics-control record with both flags set (transparent
index 1), a frame, a graphics-control record with both flags clear, a second
frame.  The most recent control record before the second frame has the flag
byte 0, yet the second frame is stored with `userinput = 1` and with an alpha
block computed for the transparent index 1. -/
theorem sticky_control_flags :
    lastControl [gce 3 0 0 1, frame2x1 0 1, gce 0 0 0 0] = some [4, 0, 0, 0, 0] ∧
    (fh_gif_load (some ⟨some sampleColors,
        [gce 3 0 0 1, frame2x1 0 1, gce 0 0 0 0, frame2x1 0 1, .terminate]⟩)
      GifStore.initial true 2 1 []).ret = .FH_ERROR_OK ∧
    (fh_gif_load (some ⟨some sampleColors,
        [gce 3 0 0 1, frame2x1 0 1, gce 0 0 0 0, frame2x1 0 1, .terminate]⟩)
      GifStore.initial true 2 1 []).store.userinputs.getD 1 0 = 1 ∧
    (fh_gif_load (some ⟨some sampleColors,
        [gce 3 0 0 1, frame2x1 0 1, gce 0 0 0 0, frame2x1 0 1, .terminate]⟩)
      GifStore.initial true 2 1 []).store.alphas.getD 1 none = some [some 0xff, some 0x00] := by
  decide

/-- C10, evaluated: on a store of two frames with alpha blocks and the cursor
at 0, a `fh_gif_next` call with alpha requested whose pixel allocation succeeds
and whose alpha allocation fails returns `FH_ERROR_MEM`, writes neither
output, and leaves the cursor at 1. -/
theorem next_alpha_failure_moves_cursor :
    (fh_gif_load (some ⟨some sampleColors, [gce 1 0 0 1, frame2x1 0 1, frame2x1 1 0, .terminate]⟩)
      GifStore.initial true 2 1 []).store.imageix = 0 ∧
    (fh_gif_next (fh_gif_load (some ⟨some sampleColors,
        [gce 1 0 0 1, frame2x1 0 1, frame2x1 1 0, .terminate]⟩)
      GifStore.initial true 2 1 []).store true 2 1 true false).ret = .FH_ERROR_MEM ∧
    (fh_gif_next (fh_gif_load (some ⟨some sampleColors,
        [gce 1 0 0 1, frame2x1 0 1, frame2x1 1 0, .terminate]⟩)
      GifStore.initial true 2 1 []).store true 2 1 true false).buffer = none ∧
    (fh_gif_next (fh_gif_load (some ⟨some sampleColors,
        [gce 1 0 0 1, frame2x1 0 1, frame2x1 1 0, .terminate]⟩)
      GifStore.initial true 2 1 []).store true 2 1 true false).store.imageix = 1 := by
  decide

theorem decodeRows_ok (lines : List (Option (List Byte))) (cmap : ColorMapObject) (px : Nat)
    (t : Int) (rows : List Nat) (n : Nat) (image : Buffer) (al : Option Buffer)
    (h : ∀ k, k < rows.length → (DGifGetLine lines (n + k)).isSome = true) :
    (decodeRows lines cmap px t rows n image al).1 = true := by
  induction rows generalizing n image al with
  | nil => rfl
  | cons i rows ih =>
    have h0 := h 0 (Nat.zero_lt_succ _)
    simp only [decodeRows]
    split
    · rename_i hnone
      rw [Nat.add_zero, hnone] at h0
      exact absurd h0 (by simp)
    · apply ih
      intro k hk
      have := h (k + 1) (Nat.succ_lt_succ hk)
      rwa [show n + (k + 1) = n + 1 + k by omega] at this

theorem decodeFrame_ok (c : LoadCall) (t : Int) (d : GifImageDesc)
    (lines : List (Option (List Byte))) (cmap : ColorMapObject) (heap : List Bool)
    (h : ∀ k, k < d.Height → (DGifGetLine lines k).isSome = true) :
    (decodeFrame c t d lines cmap heap).1 = true := by
  unfold decodeFrame
  apply decodeRows_ok
  intro k hk
  rw [Nat.zero_add]
  apply h
  unfold frameRows at hk
  split at hk
  · rwa [(interlaceRows_perm d.Height).length_eq, List.length_range] at hk
  · simpa [sequentialRows] using hk

theorem loadExtension_outs (st : LoadState) (first : Option (Nat × Option (List Byte)))
    (more : List (Option (List Byte))) :
    (loadExtension st first more).2.buffer = st.buffer ∧
    (loadExtension st first more).2.alpha = st.alpha := by
  unfold loadExtension
  split
  · exact ⟨rfl, rfl⟩
  · split <;> exact ⟨rfl, rfl⟩
  · simp only
    split <;> split <;> exact ⟨rfl, rfl⟩

theorem loadRecord_decodable (c : LoadCall) (st : LoadState) (r : GifRecord)
    (hbox : c.x * c.y < 2147483648) (hheap : AllSucceed st.heap) (hr : decodable c r = true) :
    (loadRecord c st r).1 = .next ∧ AllSucceed (loadRecord c st r).2.heap ∧
    (loadRecord c st r).2.store.imagecount =
      (if isImage r = true ∧ st.store.imagecount < MAX_IMAGES then st.store.imagecount + 1
       else st.store.imagecount) ∧
    (MAX_IMAGES ≤ st.store.imagecount → (loadRecord c st r).2.store = st.store ∧
      (loadRecord c st r).2.buffer = st.buffer ∧ (loadRecord c st r).2.alpha = st.alpha) := by
  have hsuf := hheap.of_suffix (loadRecord_suffix c st r)
  cases r with
  | imageDesc desc lines =>
    cases desc with
    | none => exact absurd hr (by simp [decodable])
    | some d =>
      simp only [decodable, Bool.and_eq_true, decide_eq_true_eq, List.all_eq_true,
        List.mem_range] at hr
      obtain ⟨⟨hfit, hcm⟩, hlines⟩ := hr
      by_cases hcap : st.store.imagecount < MAX_IMAGES
      · obtain ⟨cmap, hcmap⟩ := Option.isSome_iff_exists.1 hcm
        have hE : loadRecord c st (.imageDesc (some d) lines) =
            loadFrame c st d lines cmap (malloc (malloc (malloc st.heap).2).2).2 :=
          loadImage_stored c st d lines cmap hcap hbox hfit hcmap hheap
        have hh3 : AllSucceed (malloc (malloc (malloc st.heap).2).2).2 :=
          hheap.of_suffix (((malloc_suffix _).trans (malloc_suffix _)).trans (malloc_suffix _))
        refine ⟨?_, hsuf, ?_, fun h => absurd hcap (by omega)⟩
        · rw [hE]
          unfold loadFrame
          simp only [frameOverrun_false c st.transparency d lines _ hbox hfit,
            decodeFrame_ok c st.transparency d lines cmap _ hlines, Bool.true_eq_false,
            if_false, Bool.false_eq_true]
          exact (copyFirst_allSucceed c _ _ _ (allocAlpha_allSucceed _ _ _ hh3).2).1
        · rw [hE, loadFrame_store]
          simp [storeFrame, isImage, hcap]
      · have hE : loadRecord c st (.imageDesc (some d) lines) = (.next, st) := by
          simp only [loadRecord, loadImage]
          rw [if_pos (by omega)]
        rw [hE]
        exact ⟨rfl, hheap, by simp [hcap], fun _ => ⟨rfl, rfl, rfl⟩⟩
  | extension first more =>
    have hst := loadExtension_store st first more
    have hout := loadExtension_outs st first more
    refine ⟨?_, hsuf, by simp [loadRecord, hst, isImage], fun _ => ⟨hst, hout.1, hout.2⟩⟩
    simp only [loadRecord]
    unfold loadExtension
    match first, hr with
    | some (extcode, none), hr =>
      simp only [decodable, decide_eq_true_eq] at hr
      simp [hr]
    | some (extcode, some b), hr =>
      simp only [decodable, List.all_eq_true] at hr
      have : more.any Option.isNone = false := by
        rw [List.any_eq_false]
        intro x hx
        cases x with
        | none => exact absurd (hr none hx) (by simp)
        | some v => simp
      simp [this]
    | none, hr => exact absurd hr (by simp [decodable])
  | terminate => exact absurd hr (by simp [decodable])
  | other => exact ⟨rfl, hheap, by simp [loadRecord, isImage], fun _ => ⟨rfl, rfl, rfl⟩⟩
  | readError => exact absurd hr (by simp [decodable])

theorem runRecords_decodable (c : LoadCall) (recs : List GifRecord) (st : LoadState)
    (hbox : c.x * c.y < 2147483648) (hheap : AllSucceed st.heap)
    (hrecs : ∀ r ∈ recs, decodable c r = true) :
    ∃ st1, runRecords c st recs = some st1 ∧ AllSucceed st1.heap ∧
      (st.store.imagecount ≤ MAX_IMAGES →
        st1.store.imagecount = min MAX_IMAGES (st.store.imagecount + numFrames recs)) ∧
      (MAX_IMAGES ≤ st.store.imagecount →
        st1.store = st.store ∧ st1.buffer = st.buffer ∧ st1.alpha = st.alpha) := by
  induction recs generalizing st with
  | nil =>
    refine ⟨st, rfl, hheap, fun h => ?_, fun _ => ⟨rfl, rfl, rfl⟩⟩
    simp [numFrames, h]
  | cons r recs ih =>
    obtain ⟨h1, h2, h3, h4⟩ :=
      loadRecord_decodable c st r hbox hheap (hrecs r (List.mem_cons_self _ _))
    obtain ⟨st1, g1, g2, g3, g4⟩ := ih (loadRecord c st r).2 h2
      (fun q hq => hrecs q (List.mem_cons_of_mem _ hq))
    have hrun : runRecords c st (r :: recs) = some st1 := by
      simp only [runRecords]
      rw [show loadRecord c st r = (.next, (loadRecord c st r).2) from Prod.ext h1 rfl]
      exact g1
    refine ⟨st1, hrun, g2, fun h => ?_, fun h => ?_⟩
    · have hn : numFrames (r :: recs) = numFrames recs + (if isImage r = true then 1 else 0) := by
        simp [numFrames, List.countP_cons]
      rw [hn]
      by_cases hi : isImage r = true
      · by_cases hc : st.store.imagecount < MAX_IMAGES
        · rw [if_pos ⟨hi, hc⟩] at h3
          rw [g3 (by omega), h3, if_pos hi]
          congr 1
          omega
        · rw [if_neg (fun hh => hc hh.2)] at h3
          rw [g3 (by omega), h3, if_pos hi]
          omega
      · rw [if_neg (fun hh => hi hh.1)] at h3
        rw [g3 (by omega), h3, if_neg hi]
        rfl
    · obtain ⟨e1, e2, e3⟩ := h4 h
      obtain ⟨f1, f2, f3⟩ := g4 (by rw [e1]; exact h)
      exact ⟨f1.trans e1, f2.trans e2, f3.trans e3⟩

theorem takeFrames_subset (recs : List GifRecord) (k : Nat) :
    ∀ r ∈ takeFrames recs k, r ∈ recs := by
  induction recs generalizing k with
  | nil => intro r hr; simp [takeFrames] at hr
  | cons q recs ih =>
    cases k with
    | zero => intro r hr; simp [takeFrames] at hr
    | succ k =>
      intro r hr
      simp only [takeFrames, List.mem_cons] at hr
      rcases hr with rfl | hr
      · exact List.mem_cons_self _ _
      · exact List.mem_cons_of_mem _ (ih _ r hr)

theorem numFrames_takeFrames (recs : List GifRecord) (k : Nat) :
    numFrames (takeFrames recs k) = min k (numFrames recs) := by
  induction recs generalizing k with
  | nil => simp [takeFrames, numFrames]
  | cons q recs ih =>
    cases k with
    | zero => simp [takeFrames, numFrames]
    | succ k =>
      simp only [takeFrames, numFrames, List.countP_cons] at ih ⊢
      rw [ih]
      by_cases hi : isImage q = true
      · simp only [hi, if_true]
        omega
      · simp only [hi, if_false, Bool.false_eq_true]
        omega

theorem runRecords_takeFrames (c : LoadCall) (recs : List GifRecord) (st : LoadState) (k : Nat)
    (hbox : c.x * c.y < 2147483648)
    (hheap : AllSucceed st.heap) (hrecs : ∀ r ∈ recs, decodable c r = true)
    (hk : st.store.imagecount + k = MAX_IMAGES) (st1 st2 : LoadState)
    (h1 : runRecords c st (takeFrames recs k) = some st1)
    (h2 : runRecords c st recs = some st2) :
    st1.store = st2.store ∧ st1.buffer = st2.buffer ∧ st1.alpha = st2.alpha := by
  induction recs generalizing st k with
  | nil =>
    simp only [takeFrames, runRecords, Option.some.injEq] at h1 h2
    subst h1; subst h2
    exact ⟨rfl, rfl, rfl⟩
  | cons r recs ih =>
    cases k with
    | zero =>
      simp only [takeFrames, runRecords, Option.some.injEq] at h1
      subst h1
      obtain ⟨st3, g1, _, _, g4⟩ := runRecords_decodable c (r :: recs) st hbox hheap hrecs
      rw [h2, Option.some.injEq] at g1
      subst g1
      obtain ⟨e1, e2, e3⟩ := g4 (by omega)
      exact ⟨e1.symm, e2.symm, e3.symm⟩
    | succ k =>
      obtain ⟨s1, s2, s3, _⟩ :=
        loadRecord_decodable c st r hbox hheap (hrecs r (List.mem_cons_self _ _))
      have hstep : loadRecord c st r = (.next, (loadRecord c st r).2) := Prod.ext s1 rfl
      simp only [takeFrames, runRecords] at h1 h2
      rw [hstep] at h1 h2
      simp only at h1 h2
      refine ih (loadRecord c st r).2 _ s2 (fun q hq => hrecs q (List.mem_cons_of_mem _ hq)) ?_
        h1 h2
      rw [s3]
      by_cases hi : isImage r = true
      · rw [if_pos ⟨hi, by omega⟩, if_pos hi]
        omega
      · rw [if_neg (fun hh => hi hh.1), if_neg hi]
        exact hk

theorem loadRecords_terminated (c : LoadCall) (st st1 : LoadState) (recs : List GifRecord)
    (h : runRecords c st recs = some st1) :
    loadRecords c st (recs ++ [.terminate]) = (.FH_ERROR_OK, st1) := by
  rw [loadRecords_append c st st1 recs _ h]
  rfl

theorem frameRows_rowOrder (d : GifImageDesc) : frameRows d = rowOrder d := by
  unfold frameRows rowOrder
  split
  · exact interlaceRows_transmissionOrder _
  · rfl

theorem frameRows_nodup (d : GifImageDesc) : (frameRows d).Nodup := by
  unfold frameRows
  split
  · exact interlaceRows_nodup _
  · exact List.nodup_range _

theorem frameRows_length (d : GifImageDesc) : (frameRows d).length = d.Height := by
  unfold frameRows
  split
  · rw [(interlaceRows_perm d.Height).length_eq, List.length_range]
  · simp [sequentialRows]

theorem decodeFrame_pixels (c : LoadCall) (t : Int) (d : GifImageDesc)
    (lines : List (Option (List Byte))) (cmap : ColorMapObject) (heap : List Bool)
    (hfit : d.Width * d.Height ≤ c.x * c.y)
    (hlines : ∀ k, k < d.Height → (DGifGetLine lines k).isSome = true)
    (j : Nat) (hj : j < d.Height) (pixels : List Byte) (hp : DGifGetLine lines j = some pixels)
    (k : Nat) (hk : k < 3 * d.Width) :
    (decodeFrame c t d lines cmap heap).2.1.getD ((rowOrder d).getD j 0 * d.Width * 3 + k) none =
      (m_rend_gif_decodecolormap (scanline pixels d.Width) cmap d.Width).getD k none := by
  have hlen := frameRows_length d
  have hnd := frameRows_nodup d
  have hjl : j < (frameRows d).length := by rw [hlen]; exact hj
  have hrow : (rowOrder d).getD j 0 = (frameRows d)[j] := by
    rw [← frameRows_rowOrder, List.getD_eq_getElem _ _ hjl]
  have hlt : ∀ i (hi : i < (frameRows d).length), (frameRows d)[i] < d.Height :=
    fun i hi => (frameRows_mem d _).1 (List.getElem_mem _)
  have himg : ∀ i (hi : i < (frameRows d).length),
      DGifGetLine lines (0 + i) =
        some (((List.range d.Height).map fun r =>
          (DGifGetLine lines ((frameRows d).indexOf r)).getD []).getD (frameRows d)[i] []) := by
    intro i hi
    have h1 := hlt i hi
    have h2 := hlines i (by rw [← hlen]; exact hi)
    obtain ⟨p, hp1⟩ := Option.isSome_iff_exists.1 h2
    rw [Nat.zero_add, List.getD_eq_getElem _ _ (by simpa using h1)]
    simp only [List.getElem_map, List.getElem_range, List.indexOf_getElem hnd i hi, hp1,
      Option.getD_some]
  unfold decodeFrame
  rw [decodeRows_of_lines lines cmap d.Width t _ (frameRows d) 0 _ _ himg, hrow]
  have hb : (frameRows d)[j] * d.Width * 3 + k <
      (List.replicate (c.x * c.y * 3) (none : Cell)).length := by
    rw [List.length_replicate]
    have h1 : ((frameRows d)[j] + 1) * d.Width ≤ d.Height * d.Width :=
      Nat.mul_le_mul_right _ (hlt j hjl)
    rw [Nat.succ_mul] at h1
    rw [Nat.mul_comm d.Height d.Width] at h1
    omega
  rw [foldl_putRow_pixel cmap d.Width t _ (frameRows d) hnd _ _ (frameRows d)[j]
    (List.getElem_mem _) k hk hb]
  have heq := himg j hjl
  rw [Nat.zero_add, hp, Option.some.injEq] at heq
  rw [← heq]

/-- The capacity clamp where the block sizes fit an `int`: let the store
arrays have their declared size, `x * y * 3 < 2^31` and every allocation
succeed; let every record of a
stream be read without failure, every image descriptor fit the bounding box
with a colour table in force and all its scanlines read, and the stream hold
more than 64 image descriptors before its terminator.  Then `fh_gif_load`
returns `FH_ERROR_OK` with `imagecount = 64`; the descriptor preceded by
`k < 64` descriptors is stored in slot `k`, whose pixel block holds, in the row
each line belongs to, that line expanded through the colour table in force,
and whose delay is that of the most recent graphics-control record before it;
and the whole result (return code, outputs, store) is that of loading the
stream cut after its 64th image descriptor. -/
theorem capacity_clamp (sc : Option ColorMapObject) (wantAlpha : Bool) (x y : Nat)
    (s : GifStore) (hs : s.Sized) (heap : List Bool) (hheap : AllSucceed heap)
    (hbox : x * y * 3 < 2147483648) (recs : List GifRecord)
    (hrecs : ∀ r ∈ recs, decodable ⟨sc, wantAlpha, x, y⟩ r = true)
    (hmany : MAX_IMAGES < numFrames recs) :
    (fh_gif_load (some ⟨sc, recs ++ [.terminate]⟩) s wantAlpha x y heap).ret = .FH_ERROR_OK ∧
    (fh_gif_load (some ⟨sc, recs ++ [.terminate]⟩) s wantAlpha x y heap).store.imagecount =
      MAX_IMAGES ∧
    (∀ pre d lines post, recs = pre ++ .imageDesc (some d) lines :: post →
      numFrames pre < MAX_IMAGES →
      ∃ img cmap,
        (fh_gif_load (some ⟨sc, recs ++ [.terminate]⟩) s wantAlpha x y heap).store.images.getD
          (numFrames pre) none = some img ∧
        img.length = x * y * 3 ∧
        activeColorMap ⟨sc, wantAlpha, x, y⟩ d = some cmap ∧
        (∀ j pixels k, j < d.Height → DGifGetLine lines j = some pixels → k < 3 * d.Width →
          img.getD ((rowOrder d).getD j 0 * d.Width * 3 + k) none =
            (m_rend_gif_decodecolormap (scanline pixels d.Width) cmap d.Width).getD k none) ∧
        (fh_gif_load (some ⟨sc, recs ++ [.terminate]⟩) s wantAlpha x y heap).store.delays.getD
          (numFrames pre) 0 =
          (match lastControl pre with
            | some b => extByte b 2 + 256 * extByte b 3
            | none => 0)) ∧
    numFrames (takeFrames recs MAX_IMAGES) = MAX_IMAGES ∧
    fh_gif_load (some ⟨sc, recs ++ [.terminate]⟩) s wantAlpha x y heap =
      fh_gif_load (some ⟨sc, takeFrames recs MAX_IMAGES ++ [.terminate]⟩) s wantAlpha x y heap := by
  have hbox1 : x * y < 2147483648 := by omega
  have h0 : (loadStart s heap).store.imagecount = 0 := rfl
  obtain ⟨st2, g1, _, g3, _⟩ :=
    runRecords_decodable ⟨sc, wantAlpha, x, y⟩ recs (loadStart s heap) hbox1 hheap hrecs
  obtain ⟨st1, f1, _, _, _⟩ :=
    runRecords_decodable ⟨sc, wantAlpha, x, y⟩ (takeFrames recs MAX_IMAGES) (loadStart s heap)
      hbox1 hheap (fun r hr => hrecs r (takeFrames_subset recs _ r hr))
  obtain ⟨e1, e2, e3⟩ := runRecords_takeFrames ⟨sc, wantAlpha, x, y⟩ recs (loadStart s heap)
    MAX_IMAGES hbox1 hheap hrecs (by rw [h0, Nat.zero_add]) st1 st2 f1 g1
  have hL := loadRecords_terminated ⟨sc, wantAlpha, x, y⟩ _ _ _ g1
  have hC := loadRecords_terminated ⟨sc, wantAlpha, x, y⟩ _ _ _ f1
  have hcount : st2.store.imagecount = MAX_IMAGES := by
    rw [g3 (by rw [h0]; exact Nat.zero_le _), h0, Nat.zero_add]
    exact Nat.min_eq_left (Nat.le_of_lt hmany)
  refine ⟨?_, ?_, ?_, ?_, ?_⟩
  · simp only [fh_gif_load, hL]
  · simp only [fh_gif_load, hL]
    exact hcount
  · intro pre d lines post hsplit hk
    obtain ⟨st3, k1, k2, k3, _⟩ :=
      runRecords_decodable ⟨sc, wantAlpha, x, y⟩ pre (loadStart s heap) hbox1 hheap
        (fun q hq => hrecs q (by rw [hsplit]; exact List.mem_append_left _ hq))
    have hk3 : st3.store.imagecount = numFrames pre := by
      rw [k3 (by rw [h0]; exact Nat.zero_le _), h0, Nat.zero_add]
      exact Nat.min_eq_right (Nat.le_of_lt hk)
    have hd := hrecs (.imageDesc (some d) lines)
      (by rw [hsplit]; exact List.mem_append_right _ (List.mem_cons_self _ _))
    simp only [decodable, Bool.and_eq_true, decide_eq_true_eq, List.all_eq_true,
      List.mem_range] at hd
    obtain ⟨⟨hfit, hcm⟩, hlines⟩ := hd
    obtain ⟨cmap, hcmap⟩ := Option.isSome_iff_exists.1 hcm
    have hcap : st3.store.imagecount < MAX_IMAGES := by rw [hk3]; exact hk
    have hsz : st3.store.Sized := (runRecords_grows _ _ _ _ k1).sized hs
    have hE : loadRecord ⟨sc, wantAlpha, x, y⟩ st3 (.imageDesc (some d) lines) =
        loadFrame ⟨sc, wantAlpha, x, y⟩ st3 d lines cmap
          (malloc (malloc (malloc st3.heap).2).2).2 :=
      loadImage_stored _ st3 d lines cmap hcap hbox1 hfit hcmap k2
    have hslots := stored_frame_slots _ st3 d lines cmap _ (post ++ [.terminate]) hsz hcap hE
    have hctl := (runRecords_control _ _ _ _ k1).2
    refine ⟨(decodeFrame ⟨sc, wantAlpha, x, y⟩ st3.transparency d lines cmap
        (malloc (malloc (malloc st3.heap).2).2).2).2.1, cmap, ?_,
      decodeFrame_image_length _ _ _ _ _ _, hcmap,
      fun j pixels k hj hp hkk =>
        decodeFrame_pixels ⟨sc, wantAlpha, x, y⟩ st3.transparency d lines cmap _ hfit hlines
          j hj pixels hp k hkk, ?_⟩
    · simp only [fh_gif_load]
      rw [hsplit, List.append_assoc, List.cons_append, loadRecords_append _ _ _ _ _ k1, ← hk3]
      exact hslots.2.1
    · simp only [fh_gif_load]
      rw [hsplit, List.append_assoc, List.cons_append, loadRecords_append _ _ _ _ _ k1, ← hk3,
        hslots.2.2.2.2.2, hctl]
      cases lastControl pre with
      | none => rfl
      | some b => exact delay_bytes _ _ (extByte_lt b 2)
  · rw [numFrames_takeFrames]
    exact Nat.min_eq_left (Nat.le_of_lt hmany)
  · simp only [fh_gif_load, hL, hC, e1, e2, e3]

/-- The capacity clamp on a stream of 65 frames of 7 pixels, frame `n` holding
the binary digits of `n`: 64 frames are stored, and slot 63 holds frame 63. -/
theorem capacity_clamp_witness :
    (fh_gif_load (some ⟨some sampleColors, numberedFrames 65 ++ [.terminate]⟩)
      GifStore.initial true 7 1 []).store.imagecount = 64 ∧
    ∃ img cmap,
      (fh_gif_load (some ⟨some sampleColors, numberedFrames 65 ++ [.terminate]⟩)
        GifStore.initial true 7 1 []).store.images.getD (numFrames (numberedFrames 63)) none =
        some img ∧
      img.length = 7 * 1 * 3 ∧
      activeColorMap ⟨some sampleColors, true, 7, 1⟩ ⟨7, 1, false, none⟩ = some cmap ∧
      (∀ j pixels k, j < 1 → DGifGetLine [some (binaryDigits 63)] j = some pixels → k < 3 * 7 →
        img.getD ((rowOrder ⟨7, 1, false, none⟩).getD j 0 * 7 * 3 + k) none =
          (m_rend_gif_decodecolormap (scanline pixels 7) cmap 7).getD k none) ∧
      (fh_gif_load (some ⟨some sampleColors, numberedFrames 65 ++ [.terminate]⟩)
        GifStore.initial true 7 1 []).store.delays.getD (numFrames (numberedFrames 63)) 0 =
        (match lastControl (numberedFrames 63) with
          | some b => extByte b 2 + 256 * extByte b 3
          | none => 0) :=
  ⟨(capacity_clamp (some sampleColors) true 7 1 GifStore.initial sized_initial []
      (fun b hb => absurd hb (List.not_mem_nil b)) (by decide) (numberedFrames 65)
      (by decide) (by decide)).2.1,
   (capacity_clamp (some sampleColors) true 7 1 GifStore.initial sized_initial []
      (fun b hb => absurd hb (List.not_mem_nil b)) (by decide) (numberedFrames 65)
      (by decide) (by decide)).2.2.1 (numberedFrames 63) ⟨7, 1, false, none⟩
      [some (binaryDigits 63)] [numberedFrame 64] (by decide) (by decide)⟩

/-- The part of the failure contract of `fh_gif_next` that the code keeps: a
call that does not return `FH_ERROR_OK` writes neither output and leaves the
frames, the other arrays and the count as they were; on an empty store it
returns `FH_ERROR_FORMAT`, on a failed pixel allocation `FH_ERROR_MEM`, in
both cases with the whole store, cursor included, unchanged. -/
theorem fh_gif_next_failure (s : GifStore) (wantAlpha : Bool) (x y : Nat) (m1 m2 : Bool)
    (hfail : (fh_gif_next s wantAlpha x y m1 m2).ret ≠ .FH_ERROR_OK) :
    (fh_gif_next s wantAlpha x y m1 m2).buffer = none ∧
    (fh_gif_next s wantAlpha x y m1 m2).alpha = none ∧
    (fh_gif_next s wantAlpha x y m1 m2).store.imagecount = s.imagecount ∧
    (fh_gif_next s wantAlpha x y m1 m2).store.images = s.images ∧
    (fh_gif_next s wantAlpha x y m1 m2).store.alphas = s.alphas ∧
    (s.imagecount = 0 → (fh_gif_next s wantAlpha x y m1 m2).ret = .FH_ERROR_FORMAT ∧
      (fh_gif_next s wantAlpha x y m1 m2).store = s) ∧
    (s.imagecount ≠ 0 → m1 = false → (fh_gif_next s wantAlpha x y m1 m2).ret = .FH_ERROR_MEM ∧
      (fh_gif_next s wantAlpha x y m1 m2).store = s) := by
  unfold fh_gif_next at hfail ⊢
  by_cases h0 : s.imagecount = 0
  · rw [if_pos h0]
    exact ⟨rfl, rfl, rfl, rfl, rfl, fun _ => ⟨rfl, rfl⟩, fun h => absurd h0 h⟩
  · rw [if_neg h0] at hfail ⊢
    by_cases h1 : m1 = false
    · rw [if_pos h1]
      exact ⟨rfl, rfl, rfl, rfl, rfl, fun h => absurd h h0, fun _ _ => ⟨rfl, rfl⟩⟩
    · rw [if_neg h1] at hfail ⊢
      simp only at hfail ⊢
      split
      · exact ⟨rfl, rfl, rfl, rfl, rfl, fun h => absurd h h0, fun _ h => absurd h h1⟩
      · rename_i img himg
        rw [himg] at hfail
        simp only at hfail
        split
        · rename_i hw
          rw [if_pos hw] at hfail
          split
          · rename_i a ha
            rw [ha] at hfail
            simp only at hfail
            split
            · rename_i hm2
              rw [if_pos hm2] at hfail
              exact absurd rfl hfail
            · exact ⟨rfl, rfl, rfl, rfl, rfl, fun h => absurd h h0, fun _ h => absurd h h1⟩
          · rename_i ha
            rw [ha] at hfail
            exact absurd rfl hfail
        · rename_i hw
          rw [if_neg hw] at hfail
          exact absurd rfl hfail

theorem FirstCopied.congr {c : LoadCall} {st st1 : LoadState} (h : FirstCopied c st)
    (h1 : st1.store = st.store) (h2 : st1.buffer = st.buffer) (h3 : st1.alpha = st.alpha)
    (h4 : st1.loadedfirstimage = st.loadedfirstimage) : FirstCopied c st1 := by
  unfold FirstCopied
  rw [h1, h2, h3, h4]
  exact h

theorem sizeRecords_skip (pre rest : List GifRecord) (h : ∀ r ∈ pre, sizeSkips r = true) :
    sizeRecords (pre ++ rest) = sizeRecords rest := by
  induction pre with
  | nil => rfl
  | cons r pre ih =>
    have hr := h r (List.mem_cons_self _ _)
    have ih1 := ih (fun q hq => h q (List.mem_cons_of_mem _ hq))
    match r, hr with
    | .extension (some (_, none)) _, _ => simpa [sizeRecords] using ih1
    | .extension (some (_, some _)) more, hr =>
      simp only [sizeSkips, List.all_eq_true] at hr
      have : more.any Option.isNone = false := by
        rw [List.any_eq_false]
        intro x hx
        cases x with
        | none => exact absurd (hr none hx) (by simp)
        | some v => simp
      simpa [sizeRecords, this] using ih1
    | .other, _ => simpa [sizeRecords] using ih1

/-- C12: for every record stream, after any number of completely read
extension records, `fh_gif_getsize` returns `FH_ERROR_OK` with the width and
height of the first image descriptor record, returns `FH_ERROR_FORMAT` without
writing a size when the terminator comes first, when a read fails first, or
when the stream ends; and whatever the file and the result, the frame store
is the one it was called with. -/
theorem getsize_first_descriptor (sc : Option ColorMapObject) (s : GifStore)
    (pre post : List GifRecord) (hpre : ∀ r ∈ pre, sizeSkips r = true) :
    (∀ d lines,
      (fh_gif_getsize (some ⟨sc, pre ++ .imageDesc (some d) lines :: post⟩) s).ret =
        .FH_ERROR_OK ∧
      (fh_gif_getsize (some ⟨sc, pre ++ .imageDesc (some d) lines :: post⟩) s).size =
        some (d.Width, d.Height)) ∧
    ((fh_gif_getsize (some ⟨sc, pre ++ .terminate :: post⟩) s).ret = .FH_ERROR_FORMAT ∧
      (fh_gif_getsize (some ⟨sc, pre ++ .terminate :: post⟩) s).size = none) ∧
    (∀ r, sizeReadFails r = true →
      (fh_gif_getsize (some ⟨sc, pre ++ r :: post⟩) s).ret = .FH_ERROR_FORMAT ∧
      (fh_gif_getsize (some ⟨sc, pre ++ r :: post⟩) s).size = none) ∧
    ((fh_gif_getsize (some ⟨sc, pre⟩) s).ret = .FH_ERROR_FORMAT ∧
      (fh_gif_getsize (some ⟨sc, pre⟩) s).size = none) ∧
    (∀ file, (fh_gif_getsize file s).store = s) := by
  refine ⟨fun d lines => ?_, ?_, fun r hr => ?_, ?_, fun file => ?_⟩
  · simp only [fh_gif_getsize, sizeRecords_skip pre _ hpre, sizeRecords, and_self]
  · simp only [fh_gif_getsize, sizeRecords_skip pre _ hpre, sizeRecords, and_self]
  · simp only [fh_gif_getsize, sizeRecords_skip pre _ hpre]
    match r, hr with
    | .readError, _ => exact ⟨rfl, rfl⟩
    | .imageDesc none _, _ => exact ⟨rfl, rfl⟩
    | .extension none _, _ => exact ⟨rfl, rfl⟩
    | .extension (some (_, some _)) more, hr =>
      simp only [sizeReadFails] at hr
      simp only [sizeRecords, hr, if_true, and_self]
  · have := sizeRecords_skip pre [] hpre
    rw [List.append_nil] at this
    simp only [fh_gif_getsize, this, sizeRecords, and_self]
  · cases file <;> rfl

/-- C12 on a stream that opens with a graphics-control record and a comment
extension with one sub-block, followed by a 2x1 descriptor. -/
theorem getsize_first_descriptor_witness :
    (fh_gif_getsize (some ⟨some sampleColors,
      [gce 0 10 0 0, .extension (some (0xfe, some [1, 65])) [some [1, 66]]] ++
        frame2x1 0 1 :: [.terminate]⟩) GifStore.initial).size = some (2, 1) :=
  ((getsize_first_descriptor (some sampleColors) GifStore.initial
    [gce 0 10 0 0, .extension (some (0xfe, some [1, 65])) [some [1, 66]]] [.terminate]
    (by decide)).1 { Width := 2, Height := 1, Interlace := false, ColorMap := none }
    [some [0, 1]]).2

/-- C13, evaluated: with the bounding box 2x1 and transparency switched on, a
2x1 frame followed by a 1x1 frame.  The pixel block of the second frame has
the `2 * 1 * 3` bytes of the box, but its alpha block has `1 * 1` byte, not
`2 * 1`: the `x * y`-byte copy-out of `fh_gif_next` reads one byte past its
end (an indeterminate cell in the copy). -/
theorem alpha_block_smaller_than_box :
    (fh_gif_load (some ⟨some sampleColors,
        [gce 1 0 0 1, frame2x1 0 1, .imageDesc (some ⟨1, 1, false, none⟩) [some [1]],
          .terminate]⟩) GifStore.initial true 2 1 []).ret = .FH_ERROR_OK ∧
    ((fh_gif_load (some ⟨some sampleColors,
        [gce 1 0 0 1, frame2x1 0 1, .imageDesc (some ⟨1, 1, false, none⟩) [some [1]],
          .terminate]⟩) GifStore.initial true 2 1 []).store.images.getD 1 none).map
      List.length = some (2 * 1 * 3) ∧
    (fh_gif_load (some ⟨some sampleColors,
        [gce 1 0 0 1, frame2x1 0 1, .imageDesc (some ⟨1, 1, false, none⟩) [some [1]],
          .terminate]⟩) GifStore.initial true 2 1 []).store.alphas.getD 1 none =
      some [some 0x00] ∧
    (fh_gif_next (fh_gif_load (some ⟨some sampleColors,
        [gce 1 0 0 1, frame2x1 0 1, .imageDesc (some ⟨1, 1, false, none⟩) [some [1]],
          .terminate]⟩) GifStore.initial true 2 1 []).store true 2 1 true true).alpha =
      some (some [some 0x00, none]) := by
  decide

/-- C20: for every image state and every turn count `r` in 0..3, `do_rotate`
swaps width and height when `r` is odd and leaves both unchanged when it is
even; two quarter turns leave the dimensions that one half turn leaves. -/
theorem rotate_dimensions (k : Collaborators) (i : Image) (r : Int)
    (hr : r = 0 ∨ r = 1 ∨ r = 2 ∨ r = 3) :
    (do_rotate k i r).width = (if r = 1 ∨ r = 3 then i.height else i.width) ∧
    (do_rotate k i r).height = (if r = 1 ∨ r = 3 then i.width else i.height) ∧
    (do_rotate k (do_rotate k i 1) 1).width = (do_rotate k i 2).width ∧
    (do_rotate k (do_rotate k i 1) 1).height = (do_rotate k i 2).height := by
  refine ⟨?_, ?_, rfl, rfl⟩ <;> rcases hr with rfl | rfl | rfl | rfl <;> rfl

/-- C20 at a 3x2 image and one quarter turn. -/
theorem rotate_dimensions_witness :
    (do_rotate sampleCollaborators (sampleImage 3 2) 1).width = 2 ∧
    (do_rotate sampleCollaborators (sampleImage 3 2) 1).height = 3 :=
  ⟨(rotate_dimensions sampleCollaborators (sampleImage 3 2) 1 (by decide)).1,
   (rotate_dimensions sampleCollaborators (sampleImage 3 2) 1 (by decide)).2.1⟩

theorem cdiv_pos (a b : Int) (ha : 0 ≤ a) (hb : 0 < b) : cdiv a b = some (a / b) := by
  unfold cdiv
  rw [if_neg (by omega), Int.tdiv_eq_ediv ha (by omega)]

theorem cross_fit (w h sw sh : Int) (hw : 0 < w) (hh : 0 < h)
    (hq : sh < h * sw / w) : w * sh / h ≤ sw := by
  have h1 : (sh + 1) * w ≤ h * sw := (Int.le_ediv_iff_mul_le hw).1 (by omega)
  apply Int.ediv_le_of_le_mul hh
  nlinarith

theorem fitTarget_pos (w h sw sh : Int) (ia : Bool) (hw : 0 < w) (hh : 0 < h) (hsw : 0 < sw)
    (hsh : 0 < sh) :
    fitTarget w h sw sh ia =
      if w > sw ∨ h > sh then
        if ia then .resize (if w > sw then sw else w) (if h > sh then sh else h)
        else if h * sw / w ≤ sh then .resize sw (h * sw / w)
        else .resize (w * sh / h) sh
      else .keep := by
  unfold fitTarget
  rw [cdiv_pos _ _ (by positivity) hw, cdiv_pos _ _ (by positivity) hh]

/-- C17: for positive image and screen dimensions, `do_fit_to_screen` leaves
an image that fits the screen as it is; otherwise it yields a width of at
most `screen_width` and a height of at most `screen_height`: without
ignore-aspect one axis is the screen's and the other the truncated
proportional size, with ignore-aspect each axis is `min(dim, screenDim)`. -/
theorem fit_to_screen_bounds (k : Collaborators) (i : Image) (sw sh : Int) (ia cal : Bool)
    (hw : 0 < i.width) (hh : 0 < i.height) (hsw : 0 < sw) (hsh : 0 < sh) :
    (i.width ≤ sw ∧ i.height ≤ sh → do_fit_to_screen k i sw sh ia cal = some i) ∧
    (sw < i.width ∨ sh < i.height →
      ∃ i1, do_fit_to_screen k i sw sh ia cal = some i1 ∧ i1.width ≤ sw ∧ i1.height ≤ sh ∧
        (ia = false →
          (i1.width = sw ∧ i1.height = Int.tdiv (i.height * sw) i.width) ∨
          (i1.height = sh ∧ i1.width = Int.tdiv (i.width * sh) i.height)) ∧
        (ia = true → i1.width = min i.width sw ∧ i1.height = min i.height sh)) := by
  have ht := fitTarget_pos i.width i.height sw sh ia hw hh hsw hsh
  have e1 : Int.tdiv (i.height * sw) i.width = i.height * sw / i.width :=
    Int.tdiv_eq_ediv (by positivity) (by omega)
  have e2 : Int.tdiv (i.width * sh) i.height = i.width * sh / i.height :=
    Int.tdiv_eq_ediv (by positivity) (by omega)
  refine ⟨fun hfit => ?_, fun hbig => ?_⟩
  · unfold do_fit_to_screen
    rw [ht, if_neg (by omega)]
  · unfold do_fit_to_screen
    rw [ht, if_pos (by omega)]
    cases ia with
    | true =>
      simp only [if_true]
      refine ⟨_, rfl, ?_, ?_, fun hf => absurd hf (by simp), fun _ => ⟨?_, ?_⟩⟩
      · show (if i.width > sw then sw else i.width) ≤ sw
        split <;> omega
      · show (if i.height > sh then sh else i.height) ≤ sh
        split <;> omega
      · show (if i.width > sw then sw else i.width) = min i.width sw
        split <;> omega
      · show (if i.height > sh then sh else i.height) = min i.height sh
        split <;> omega
    | false =>
      simp only [Bool.false_eq_true, if_false]
      by_cases hq : i.height * sw / i.width ≤ sh
      · rw [if_pos hq]
        exact ⟨_, rfl, le_refl _, hq, fun _ => Or.inl ⟨rfl, e1.symm⟩, fun hf => absurd hf (by simp)⟩
      · rw [if_neg hq]
        refine ⟨_, rfl, ?_, le_refl _, fun _ => Or.inr ⟨rfl, e2.symm⟩,
          fun hf => absurd hf (by simp)⟩
        exact cross_fit i.width i.height sw sh hw hh (by omega)

/-- C17 at a 200x100 image on a 100x100 screen, aspect kept: 100x50. -/
theorem fit_to_screen_bounds_witness :
    ∃ i1, do_fit_to_screen sampleCollaborators (sampleImage 200 100) 100 100 false false =
        some i1 ∧ i1.width ≤ 100 ∧ i1.height ≤ 100 :=
  let ⟨i1, h1, h2, h3, _⟩ :=
    (fit_to_screen_bounds sampleCollaborators (sampleImage 200 100) 100 100 false false
      (by decide) (by decide) (by decide) (by decide)).2 (Or.inl (by decide))
  ⟨i1, h1, h2, h3⟩

theorem enlargeTarget_pos (w h sw sh : Int) (hw : 0 < w) (hh : 0 < h) (hsw : 0 < sw)
    (hsh : 0 < sh) :
    enlargeTarget w h sw sh false =
      if w > sw ∨ h > sh then .keep
      else if w < sw ∨ h < sh then
        if h * sw / w ≤ sh then .resize sw (h * sw / w)
        else if w * sh / h ≤ sw then .resize (w * sh / h) sh else .keep
      else .keep := by
  unfold enlargeTarget
  rw [cdiv_pos _ _ (by positivity) hw, cdiv_pos _ _ (by positivity) hh]
  simp

/-- C18: for positive image and screen dimensions without ignore-aspect,
`do_enlarge` does not divide by zero and resizes the image if and only if the
image is smaller than the screen on at least one axis and larger on none (so the
return before `have_sizes` is never taken in that case); the size it picks
equals the screen's on at least one axis and is not smaller than the image on
either axis, and it becomes the image's width and height. -/
theorem enlarge_when_smaller (k : Collaborators) (i : Image) (sw sh : Int)
    (hw : 0 < i.width) (hh : 0 < i.height) (hsw : 0 < sw) (hsh : 0 < sh) :
    enlargeTarget i.width i.height sw sh false ≠ .undefined ∧
    ((∃ xs ys, enlargeTarget i.width i.height sw sh false = .resize xs ys) ↔
      (i.width ≤ sw ∧ i.height ≤ sh ∧ (i.width < sw ∨ i.height < sh))) ∧
    (∀ xs ys, enlargeTarget i.width i.height sw sh false = .resize xs ys →
      (xs = sw ∨ ys = sh) ∧ i.width ≤ xs ∧ i.height ≤ ys ∧
      ∃ i1, do_enlarge k i sw sh false = some i1 ∧ i1.width = xs ∧ i1.height = ys) ∧
    (enlargeTarget i.width i.height sw sh false = .keep → do_enlarge k i sw sh false = some i) := by
  have ht := enlargeTarget_pos i.width i.height sw sh hw hh hsw hsh
  have key : ∀ xs ys, enlargeTarget i.width i.height sw sh false = .resize xs ys →
      (i.width ≤ sw ∧ i.height ≤ sh ∧ (i.width < sw ∨ i.height < sh)) ∧
      (xs = sw ∨ ys = sh) ∧ i.width ≤ xs ∧ i.height ≤ ys := by
    intro xs ys hT
    rw [ht] at hT
    split at hT
    · exact absurd hT (by simp)
    · rename_i hnb
      split at hT
      · rename_i hsm
        refine ⟨⟨by omega, by omega, hsm⟩, ?_⟩
        split at hT
        · simp only [Target.resize.injEq] at hT
          obtain ⟨rfl, rfl⟩ := hT
          refine ⟨Or.inl rfl, by omega, ?_⟩
          apply Int.le_ediv_of_mul_le hw
          exact Int.mul_le_mul_of_nonneg_left (by omega) (le_of_lt hh)
        · split at hT
          · simp only [Target.resize.injEq] at hT
            obtain ⟨rfl, rfl⟩ := hT
            refine ⟨Or.inr rfl, ?_, by omega⟩
            apply Int.le_ediv_of_mul_le hh
            exact Int.mul_le_mul_of_nonneg_left (by omega) (le_of_lt hw)
          · exact absurd hT (by simp)
      · exact absurd hT (by simp)
  refine ⟨?_, ⟨fun ⟨xs, ys, hT⟩ => (key xs ys hT).1, fun hc => ?_⟩, fun xs ys hT => ?_, fun hT => ?_⟩
  · rw [ht]
    split
    · simp
    · split
      · split
        · simp
        · split <;> simp
      · simp
  · rw [ht, if_neg (by omega), if_pos hc.2.2]
    by_cases hq : i.height * sw / i.width ≤ sh
    · rw [if_pos hq]; exact ⟨_, _, rfl⟩
    · rw [if_neg hq, if_pos (cross_fit i.width i.height sw sh hw hh (by omega))]
      exact ⟨_, _, rfl⟩
  · refine ⟨(key xs ys hT).2.1, (key xs ys hT).2.2.1, (key xs ys hT).2.2.2, ?_⟩
    unfold do_enlarge
    rw [hT]
    exact ⟨_, rfl, rfl, rfl⟩
  · unfold do_enlarge
    rw [hT]

/-- C18 at a 50x20 image on a 100x100 screen: enlarged to 100x40. -/
theorem enlarge_when_smaller_witness :
    ∃ i1, do_enlarge sampleCollaborators (sampleImage 50 20) 100 100 false = some i1 ∧
      i1.width = 100 ∧ i1.height = 40 :=
  ((enlarge_when_smaller sampleCollaborators (sampleImage 50 20) 100 100
    (by decide) (by decide) (by decide) (by decide)).2.2.1 100 40 (by decide)).2.2.2

/-- C19, refuted as stated: with ignore-aspect set, a 200x50 image on a
100x100 screen is changed by both: `do_fit_to_screen` brings the width from
200 to 100, then `do_enlarge` brings the height from 50 to 100. -/
theorem fit_and_enlarge_both_resize :
    (do_fit_to_screen sampleCollaborators (sampleImage 200 50) 100 100 true false).map
      (fun i => (i.width, i.height)) = some (100, 50) ∧
    ((do_fit_to_screen sampleCollaborators (sampleImage 200 50) 100 100 true false).bind
      fun i => do_enlarge sampleCollaborators i 100 100 true).map
      (fun i => (i.width, i.height)) = some (100, 100) := by
  decide

/-- Without ignore-aspect, a 1x1000 image on a 100x100 screen is fitted to the
width 0, and the `do_enlarge` that follows divides by that width. -/
theorem enlarge_after_fit_divides_by_zero :
    (do_fit_to_screen sampleCollaborators (sampleImage 1 1000) 100 100 false false).map
      (fun i => (i.width, i.height)) = some (0, 100) ∧
    ((do_fit_to_screen sampleCollaborators (sampleImage 1 1000) 100 100 false false).bind
      fun i => do_enlarge sampleCollaborators i 100 100 false) = none := by
  decide

theorem enlargeTarget_fitted_x (q sw sh : Int) (hsw : 0 < sw) (h1 : q ≤ sh) :
    enlargeTarget sw q sw sh false = .keep ∨ enlargeTarget sw q sw sh false = .resize sw q := by
  unfold enlargeTarget
  rw [if_neg (by omega)]
  by_cases hlt : q < sh
  · rw [if_pos (Or.inr hlt)]
    right
    have hd : cdiv (q * sw) sw = some q := by
      unfold cdiv
      rw [if_neg (by omega), Int.mul_tdiv_cancel _ (by omega)]
    simp only [Bool.false_eq_true, if_false, hd, if_pos h1]
  · rw [if_neg (by omega)]
    left; rfl

theorem enlargeTarget_fitted_y (q sw sh : Int) (hsh : 0 < sh) (h0 : 0 ≤ q) (h1 : q ≤ sw)
    (hx : q < sw → (sh + 1) * q ≤ sh * sw) :
    enlargeTarget q sh sw sh false = .keep ∨ enlargeTarget q sh sw sh false = .undefined ∨
      enlargeTarget q sh sw sh false = .resize q sh := by
  unfold enlargeTarget
  rw [if_neg (by omega)]
  by_cases hlt : q < sw
  · rw [if_pos (Or.inl hlt)]
    by_cases hz : q = 0
    · right; left
      simp [cdiv, hz]
    · right; right
      have hpos : 0 < q := by omega
      have hd1 : cdiv (sh * sw) q = some (sh * sw / q) :=
        cdiv_pos _ _ (Int.mul_nonneg (by omega) (by omega)) hpos
      have hq : ¬ sh * sw / q ≤ sh := by
        have := (Int.le_ediv_iff_mul_le hpos).2 (hx hlt)
        omega
      have hd2 : cdiv (q * sh) sh = some q := by
        unfold cdiv
        rw [if_neg (by omega), Int.mul_tdiv_cancel _ (by omega)]
      simp only [Bool.false_eq_true, if_false, hd1, if_neg hq, hd2, if_pos h1]
  · rw [if_neg (by omega)]
    left; rfl

theorem enlarge_keeps_fitted (k : Collaborators) (i1 i2 : Image) (sw sh : Int)
    (hsw : 0 < sw) (hsh : 0 < sh)
    (hcase : (i1.width = sw ∧ i1.height ≤ sh) ∨
      (i1.height = sh ∧ 0 ≤ i1.width ∧ i1.width ≤ sw ∧
        (i1.width < sw → (sh + 1) * i1.width ≤ sh * sw)))
    (h2 : do_enlarge k i1 sw sh false = some i2) :
    i2.width = i1.width ∧ i2.height = i1.height := by
  unfold do_enlarge at h2
  have hT : enlargeTarget i1.width i1.height sw sh false = .keep ∨
      enlargeTarget i1.width i1.height sw sh false = .undefined ∨
      enlargeTarget i1.width i1.height sw sh false = .resize i1.width i1.height := by
    rcases hcase with ⟨e1, h1⟩ | ⟨e1, h0, h1, hx⟩
    · rw [e1]
      rcases enlargeTarget_fitted_x i1.height sw sh hsw h1 with h | h
      · exact Or.inl h
      · exact Or.inr (Or.inr h)
    · rw [e1]
      exact enlargeTarget_fitted_y i1.width sw sh hsh h0 h1 hx
  rcases hT with hT | hT | hT
  · rw [hT] at h2
    simp only [Option.some.injEq] at h2
    subst h2
    exact ⟨rfl, rfl⟩
  · rw [hT] at h2
    exact absurd h2 (by simp)
  · rw [hT] at h2
    simp only [Option.some.injEq] at h2
    subst h2
    exact ⟨rfl, rfl⟩

/-- C19, amended: without ignore-aspect and for positive image and screen
dimensions, when `do_fit_to_screen` is followed by `do_enlarge` in one pass and
`do_enlarge` completes, at most one of the two changes the width or the height:
either the fit leaves both as they were, or the enlarge leaves both as the fit
made them. -/
theorem fit_then_enlarge_exclusive (k : Collaborators) (i i1 i2 : Image) (sw sh : Int)
    (cal : Bool) (hw : 0 < i.width) (hh : 0 < i.height) (hsw : 0 < sw) (hsh : 0 < sh)
    (h1 : do_fit_to_screen k i sw sh false cal = some i1)
    (h2 : do_enlarge k i1 sw sh false = some i2) :
    (i1.width = i.width ∧ i1.height = i.height) ∨
    (i2.width = i1.width ∧ i2.height = i1.height) := by
  have ht := fitTarget_pos i.width i.height sw sh false hw hh hsw hsh
  unfold do_fit_to_screen at h1
  rw [ht] at h1
  by_cases hbig : i.width > sw ∨ i.height > sh
  · right
    rw [if_pos hbig] at h1
    simp only [Bool.false_eq_true, if_false] at h1
    by_cases hq : i.height * sw / i.width ≤ sh
    · rw [if_pos hq] at h1
      simp only [Option.some.injEq] at h1
      subst h1
      exact enlarge_keeps_fitted k _ i2 sw sh hsw hsh (Or.inl ⟨rfl, hq⟩) h2
    · rw [if_neg hq] at h1
      simp only [Option.some.injEq] at h1
      subst h1
      have hc := cross_fit i.width i.height sw sh hw hh (by omega)
      have hge : (sh + 1) * i.width ≤ i.height * sw :=
        (Int.le_ediv_iff_mul_le hw).1 (by omega)
      have hq2 : i.width * sh / i.height * i.height ≤ i.width * sh :=
        Int.ediv_mul_le _ (by omega)
      have hnn : 0 ≤ i.width * sh / i.height := Int.ediv_nonneg (by positivity) (by omega)
      refine enlarge_keeps_fitted k _ i2 sw sh hsw hsh
        (Or.inr ⟨rfl, hnn, hc, fun _ => ?_⟩) h2
      show (sh + 1) * (i.width * sh / i.height) ≤ sh * sw
      have h3 : (sh + 1) * (i.width * sh / i.height) * i.height ≤ sh * sw * i.height := by
        calc (sh + 1) * (i.width * sh / i.height) * i.height
            = (sh + 1) * (i.width * sh / i.height * i.height) := by ring
          _ ≤ (sh + 1) * (i.width * sh) := Int.mul_le_mul_of_nonneg_left hq2 (by omega)
          _ = sh * ((sh + 1) * i.width) := by ring
          _ ≤ sh * (i.height * sw) := Int.mul_le_mul_of_nonneg_left hge (by omega)
          _ = sh * sw * i.height := by ring
      exact le_of_mul_le_mul_right h3 hh
  · left
    rw [if_neg hbig] at h1
    simp only [Option.some.injEq] at h1
    subst h1
    exact ⟨rfl, rfl⟩

/-- C19 amended, at a 200x100 image on a 100x100 screen: the fit makes it
100x50 and the enlarge leaves it 100x50. -/
theorem fit_then_enlarge_exclusive_witness :
    do_fit_to_screen sampleCollaborators (sampleImage 200 100) 100 100 false false =
      some (sampleImage 100 50) ∧
    do_enlarge sampleCollaborators (sampleImage 100 50) 100 100 false =
      some (sampleImage 100 50) ∧
    (((sampleImage 100 50).width = (sampleImage 200 100).width ∧
        (sampleImage 100 50).height = (sampleImage 200 100).height) ∨
      ((sampleImage 100 50).width = (sampleImage 100 50).width ∧
        (sampleImage 100 50).height = (sampleImage 100 50).height)) :=
  ⟨by decide, by decide,
   fit_then_enlarge_exclusive sampleCollaborators (sampleImage 200 100) (sampleImage 100 50)
     (sampleImage 100 50) 100 100 false (by decide) (by decide) (by decide) (by decide)
     (by decide) (by decide)⟩

theorem handleKey_pan_left (st : LoopState) (c : Int) (hc : c = ch 'a' ∨ c = ch 'D') :
    handleKey st c =
      if st.x_pan = 0 then .go st
      else .go { st with
        x_pan := if st.x_pan - Int.tdiv st.i.width PAN_STEPPING < 0 then 0
                 else st.x_pan - Int.tdiv st.i.width PAN_STEPPING,
        refresh := true } := by
  rcases hc with rfl | rfl <;> simp [handleKey, ch, EOF]

theorem handleKey_pan_right (st : LoopState) (c : Int) (hc : c = ch 'd' ∨ c = ch 'C') :
    handleKey st c =
      if st.x_offs ≠ 0 then .go st
      else if st.x_pan ≥ st.i.width - st.screen_width then .go st
      else .go { st with
        x_pan := if st.x_pan + Int.tdiv st.i.width PAN_STEPPING > st.i.width - st.screen_width
                 then st.i.width - st.screen_width
                 else st.x_pan + Int.tdiv st.i.width PAN_STEPPING,
        refresh := true } := by
  rcases hc with rfl | rfl <;> simp [handleKey, ch, EOF]

theorem handleKey_pan_up (st : LoopState) (c : Int) (hc : c = ch 'w' ∨ c = ch 'A') :
    handleKey st c =
      if st.y_pan = 0 then .go st
      else .go { st with
        y_pan := if st.y_pan - Int.tdiv st.i.height PAN_STEPPING < 0 then 0
                 else st.y_pan - Int.tdiv st.i.height PAN_STEPPING,
        refresh := true } := by
  rcases hc with rfl | rfl <;> simp [handleKey, ch, EOF]

theorem handleKey_pan_down (st : LoopState) (c : Int) (hc : c = ch 'x' ∨ c = ch 'B') :
    handleKey st c =
      if st.y_offs ≠ 0 then .go st
      else if st.y_pan ≥ st.i.height - st.screen_height then .go st
      else .go { st with
        y_pan := if st.y_pan + Int.tdiv st.i.height PAN_STEPPING > st.i.height - st.screen_height
                 then st.i.height - st.screen_height
                 else st.y_pan + Int.tdiv st.i.height PAN_STEPPING,
        refresh := true } := by
  rcases hc with rfl | rfl <;> simp [handleKey, ch, EOF]

theorem pan_back_ok (pan dim screen : Int) (hd : 0 ≤ dim) (h : PanBound pan dim screen) :
    PanBound (if pan - Int.tdiv dim PAN_STEPPING < 0 then 0 else pan - Int.tdiv dim PAN_STEPPING)
      dim screen := by
  have e : Int.tdiv dim PAN_STEPPING = dim / 20 := Int.tdiv_eq_ediv hd (by decide)
  rw [e]
  unfold PanBound at h ⊢
  obtain ⟨h1, h2⟩ := h
  split <;> constructor <;> intro hc <;> omega

theorem pan_forth_ok (pan dim screen : Int) (hd : 0 ≤ dim) (h : PanBound pan dim screen)
    (hlt : ¬ pan ≥ dim - screen) :
    PanBound (if pan + Int.tdiv dim PAN_STEPPING > dim - screen then dim - screen
      else pan + Int.tdiv dim PAN_STEPPING) dim screen := by
  have e : Int.tdiv dim PAN_STEPPING = dim / 20 := Int.tdiv_eq_ediv hd (by decide)
  rw [e]
  unfold PanBound at h ⊢
  obtain ⟨h1, h2⟩ := h
  split <;> constructor <;> intro hc <;> omega

theorem handleKey_pan (st : LoopState) (c : Int) (hc : isPanKey c = true)
    (hw : 0 ≤ st.i.width) (hh : 0 ≤ st.i.height)
    (hx : PanBound st.x_pan st.i.width st.screen_width)
    (hy : PanBound st.y_pan st.i.height st.screen_height) :
    ∃ st1, handleKey st c = .go st1 ∧ st1.i = st.i ∧ st1.screen_width = st.screen_width ∧
      st1.screen_height = st.screen_height ∧ st1.retransform = st.retransform ∧
      PanBound st1.x_pan st1.i.width st1.screen_width ∧
      PanBound st1.y_pan st1.i.height st1.screen_height := by
  simp only [isPanKey, decide_eq_true_eq] at hc
  rcases hc with hc | hc | hc | hc | hc | hc | hc | hc
  · rw [handleKey_pan_left st c (Or.inl hc)]
    split
    · exact ⟨st, rfl, rfl, rfl, rfl, rfl, hx, hy⟩
    · exact ⟨_, rfl, rfl, rfl, rfl, rfl, pan_back_ok _ _ _ hw hx, hy⟩
  · rw [handleKey_pan_left st c (Or.inr hc)]
    split
    · exact ⟨st, rfl, rfl, rfl, rfl, rfl, hx, hy⟩
    · exact ⟨_, rfl, rfl, rfl, rfl, rfl, pan_back_ok _ _ _ hw hx, hy⟩
  · rw [handleKey_pan_right st c (Or.inl hc)]
    split
    · exact ⟨st, rfl, rfl, rfl, rfl, rfl, hx, hy⟩
    · split
      · exact ⟨st, rfl, rfl, rfl, rfl, rfl, hx, hy⟩
      · rename_i hlt
        exact ⟨_, rfl, rfl, rfl, rfl, rfl, pan_forth_ok _ _ _ hw hx hlt, hy⟩
  · rw [handleKey_pan_right st c (Or.inr hc)]
    split
    · exact ⟨st, rfl, rfl, rfl, rfl, rfl, hx, hy⟩
    · split
      · exact ⟨st, rfl, rfl, rfl, rfl, rfl, hx, hy⟩
      · rename_i hlt
        exact ⟨_, rfl, rfl, rfl, rfl, rfl, pan_forth_ok _ _ _ hw hx hlt, hy⟩
  · rw [handleKey_pan_up st c (Or.inl hc)]
    split
    · exact ⟨st, rfl, rfl, rfl, rfl, rfl, hx, hy⟩
    · exact ⟨_, rfl, rfl, rfl, rfl, rfl, hx, pan_back_ok _ _ _ hh hy⟩
  · rw [handleKey_pan_up st c (Or.inr hc)]
    split
    · exact ⟨st, rfl, rfl, rfl, rfl, rfl, hx, hy⟩
    · exact ⟨_, rfl, rfl, rfl, rfl, rfl, hx, pan_back_ok _ _ _ hh hy⟩
  · rw [handleKey_pan_down st c (Or.inl hc)]
    split
    · exact ⟨st, rfl, rfl, rfl, rfl, rfl, hx, hy⟩
    · split
      · exact ⟨st, rfl, rfl, rfl, rfl, rfl, hx, hy⟩
      · rename_i hlt
        exact ⟨_, rfl, rfl, rfl, rfl, rfl, hx, pan_forth_ok _ _ _ hh hy hlt⟩
  · rw [handleKey_pan_down st c (Or.inr hc)]
    split
    · exact ⟨st, rfl, rfl, rfl, rfl, rfl, hx, hy⟩
    · split
      · exact ⟨st, rfl, rfl, rfl, rfl, rfl, hx, hy⟩
      · rename_i hlt
        exact ⟨_, rfl, rfl, rfl, rfl, rfl, hx, pan_forth_ok _ _ _ hh hy hlt⟩

theorem do_display_size (k : Collaborators) (i : Image) (x_pan y_pan x_offs y_offs : Int)
    (newimage : Bool) :
    (do_display k i x_pan y_pan x_offs y_offs newimage).1.width = i.width ∧
    (do_display k i x_pan y_pan x_offs y_offs newimage).1.height = i.height := by
  unfold do_display
  dsimp only
  split <;> split <;> exact ⟨rfl, rfl⟩

theorem loopBody_pan (k : Collaborators) (st : LoopState) (t : Tick) (c : Int)
    (hkey : t.key = some c) (hc : isPanKey c = true) (hre : st.retransform = false)
    (hw : 0 ≤ st.i.width) (hh : 0 ≤ st.i.height)
    (hx : PanBound st.x_pan st.i.width st.screen_width)
    (hy : PanBound st.y_pan st.i.height st.screen_height) :
    ∃ st1, loopBody k st t = .go st1 ∧ st1.i.width = st.i.width ∧
      st1.i.height = st.i.height ∧ st1.screen_width = st.screen_width ∧
      st1.screen_height = st.screen_height ∧ st1.retransform = false ∧
      PanBound st1.x_pan st1.i.width st1.screen_width ∧
      PanBound st1.y_pan st1.i.height st1.screen_height := by
  have h1 : retransformPhase k st = some st := by
    unfold retransformPhase
    rw [if_neg (by simp [hre])]
  have h2 : (redrawPhase k st t.drawClock).i.width = st.i.width ∧
      (redrawPhase k st t.drawClock).i.height = st.i.height ∧
      (redrawPhase k st t.drawClock).screen_width = st.screen_width ∧
      (redrawPhase k st t.drawClock).screen_height = st.screen_height ∧
      (redrawPhase k st t.drawClock).x_pan = st.x_pan ∧
      (redrawPhase k st t.drawClock).y_pan = st.y_pan ∧
      (redrawPhase k st t.drawClock).retransform = false := by
    unfold redrawPhase
    split
    · exact ⟨(do_display_size k st.i _ _ _ _ _).1, (do_display_size k st.i _ _ _ _ _).2,
        rfl, rfl, rfl, rfl, rfl⟩
    · exact ⟨rfl, rfl, rfl, rfl, rfl, rfl, hre⟩
  obtain ⟨e1, e2, e3, e4, e5, e6, e7⟩ := h2
  obtain ⟨st1, g1, g2, g3, g4, g5, g6, g7⟩ := handleKey_pan (redrawPhase k st t.drawClock) c hc
    (by rw [e1]; exact hw) (by rw [e2]; exact hh) (by rw [e1, e3, e5]; exact hx)
    (by rw [e2, e4, e6]; exact hy)
  refine ⟨st1, ?_, ?_, ?_, g3.trans e3, g4.trans e4, g5.trans e7, g6, g7⟩
  · unfold loopBody
    rw [h1]
    simp only [hkey]
    exact g1
  · rw [g2]; exact e1
  · rw [g2]; exact e2

/-- C14: from any loop state with no retransform pending, a content of
non-negative size and both pan offsets inside their bounds, the loop run
over any sequence of pan key events (the keys a, d, w, x and the arrow codes)
goes on after each of them, leaves the content and screen sizes as they were,
and ends with both pan offsets inside their bounds: `0 ≤ pan ≤ dim - screen`
on an axis where the content is larger than the screen, `pan = 0` on an axis
where it is fully visible. -/
theorem pan_stays_in_bounds (k : Collaborators) (ticks : List Tick) (st : LoopState)
    (hkeys : ∀ t ∈ ticks, ∃ c, t.key = some c ∧ isPanKey c = true)
    (hre : st.retransform = false) (hw : 0 ≤ st.i.width) (hh : 0 ≤ st.i.height)
    (hx : PanBound st.x_pan st.i.width st.screen_width)
    (hy : PanBound st.y_pan st.i.height st.screen_height) :
    ∃ st1, runLoop k st ticks = .go st1 ∧
      st1.i.width = st.i.width ∧ st1.i.height = st.i.height ∧
      st1.screen_width = st.screen_width ∧ st1.screen_height = st.screen_height ∧
      PanBound st1.x_pan st.i.width st.screen_width ∧
      PanBound st1.y_pan st.i.height st.screen_height := by
  induction ticks generalizing st with
  | nil => exact ⟨st, rfl, rfl, rfl, rfl, rfl, hx, hy⟩
  | cons t ticks ih =>
    obtain ⟨c, hkey, hc⟩ := hkeys t (List.mem_cons_self _ _)
    obtain ⟨st1, g1, g2, g3, g4, g5, g6, g7, g8⟩ := loopBody_pan k st t c hkey hc hre hw hh hx hy
    obtain ⟨st2, f1, f2, f3, f4, f5, f6, f7⟩ := ih st1
      (fun q hq => hkeys q (List.mem_cons_of_mem _ hq)) g6 (by rw [g2]; exact hw)
      (by rw [g3]; exact hh) g7 g8
    refine ⟨st2, ?_, f2.trans g2, f3.trans g3, f4.trans g4, f5.trans g5, ?_, ?_⟩
    · simp only [runLoop, g1]
      exact f1
    · rw [← g2, ← g4]; exact f6
    · rw [← g3, ← g5]; exact f7

/-- C14 on a 200x100 image on the 100x100 screen and three presses of `d`. -/
theorem pan_stays_in_bounds_witness :
    ∃ st1, runLoop sampleCollaborators (sampleLoop 200 100 0 GifStore.initial)
        (List.replicate 3 (keyTick (ch 'd'))) = .go st1 ∧
      st1.i.width = (sampleLoop 200 100 0 GifStore.initial).i.width ∧
      st1.i.height = (sampleLoop 200 100 0 GifStore.initial).i.height ∧
      st1.screen_width = (sampleLoop 200 100 0 GifStore.initial).screen_width ∧
      st1.screen_height = (sampleLoop 200 100 0 GifStore.initial).screen_height ∧
      PanBound st1.x_pan (sampleLoop 200 100 0 GifStore.initial).i.width
        (sampleLoop 200 100 0 GifStore.initial).screen_width ∧
      PanBound st1.y_pan (sampleLoop 200 100 0 GifStore.initial).i.height
        (sampleLoop 200 100 0 GifStore.initial).screen_height :=
  pan_stays_in_bounds sampleCollaborators (List.replicate 3 (keyTick (ch 'd')))
    (sampleLoop 200 100 0 GifStore.initial)
    (fun t ht => ⟨ch 'd', by rw [List.eq_of_mem_replicate ht]; rfl, by decide⟩)
    rfl (by decide) (by decide) (by unfold PanBound; decide) (by unfold PanBound; decide)

theorem advanceFrame_go (k : Collaborators) (st st1 : LoopState) (m1 m2 : Bool)
    (h : advanceFrame k st m1 m2 = .go st1) :
    (fh_gif_next st.store st.opt_alpha st.x_size st.y_size m1 m2).ret = .FH_ERROR_OK ∧
    st1.store = (fh_gif_next st.store st.opt_alpha st.x_size st.y_size m1 m2).store ∧
    st1.refresh = true ∧ st1.delay = st.delay ∧ st1.starttime_ts = st.starttime_ts ∧
    st1.ret = st.ret ∧ st1.retransform = st.retransform := by
  unfold advanceFrame at h
  simp only at h
  split at h
  · exact absurd h (by simp)
  · rename_i hok
    split at h
    · exact absurd h (by simp)
    · simp only [Step.go.injEq] at h
      subst h
      exact ⟨by simpa using hok, rfl, rfl, rfl, rfl, rfl, rfl⟩

theorem advanceFrame_not_slideshow (k : Collaborators) (st st1 : LoopState) (m1 m2 : Bool) :
    advanceFrame k st m1 m2 ≠ .slideshow st1 := by
  unfold advanceFrame
  simp only
  split
  · simp
  · split <;> simp

theorem onTimeout_slideshow (k : Collaborators) (st : LoopState) (now : Timespec)
    (m1 m2 : Bool) :
    ((∃ st1, onTimeout k st now m1 m2 = .slideshow st1) ↔
      (st.delay ≠ 0 ∧ elapsedMs st.starttime_ts now > int32 (st.delay * 100))) ∧
    (∀ st1, onTimeout k st now m1 m2 = .slideshow st1 → st1 = st) := by
  unfold onTimeout
  by_cases hd : slideshowDue st now = true
  · rw [if_pos hd]
    refine ⟨⟨fun _ => by simpa [slideshowDue] using hd, fun _ => ⟨st, rfl⟩⟩, fun st1 h => ?_⟩
    simp only [Step.slideshow.injEq] at h
    exact h.symm
  · rw [if_neg hd]
    have hnot : ∀ st1, (if frameDue st now = true then advanceFrame k st m1 m2 else Step.go st) ≠
        .slideshow st1 := by
      intro st1
      split
      · exact advanceFrame_not_slideshow k st st1 m1 m2
      · simp
    refine ⟨⟨fun ⟨st1, h⟩ => absurd h (hnot st1), fun h => absurd ?_ hd⟩,
      fun st1 h => absurd h (hnot st1)⟩
    simpa [slideshowDue] using h

theorem onTimeout_go (k : Collaborators) (st st1 : LoopState) (now : Timespec) (m1 m2 : Bool)
    (h : onTimeout k st now m1 m2 = .go st1) :
    st1.delay = st.delay ∧ st1.starttime_ts = st.starttime_ts ∧ st1.ret = st.ret ∧
    st1.retransform = st.retransform := by
  unfold onTimeout at h
  split at h
  · exact absurd h (by simp)
  · split at h
    · obtain ⟨_, _, _, h4, h5, h6, h7⟩ := advanceFrame_go k st st1 m1 m2 h
      exact ⟨h4, h5, h6, h7⟩
    · simp only [Step.go.injEq] at h
      subst h
      exact ⟨rfl, rfl, rfl, rfl⟩

theorem retransformPhase_keeps (k : Collaborators) (st st1 : LoopState)
    (h : retransformPhase k st = some st1) :
    st1.delay = st.delay ∧ st1.starttime_ts = st.starttime_ts ∧ st1.ret = st.ret ∧
    (st1.retransform = true → st1.refresh = true) := by
  unfold retransformPhase at h
  split at h
  · split at h
    · exact absurd h (by simp)
    · simp only [Option.some.injEq] at h
      subst h
      exact ⟨rfl, rfl, rfl, fun _ => rfl⟩
  · rename_i hre
    simp only [Option.some.injEq] at h
    subst h
    exact ⟨rfl, rfl, rfl, fun hc => absurd hc hre⟩

theorem redrawPhase_keeps (k : Collaborators) (st : LoopState) (clock : Timespec)
    (h : st.retransform = true → st.refresh = true) :
    (redrawPhase k st clock).delay = st.delay ∧
    (redrawPhase k st clock).starttime_ts = st.starttime_ts ∧
    (redrawPhase k st clock).ret = st.ret ∧
    (redrawPhase k st clock).retransform = false := by
  unfold redrawPhase
  split
  · exact ⟨rfl, rfl, rfl, rfl⟩
  · rename_i hr
    refine ⟨rfl, rfl, rfl, ?_⟩
    cases hc : st.retransform with
    | false => rfl
    | true => exact absurd (h hc) hr

theorem loopBody_timeout (k : Collaborators) (st st1 : LoopState) (t : Tick)
    (hkey : t.key = none) (hphase : retransformPhase k st = some st1) :
    loopBody k st t = onTimeout k (redrawPhase k st1 t.drawClock) t.now t.m1 t.m2 ∧
    (redrawPhase k st1 t.drawClock).delay = st.delay ∧
    (redrawPhase k st1 t.drawClock).starttime_ts = st.starttime_ts ∧
    (redrawPhase k st1 t.drawClock).ret = st.ret ∧
    (redrawPhase k st1 t.drawClock).retransform = false := by
  obtain ⟨a1, a2, a3, a4⟩ := retransformPhase_keeps k st st1 hphase
  obtain ⟨b1, b2, b3, b4⟩ := redrawPhase_keeps k st1 t.drawClock a4
  refine ⟨?_, b1.trans a1, b2.trans a2, b3.trans a3, b4⟩
  unfold loopBody
  rw [hphase]
  simp only [hkey]

theorem loopBody_go_phase (k : Collaborators) (st st2 : LoopState) (t : Tick)
    (h : loopBody k st t = .go st2) : ∃ st1, retransformPhase k st = some st1 := by
  cases hp : retransformPhase k st with
  | some st1 => exact ⟨st1, rfl⟩
  | none =>
    unfold loopBody at h
    rw [hp] at h
    exact absurd h (by simp)

theorem runLoop_append (k : Collaborators) (st st1 : LoopState) (pre post : List Tick)
    (h : runLoop k st pre = .go st1) : runLoop k st (pre ++ post) = runLoop k st1 post := by
  induction pre generalizing st with
  | nil =>
    simp only [runLoop, Step.go.injEq] at h
    subst h; rfl
  | cons t pre ih =>
    cases hb : loopBody k st t with
    | go st2 =>
      simp only [runLoop, List.cons_append, hb] at h ⊢
      exact ih st2 h
    | done st2 => simp [runLoop, hb] at h
    | slideshow st2 => simp [runLoop, hb] at h
    | error_mem st2 => simp [runLoop, hb] at h
    | undefined => simp [runLoop, hb] at h

theorem runLoop_timeouts (k : Collaborators) (pre : List Tick) (st st1 : LoopState)
    (hpre : ∀ q ∈ pre, q.key = none) (hrun : runLoop k st pre = .go st1) :
    st1.delay = st.delay ∧ st1.starttime_ts = st.starttime_ts ∧ st1.ret = st.ret ∧
    (pre ≠ [] → st1.retransform = false) ∧
    ∀ q ∈ pre, ¬(st.delay ≠ 0 ∧ elapsedMs st.starttime_ts q.now > int32 (st.delay * 100)) := by
  induction pre generalizing st with
  | nil =>
    simp only [runLoop, Step.go.injEq] at hrun
    subst hrun
    exact ⟨rfl, rfl, rfl, fun h => absurd rfl h, fun q hq => absurd hq (List.not_mem_nil _)⟩
  | cons t pre ih =>
    simp only [runLoop] at hrun
    split at hrun
    · rename_i st2 heq
      obtain ⟨st0, hp⟩ := loopBody_go_phase k st st2 t heq
      obtain ⟨b1, b2, b3, b4, b5⟩ :=
        loopBody_timeout k st st0 t (hpre t (List.mem_cons_self _ _)) hp
      rw [b1] at heq
      obtain ⟨c1, c2, c3, c4⟩ := onTimeout_go k _ st2 _ _ _ heq
      obtain ⟨d1, d2, d3, d4, d5⟩ := ih st2
        (fun q hq => hpre q (List.mem_cons_of_mem _ hq)) hrun
      refine ⟨by rw [d1, c1, b2], by rw [d2, c2, b3], by rw [d3, c3, b4], fun _ => ?_,
        fun q hq => ?_⟩
      · cases pre with
        | nil =>
          simp only [runLoop, Step.go.injEq] at hrun
          subst hrun
          rw [c4, b5]
        | cons q pre => exact d4 (by simp)
      · rcases List.mem_cons.1 hq with rfl | hq
        · intro hdue
          have := (onTimeout_slideshow k (redrawPhase k st0 q.drawClock) q.now q.m1 q.m2).1.2
            (by rw [b2, b3]; exact hdue)
          obtain ⟨st3, h3⟩ := this
          rw [heq] at h3
          exact absurd h3 (by simp)
        · have := d5 q hq
          rw [c1, c2, b2, b3] at this
          exact this
    · rename_i hne
      cases hb : loopBody k st t <;> rw [hb] at hrun <;> simp at hrun
      exact absurd hb (hne _)

theorem elapsedMs_exact (start now : Timespec) :
    (0 ≤ (now.tv_sec - start.tv_sec) * 1000000000 + (now.tv_nsec - start.tv_nsec) →
      (now.tv_sec - start.tv_sec) * 1000000000 + (now.tv_nsec - start.tv_nsec) <
        2147483648 * 1000000 →
      elapsedMs start now =
        ((now.tv_sec - start.tv_sec) * 1000000000 + (now.tv_nsec - start.tv_nsec)) / 1000000) ∧
    (2147483648 * 1000000 ≤
        (now.tv_sec - start.tv_sec) * 1000000000 + (now.tv_nsec - start.tv_nsec) →
      elapsedMs start now = -2147483648) := by
  have hsame : elapsedMs start now = doubleToInt (Int.tdiv
      ((now.tv_sec - start.tv_sec) * 1000000000 + (now.tv_nsec - start.tv_nsec)) 1000000) := by
    unfold elapsedMs
    split
    · simp only
      congr 2
      ring
    · simp only
      congr 2
      ring
  rw [hsame]
  refine ⟨fun h0 h1 => ?_, fun h1 => ?_⟩
  · rw [Int.tdiv_eq_ediv h0 (by omega)]
    unfold doubleToInt
    rw [if_pos (by omega)]
  · rw [Int.tdiv_eq_ediv (by omega) (by omega)]
    unfold doubleToInt
    rw [if_neg (by omega)]

/-- C15, refuted as stated: with the slideshow delay 1 (100 ms), at a timeout
tick exactly 100 ms after the load the loop does not terminate; it goes on
with its state unchanged. -/
theorem slideshow_not_at_threshold :
    elapsedMs (sampleLoop 50 50 1 (fh_gif_load (some threeFrames) GifStore.initial false 2 1
      []).store).starttime_ts (timeoutTick 100).now = 1 * 100 ∧
    loopBody sampleCollaborators
      (sampleLoop 50 50 1 (fh_gif_load (some threeFrames) GifStore.initial false 2 1 []).store)
      (timeoutTick 100) =
      .go (sampleLoop 50 50 1
        (fh_gif_load (some threeFrames) GifStore.initial false 2 1 []).store) := by
  decide

/-- C15, amended: let the slideshow delay be `D > 0`, let the loop have gone
through a run `pre` of input-timeout ticks, and let the retransform pass that
is pending at the next timeout tick `t`, if one is, complete.  Then at each
tick of `pre` the `int` `delta_ms` since the load was at most the `int`
`D * 100`; at `t` the loop leaves through the slideshow exit if and only if
`delta_ms` is greater than `D * 100`, with the return value (the advance
direction) as it was.  `D * 100` is the exact product for `D ≤ 21474836` (it
wraps beyond), and `delta_ms` is the elapsed time in whole milliseconds while
that is below `2^31`, and `INT_MIN` from there on. -/
theorem slideshow_exit_after_delay (k : Collaborators) (st : LoopState) (pre : List Tick)
    (t : Tick) (hD : 0 < st.delay) (hpre : ∀ q ∈ pre, q.key = none) (ht : t.key = none)
    (hrun : ((runLoop k st pre).state?.bind (retransformPhase k)).isSome = true) :
    (∀ q ∈ pre, elapsedMs st.starttime_ts q.now ≤ int32 (st.delay * 100)) ∧
    ((∃ st2, runLoop k st (pre ++ [t]) = .slideshow st2) ↔
      elapsedMs st.starttime_ts t.now > int32 (st.delay * 100)) ∧
    (∀ st2, runLoop k st (pre ++ [t]) = .slideshow st2 → st2.ret = st.ret) ∧
    (st.delay ≤ 21474836 → int32 (st.delay * 100) = st.delay * 100) ∧
    (∀ now : Timespec,
      (0 ≤ (now.tv_sec - st.starttime_ts.tv_sec) * 1000000000 +
          (now.tv_nsec - st.starttime_ts.tv_nsec) →
        (now.tv_sec - st.starttime_ts.tv_sec) * 1000000000 +
          (now.tv_nsec - st.starttime_ts.tv_nsec) < 2147483648 * 1000000 →
        elapsedMs st.starttime_ts now =
          ((now.tv_sec - st.starttime_ts.tv_sec) * 1000000000 +
            (now.tv_nsec - st.starttime_ts.tv_nsec)) / 1000000) ∧
      (2147483648 * 1000000 ≤ (now.tv_sec - st.starttime_ts.tv_sec) * 1000000000 +
          (now.tv_nsec - st.starttime_ts.tv_nsec) →
        elapsedMs st.starttime_ts now = -2147483648)) := by
  cases hr : runLoop k st pre with
  | go st1 =>
    rw [hr] at hrun
    simp only [Step.state?, Option.some_bind] at hrun
    obtain ⟨st0, hp⟩ := Option.isSome_iff_exists.1 hrun
    obtain ⟨a1, a2, a3, _, a5⟩ := runLoop_timeouts k pre st st1 hpre hr
    obtain ⟨b1, b2, b3, b4, _⟩ := loopBody_timeout k st1 st0 t ht hp
    have hslide := onTimeout_slideshow k (redrawPhase k st0 t.drawClock) t.now t.m1 t.m2
    rw [b2, b3, a1, a2] at hslide
    have hlast : ∀ st2, runLoop k st (pre ++ [t]) = .slideshow st2 ↔
        onTimeout k (redrawPhase k st0 t.drawClock) t.now t.m1 t.m2 = .slideshow st2 := by
      intro st2
      rw [runLoop_append k st st1 pre [t] hr, ← b1]
      cases hb : loopBody k st1 t <;> simp [runLoop, hb]
    refine ⟨fun q hq => ?_, ⟨fun ⟨st2, h⟩ => ?_, fun h => ?_⟩, fun st2 h => ?_, fun hmax => ?_,
      fun now => elapsedMs_exact st.starttime_ts now⟩
    · have := a5 q hq
      by_contra hc
      exact this ⟨by omega, by omega⟩
    · exact (hslide.1.1 ⟨st2, (hlast st2).1 h⟩).2
    · obtain ⟨st2, h2⟩ := hslide.1.2 ⟨by omega, h⟩
      exact ⟨st2, (hlast st2).2 h2⟩
    · rw [hslide.2 st2 ((hlast st2).1 h), b4, a3]
    · unfold int32
      omega
  | done st1 => rw [hr] at hrun; simp [Step.state?] at hrun
  | slideshow st1 => rw [hr] at hrun; simp [Step.state?] at hrun
  | error_mem st1 => rw [hr] at hrun; simp [Step.state?] at hrun
  | undefined => rw [hr] at hrun; simp [Step.state?] at hrun

/-- C15 amended, with the delay 1, from the start of the loop (the first
iteration runs its retransform pass): timeouts at 50 ms and 100 ms are gone
through, the timeout at 101 ms takes the slideshow exit. -/
theorem slideshow_exit_after_delay_witness :
    ∃ st2, runLoop sampleCollaborators slideshowShow
      ([timeoutTick 50, timeoutTick 100] ++ [timeoutTick 101]) = .slideshow st2 :=
  (slideshow_exit_after_delay sampleCollaborators slideshowShow
    [timeoutTick 50, timeoutTick 100] (timeoutTick 101)
    (by decide) (by decide) rfl (by decide)).2.1.2 (by decide)

/-- C16, refuted as stated: on a two-frame store whose frames have the delay
0, at a timeout tick 5 ms after the redraw (no slideshow, no retransform
pending) the elapsed time is at least `10 * 0` ms, yet the loop fetches no
frame: it goes on with its state, cursor and `refresh` included, unchanged. -/
theorem zero_delay_frame_not_advanced :
    fh_gif_get_delay (fh_gif_load (some ⟨some sampleColors,
      [frame2x1 0 1, frame2x1 1 0, .terminate]⟩) GifStore.initial false 2 1 []).store = 0 ∧
    elapsedMs ⟨0, 0⟩ (timeoutTick 5).now = 5 ∧
    loopBody sampleCollaborators
      (sampleLoop 2 1 0 (fh_gif_load (some ⟨some sampleColors,
        [frame2x1 0 1, frame2x1 1 0, .terminate]⟩) GifStore.initial false 2 1 []).store)
      (timeoutTick 5) =
      .go (sampleLoop 2 1 0 (fh_gif_load (some ⟨some sampleColors,
        [frame2x1 0 1, frame2x1 1 0, .terminate]⟩) GifStore.initial false 2 1 []).store) := by
  decide

/-- C16, amended: on an input timeout with no slideshow exit, no retransform
pending and a multi-frame source, where `d` is the delay (in hundredths of a
second) of the frame at the store cursor and `fh_gif_get_delay` reports
`10 * d`: the loop calls `fh_gif_next` and applies the transforms exactly when
`d > 0` and the `int` `delta_ms` since the last redraw is greater than
`10 * d`; otherwise it goes on unchanged.  When the fetch succeeds, `refresh`
is set and the store is the one `fh_gif_next` left.  `delta_ms` is the elapsed
time in whole milliseconds while that is below `2^31`, and `INT_MIN` from
there on, where no frame is fetched. -/
theorem frame_advance_when_due (k : Collaborators) (st : LoopState) (now : Timespec)
    (m1 m2 : Bool) (hre : st.retransform = false) (hm : st.multi = true)
    (hs : slideshowDue st now = false) :
    (fh_gif_get_delay st.store : Int) = 10 * (st.store.delays.getD st.store.imageix 0 : Int) ∧
    ((0 < st.store.delays.getD st.store.imageix 0 ∧
        elapsedMs st.refresh_ts now > 10 * (st.store.delays.getD st.store.imageix 0 : Int)) →
      onTimeout k st now m1 m2 = advanceFrame k st m1 m2) ∧
    (¬(0 < st.store.delays.getD st.store.imageix 0 ∧
        elapsedMs st.refresh_ts now > 10 * (st.store.delays.getD st.store.imageix 0 : Int)) →
      onTimeout k st now m1 m2 = .go st) ∧
    (∀ st1, advanceFrame k st m1 m2 = .go st1 →
      (fh_gif_next st.store st.opt_alpha st.x_size st.y_size m1 m2).ret = .FH_ERROR_OK ∧
      st1.store = (fh_gif_next st.store st.opt_alpha st.x_size st.y_size m1 m2).store ∧
      st1.refresh = true) ∧
    (0 ≤ (now.tv_sec - st.refresh_ts.tv_sec) * 1000000000 +
        (now.tv_nsec - st.refresh_ts.tv_nsec) →
      (now.tv_sec - st.refresh_ts.tv_sec) * 1000000000 +
        (now.tv_nsec - st.refresh_ts.tv_nsec) < 2147483648 * 1000000 →
      elapsedMs st.refresh_ts now =
        ((now.tv_sec - st.refresh_ts.tv_sec) * 1000000000 +
          (now.tv_nsec - st.refresh_ts.tv_nsec)) / 1000000) ∧
    (2147483648 * 1000000 ≤ (now.tv_sec - st.refresh_ts.tv_sec) * 1000000000 +
        (now.tv_nsec - st.refresh_ts.tv_nsec) →
      elapsedMs st.refresh_ts now = -2147483648 ∧ onTimeout k st now m1 m2 = .go st) := by
  have hd : (fh_gif_get_delay st.store : Int) =
      10 * (st.store.delays.getD st.store.imageix 0 : Int) := by
    unfold fh_gif_get_delay
    push_cast
    ring
  have hgo : ¬(0 < st.store.delays.getD st.store.imageix 0 ∧
        elapsedMs st.refresh_ts now > 10 * (st.store.delays.getD st.store.imageix 0 : Int)) →
      onTimeout k st now m1 m2 = .go st := by
    intro hnot
    unfold onTimeout
    rw [hs]
    have : frameDue st now = false := by
      simp only [frameDue, decide_eq_false_iff_not, hd]
      intro hc
      exact hnot ⟨by omega, hc.2.2.2⟩
    simp [this]
  refine ⟨hd, fun hdue => ?_, hgo, fun st1 h => ?_, (elapsedMs_exact st.refresh_ts now).1,
    fun hbig => ?_⟩
  · unfold onTimeout
    rw [hs]
    have : frameDue st now = true := by
      simp only [frameDue, decide_eq_true_eq, hd]
      exact ⟨hre, hm, by omega, hdue.2⟩
    simp [this]
  · obtain ⟨h1, h2, h3, _⟩ := advanceFrame_go k st st1 m1 m2 h
    exact ⟨h1, h2, h3⟩
  · have he := (elapsedMs_exact st.refresh_ts now).2 hbig
    refine ⟨he, hgo (fun hc => ?_)⟩
    have := hc.2
    rw [he] at this
    omega

/-- C16 amended, on the three-frame scenario (frame 0 has the delay 10): at
101 ms after the redraw the timeout branch is the frame advance. -/
theorem frame_advance_when_due_witness :
    onTimeout sampleCollaborators
      (sampleLoop 2 1 0 (fh_gif_load (some threeFrames) GifStore.initial false 2 1 []).store)
      (timeoutTick 101).now true true =
    advanceFrame sampleCollaborators
      (sampleLoop 2 1 0 (fh_gif_load (some threeFrames) GifStore.initial false 2 1 []).store)
      true true :=
  (frame_advance_when_due sampleCollaborators
    (sampleLoop 2 1 0 (fh_gif_load (some threeFrames) GifStore.initial false 2 1 []).store)
    (timeoutTick 101).now true true rfl rfl (by decide)).2.1 (by decide)

/-- C21: for every image state, `do_display` hands `fb_display` the pending
pixel block when there is one and the committed one otherwise, and likewise
the alpha block; on return `nextrgb` and `nextalpha` are both null, `rgb` and
`alpha` are the blocks that were handed to `fb_display`, and width and height
are as before (and are the ones handed over). -/
theorem display_commits_pending (k : Collaborators) (i : Image)
    (x_pan y_pan x_offs y_offs : Int) (newimage : Bool) :
    (∀ b, i.nextrgb = some b →
      (do_display k i x_pan y_pan x_offs y_offs newimage).2.image = some b) ∧
    (i.nextrgb = none → (do_display k i x_pan y_pan x_offs y_offs newimage).2.image = i.rgb) ∧
    (∀ a, i.nextalpha = some a →
      (do_display k i x_pan y_pan x_offs y_offs newimage).2.alpha = some a) ∧
    (i.nextalpha = none →
      (do_display k i x_pan y_pan x_offs y_offs newimage).2.alpha = i.alpha) ∧
    (do_display k i x_pan y_pan x_offs y_offs newimage).1.nextrgb = none ∧
    (do_display k i x_pan y_pan x_offs y_offs newimage).1.nextalpha = none ∧
    (do_display k i x_pan y_pan x_offs y_offs newimage).1.rgb =
      (do_display k i x_pan y_pan x_offs y_offs newimage).2.image ∧
    (do_display k i x_pan y_pan x_offs y_offs newimage).1.alpha =
      (do_display k i x_pan y_pan x_offs y_offs newimage).2.alpha ∧
    (do_display k i x_pan y_pan x_offs y_offs newimage).1.width = i.width ∧
    (do_display k i x_pan y_pan x_offs y_offs newimage).1.height = i.height ∧
    (do_display k i x_pan y_pan x_offs y_offs newimage).2.width = i.width ∧
    (do_display k i x_pan y_pan x_offs y_offs newimage).2.height = i.height := by
  refine ⟨fun b hb => ?_, fun hb => ?_, fun a ha => ?_, fun ha => ?_, ?_, ?_, ?_, ?_,
    (do_display_size k i _ _ _ _ _).1, (do_display_size k i _ _ _ _ _).2, rfl, rfl⟩
  · simp [do_display, hb]
  · simp [do_display, hb]
  · simp [do_display, ha]
  · simp [do_display, ha]
  · cases hb : i.nextrgb <;> cases ha : i.nextalpha <;> simp [do_display, hb, ha]
  · cases hb : i.nextrgb <;> cases ha : i.nextalpha <;> simp [do_display, hb, ha]
  · cases hb : i.nextrgb <;> cases ha : i.nextalpha <;> simp [do_display, hb, ha]
  · cases hb : i.nextrgb <;> cases ha : i.nextalpha <;> simp [do_display, hb, ha]

/-- C21 at an image state with the pending pixel block `[]` and no alpha. -/
theorem display_commits_pending_witness :
    (do_display sampleCollaborators (sampleImage 2 1) 0 0 0 0 true).2.image = some [] ∧
    (do_display sampleCollaborators (sampleImage 2 1) 0 0 0 0 true).2.alpha = none ∧
    (do_display sampleCollaborators (sampleImage 2 1) 0 0 0 0 true).1.nextrgb = none ∧
    (do_display sampleCollaborators (sampleImage 2 1) 0 0 0 0 true).1.rgb = some [] :=
  ⟨(display_commits_pending sampleCollaborators (sampleImage 2 1) 0 0 0 0 true).1 [] rfl,
   (display_commits_pending sampleCollaborators (sampleImage 2 1) 0 0 0 0 true).2.2.2.1 rfl,
   (display_commits_pending sampleCollaborators (sampleImage 2 1) 0 0 0 0 true).2.2.2.2.1,
   ((display_commits_pending sampleCollaborators (sampleImage 2 1) 0 0 0 0 true).2.2.2.2.2.2.1).trans
     ((display_commits_pending sampleCollaborators (sampleImage 2 1) 0 0 0 0 true).1 [] rfl)⟩

/-- C22, divergence: on the three-frame file of size 2x1 the keys `m`, `m`
bring `transform_rotation` to 2, yet the redraw that follows shows the size
1x2, where the transforms applied to the original size give 2x1: the
retransform pass rotates the image the previous pass left.  The timed frame
advance that follows, under the same transform state, shows 2x1.  And the key
`p` after one `m`, which leaves the transform state as it is, turns the shown
size from 1x2 back to 2x1. -/
theorem retransform_accumulates_rotation :
    (loopCalls sampleCollaborators threeFramesShow
      [keyTick (ch 'm'), keyTick (ch 'm'), timeoutTick 101, timeoutTick 0]).map
        (Option.map fun c => (c.width, c.height)) =
      [some (2, 1), some (1, 2), some (1, 2), some (2, 1)] ∧
    (runLoop sampleCollaborators threeFramesShow
      [keyTick (ch 'm'), keyTick (ch 'm')]).state?.map (fun st => st.transform_rotation) =
      some 2 ∧
    (runLoop sampleCollaborators threeFramesShow
      [keyTick (ch 'm'), keyTick (ch 'm'), timeoutTick 101]).state?.map
        (fun st => st.transform_rotation) = some 2 ∧
    ((runLoop sampleCollaborators threeFramesShow
      [keyTick (ch 'm'), keyTick (ch 'm')]).state?.bind
        fun st => applyTransforms sampleCollaborators st (originalSize st)).map
          (fun i => (i.width, i.height)) = some (2, 1) ∧
    (loopCalls sampleCollaborators threeFramesShow
      [keyTick (ch 'm'), keyTick (ch 'p'), timeoutTick 0]).map
        (Option.map fun c => (c.width, c.height)) =
      [some (2, 1), some (1, 2), some (2, 1)] ∧
    (runLoop sampleCollaborators threeFramesShow [keyTick (ch 'm')]).state?.map
        (fun st => (st.transform_rotation, st.transform_stretch, st.transform_enlarge,
          st.transform_cal, st.transform_iaspect)) =
      (runLoop sampleCollaborators threeFramesShow
        [keyTick (ch 'm'), keyTick (ch 'p')]).state?.map
        (fun st => (st.transform_rotation, st.transform_stretch, st.transform_enlarge,
          st.transform_cal, st.transform_iaspect)) := by
  decide

/-- C23, divergence: on the file `mixedAlpha` with alpha requested, frame 0
is stored without an alpha block and frame 1 with the block `[0x00, 0xff]`.
The loop shows frame 0 with no alpha, then frame 1 with its alpha, then, after
the cursor wrapped, the pixels of frame 0 with the alpha block of frame 1. -/
theorem stale_alpha_displayed :
    (fh_gif_load (some mixedAlpha) GifStore.initial true 2 1 []).ret = .FH_ERROR_OK ∧
    (fh_gif_load (some mixedAlpha) GifStore.initial true 2 1 []).store.alphas.getD 0 none =
      none ∧
    (fh_gif_load (some mixedAlpha) GifStore.initial true 2 1 []).store.alphas.getD 1 none =
      some [some 0x00, some 0xff] ∧
    (loopCalls sampleCollaborators mixedAlphaShow
      [timeoutTick 11, timeoutTick 11, timeoutTick 0]).map
        (Option.map fun c => (c.image, c.alpha)) =
      [some ((fh_gif_load (some mixedAlpha) GifStore.initial true 2 1 []).store.images.getD 0 none,
         none),
       some ((fh_gif_load (some mixedAlpha) GifStore.initial true 2 1 []).store.images.getD 1 none,
         some [some 0x00, some 0xff]),
       some ((fh_gif_load (some mixedAlpha) GifStore.initial true 2 1 []).store.images.getD 0 none,
         some [some 0x00, some 0xff])] := by
  decide

/-- C24, divergence: a file with neither a global nor a local colour table
makes `fh_gif_load` read `ColorCount` through a null pointer; and with the
two-entry table, a scanline holding the index 3 (not below `ColorCount` = 2)
is decoded by a lookup outside the table: the load returns `FH_ERROR_OK` and
the three bytes of that pixel are indeterminate. -/
theorem colour_lookup_unchecked :
    (fh_gif_load (some ⟨none, [frame2x1 0 1, .terminate]⟩) GifStore.initial false 2 1 []).ret =
      .undefinedBehaviour ∧
    sampleColors.ColorCount = 2 ∧
    (fh_gif_load (some ⟨some sampleColors, [frame2x1 0 3, .terminate]⟩)
      GifStore.initial false 2 1 []).ret = .FH_ERROR_OK ∧
    (fh_gif_load (some ⟨some sampleColors, [frame2x1 0 3, .terminate]⟩)
      GifStore.initial false 2 1 []).store.images.getD 0 none =
      some [some 0, some 0, some 0, none, none, none] := by
  decide


theorem decodeRows_unread (cmap : ColorMapObject) (px : Nat) (t : Int) (rows : List Nat)
    (n : Nat) (image : Buffer) (al : Option Buffer) (h : rows ≠ []) :
    (decodeRows [] cmap px t rows n image al).1 = false := by
  cases rows with
  | nil => exact absurd rfl h
  | cons i rows => simp [decodeRows, DGifGetLine]

theorem overrun_unread (px imageSize : Nat) (alphaSize : Option Nat) (rows : List Nat) (n : Nat) :
    overrun [] px imageSize alphaSize rows n = false := by
  cases rows with
  | nil => rfl
  | cons i rows => simp [overrun, DGifGetLine]

/-- An image record whose area passes the size test of the code, met with a
free slot, a colour table and successful allocations, is entered in the store
before its first scanline is asked for: when that first read fails, the load
returns `FH_ERROR_FORMAT` with the frame counted. -/
theorem loadImage_unread (c : LoadCall) (st : LoadState) (d : GifImageDesc)
    (cmap : ColorMapObject) (hcap : st.store.imagecount < MAX_IMAGES)
    (hguard : ¬ int32 (d.Width * d.Height) > int32 (c.x * c.y))
    (hcm : activeColorMap c d = some cmap) (hheap : AllSucceed st.heap) (hH : 0 < d.Height) :
    (loadImage c st (some d) []).1 = .ret .FH_ERROR_FORMAT ∧
    (loadImage c st (some d) []).2.store.imagecount = st.store.imagecount + 1 := by
  have m1 := malloc_allSucceed st.heap hheap
  have m2 := malloc_allSucceed _ m1.2
  have m3 := malloc_allSucceed _ m2.2
  have hrows : frameRows d ≠ [] := by
    intro h0
    have := frameRows_length d
    rw [h0] at this
    simp at this
    omega
  have hE : loadImage c st (some d) [] =
      loadFrame c st d [] cmap (malloc (malloc (malloc st.heap).2).2).2 := by
    simp only [loadImage]
    rw [if_neg (by omega), if_neg hguard]
    simp only [m1.1, m2.1, m3.1, Bool.and_self, if_true, hcm]
  rw [hE]
  refine ⟨?_, by rw [loadFrame_store]; rfl⟩
  unfold loadFrame
  simp only [frameOverrun, overrun_unread, Bool.false_eq_true, if_false]
  rw [if_pos]
  unfold decodeFrame
  exact decodeRows_unread _ _ _ _ _ _ _ hrows

theorem loadRecords_unread (c : LoadCall) (st : LoadState) (d : GifImageDesc)
    (cmap : ColorMapObject) (rest : List GifRecord) (hcap : st.store.imagecount < MAX_IMAGES)
    (hguard : ¬ int32 (d.Width * d.Height) > int32 (c.x * c.y))
    (hcm : activeColorMap c d = some cmap) (hheap : AllSucceed st.heap) (hH : 0 < d.Height) :
    (loadRecords c st (.imageDesc (some d) [] :: rest)).1 = .FH_ERROR_FORMAT ∧
    (loadRecords c st (.imageDesc (some d) [] :: rest)).2.store.imagecount =
      st.store.imagecount + 1 := by
  have h := loadImage_unread c st d cmap hcap hguard hcm hheap hH
  have e : loadRecord c st (.imageDesc (some d) []) =
      (.ret .FH_ERROR_FORMAT, (loadImage c st (some d) []).2) := Prod.ext h.1 rfl
  simp only [loadRecords, e]
  exact ⟨trivial, h.2⟩

/-- A 65535x65535 descriptor against the bounding box 2x2: the `int` product
of its dimensions is -131071, the size test does not reject it, and the frame
is entered in the store (here its first scanline read fails). -/
theorem wrapped_area_frame_is_stored :
    int32 (65535 * 65535) = -131071 ∧
    (fh_gif_load (some ⟨some sampleColors,
        [.imageDesc (some ⟨65535, 65535, false, none⟩) [], .terminate]⟩)
      GifStore.initial false 2 2 []).ret = .FH_ERROR_FORMAT ∧
    (fh_gif_load (some ⟨some sampleColors,
        [.imageDesc (some ⟨65535, 65535, false, none⟩) [], .terminate]⟩)
      GifStore.initial false 2 2 []).store.imagecount = 1 := by
  have h := loadRecords_unread ⟨some sampleColors, false, 2, 2⟩ (loadStart GifStore.initial [])
    ⟨65535, 65535, false, none⟩ sampleColors [.terminate] (by decide) (by decide) rfl
    (fun b hb => absurd hb (List.not_mem_nil b)) (by decide)
  refine ⟨by decide, ?_, ?_⟩
  · simp only [fh_gif_load]
    exact h.1
  · simp only [fh_gif_load]
    exact h.2

/-- C1, divergence: the file `mixedAlpha` is loaded with two frames, frame 1
with an alpha block.  A `fh_gif_next` call whose alpha allocation fails
returns `FH_ERROR_MEM`; the call after it succeeds.  This first successful
call returns the pixel block of frame 0, not that of frame `1 mod 2`, and the
two blocks differ. -/
theorem failed_call_shifts_cycle :
    (fh_gif_load (some mixedAlpha) GifStore.initial true 2 1 []).store.imagecount = 2 ∧
    (nextRun 2 1 (fh_gif_load (some mixedAlpha) GifStore.initial true 2 1 []).store
      [⟨true, true, false⟩, ⟨true, true, true⟩]).map (fun r => r.ret) =
      [.FH_ERROR_MEM, .FH_ERROR_OK] ∧
    okCount (nextRun 2 1 (fh_gif_load (some mixedAlpha) GifStore.initial true 2 1 []).store
      [⟨true, true, false⟩, ⟨true, true, true⟩]) = 1 ∧
    (nextRun 2 1 (fh_gif_load (some mixedAlpha) GifStore.initial true 2 1 []).store
      [⟨true, true, false⟩, ⟨true, true, true⟩]).map (fun r => r.buffer) =
      [none, (fh_gif_load (some mixedAlpha) GifStore.initial true 2 1 []).store.images.getD 0 none] ∧
    (fh_gif_load (some mixedAlpha) GifStore.initial true 2 1 []).store.images.getD 0 none ≠
      (fh_gif_load (some mixedAlpha) GifStore.initial true 2 1 []).store.images.getD (1 % 2) none ∧
    (nextRun 2 1 (fh_gif_load (some mixedAlpha) GifStore.initial true 2 1 []).store
      [⟨true, true, false⟩, ⟨true, true, true⟩]).map (fun r => r.store.imageix) = [1, 0] := by
  decide

/-- C3, divergence: a graphics-control record switches on the transparent
index 1, and the frame that follows is decoded with its three line and pixel
blocks allocated and the allocation of its alpha block failing.  The load
returns `FH_ERROR_OK`, the frame is stored, and it has no alpha block; with
every allocation succeeding its alpha block is `[0xff, 0x00]`. -/
theorem alpha_allocation_unchecked :
    activeTransparency [gce 1 0 0 1] = some 1 ∧
    (fh_gif_load (some ⟨some sampleColors, [gce 1 0 0 1, frame2x1 0 1, .terminate]⟩)
      GifStore.initial true 2 1 [true, true, true, false]).ret = .FH_ERROR_OK ∧
    (fh_gif_load (some ⟨some sampleColors, [gce 1 0 0 1, frame2x1 0 1, .terminate]⟩)
      GifStore.initial true 2 1 [true, true, true, false]).store.imagecount = 1 ∧
    (fh_gif_load (some ⟨some sampleColors, [gce 1 0 0 1, frame2x1 0 1, .terminate]⟩)
      GifStore.initial true 2 1 [true, true, true, false]).store.alphas.getD 0 none = none ∧
    (fh_gif_load (some ⟨some sampleColors, [gce 1 0 0 1, frame2x1 0 1, .terminate]⟩)
      GifStore.initial true 2 1 [true, true, true, false]).alpha = some none ∧
    (fh_gif_load (some ⟨some sampleColors, [gce 1 0 0 1, frame2x1 0 1, .terminate]⟩)
      GifStore.initial true 2 1 []).store.alphas.getD 0 none = some [some 0xff, some 0x00] := by
  decide


end Fbv
